import Mathlib

/-!
qaac: tag conversion, gapless descriptor and range-trimmed sources.

A shallow embedding of `itunetags.h`, `itunetags.cpp` and `iointer.h`.

* C++ `std::string` / `std::wstring` values are sequences of characters (`Str`).
* `std::map<K, V>` is a key-ordered association list; `operator[]` assignment is
  `mapSet` with the comparator of the key type, iteration is list order.
* `uint32_t` / `uint64_t` are `Nat` reduced modulo `2^32` / `2^64` where arithmetic
  can leave the range; `int` / `int64_t` are `Int`.
-/

namespace Qaac

/-! ## Characters and C strings -/

/-- Text, narrow or wide: the sequence of its characters. -/
abbrev Str := List Char

/-- C `tolower` in the "C" locale: only `A`..`Z` are changed. -/
def tolower (c : Char) : Char :=
  if 65 ≤ c.toNat ∧ c.toNat ≤ 90 then Char.ofNat (c.toNat + 32) else c

/-- C `isspace` in the "C" locale: space, `\t`, `\n`, `\v`, `\f`, `\r`. -/
def isspace (c : Char) : Bool :=
  c.toNat = 32 || (9 ≤ c.toNat && c.toNat ≤ 13)

/-- C `isdigit`. -/
def isdigit (c : Char) : Bool :=
  48 ≤ c.toNat && c.toNat ≤ 57

/-- Helper `strtransform(s, f)` of the repository: applies `f` to every character. -/
def strtransform (s : Str) (f : Char → Char) : Str :=
  s.map f

/-- The `std::string::c_str()` view read by a C function: the characters before the
first NUL. -/
def c_str (s : Str) : Str :=
  s.takeWhile (fun c => c.toNat ≠ 0)

/-- POSIX `strcasecmp` on NUL-free character sequences (end of list is the
terminator): difference of the first pair of characters that differ after
`tolower`, `0` when there is none. -/
def strcasecmp : Str → Str → Int
  | [], [] => 0
  | [], b :: _ => - ((tolower b).toNat : Int)
  | a :: _, [] => ((tolower a).toNat : Int)
  | a :: as, b :: bs =>
    if tolower a = tolower b then strcasecmp as bs
    else ((tolower a).toNat : Int) - ((tolower b).toNat : Int)

/-- The order `std::less<std::string>` of `std::map<std::string, _>`: lexicographic
on character codes, a proper prefix is smaller. -/
def strLt : Str → Str → Bool
  | [], [] => false
  | [], _ :: _ => true
  | _ :: _, [] => false
  | a :: as, b :: bs =>
    if a.toNat < b.toNat then true
    else if b.toNat < a.toNat then false
    else strLt as bs

/-- Modelled from the spec: `m2w` (strcnv.h, not part of the sources at hand), the
transcoding of a narrow UTF-8 string to wide text. The spec requires it lossless;
both sides are represented by their characters, so it is the identity. -/
def m2w (s : Str) : Str := s

/-- Modelled from the spec: `w2m` (strcnv.h, not part of the sources at hand), the
transcoding of wide text to a narrow UTF-8 string; lossless, see `m2w`. -/
def w2m (s : Str) : Str := s

/-- Modelled from the spec: `widen` (strcnv.h, not part of the sources at hand),
which widens an ASCII string character by character. -/
def widen (s : Str) : Str := s

/-! ## Machine integers -/

/-- Conversion to a 32-bit `int`: two's complement wrap-around. -/
def wrapInt32 (z : Int) : Int :=
  (z + 2147483648) % 4294967296 - 2147483648

/-- Conversion to `int64_t`: two's complement wrap-around. -/
def wrapInt64 (z : Int) : Int :=
  (z + 9223372036854775808) % 18446744073709551616 - 9223372036854775808

/-- Conversion to `uint64_t`. -/
def wrapUInt64 (z : Int) : Nat :=
  (z % 18446744073709551616).toNat

/-! ## Number formatting and scanning -/

/-- Digit character of `d < 10`. -/
def decDigit (d : Nat) : Char :=
  Char.ofNat (48 + d)

/-- Upper-case hexadecimal digit character of `d < 16` (as `%X` prints it). -/
def hexDigit (d : Nat) : Char :=
  if d < 10 then Char.ofNat (48 + d) else Char.ofNat (55 + d)

/-- Positional digits of `n` in base `b`, most significant first, pushed in front of
`acc`; `fuel` bounds the number of digits. -/
def toBaseAux (b : Nat) (dig : Nat → Char) : Nat → Nat → Str → Str
  | 0, _, acc => acc
  | fuel + 1, n, acc =>
    if n < b then dig n :: acc
    else toBaseAux b dig fuel (n / b) (dig (n % b) :: acc)

/-- Decimal numeral of a natural number, no leading zeros. -/
def natToDec (n : Nat) : Str :=
  toBaseAux 10 decDigit (n + 1) n []

/-- Upper-case hexadecimal numeral of a natural number, no leading zeros. -/
def natToHex (n : Nat) : Str :=
  toBaseAux 16 hexDigit (n + 1) n []

/-- The `%d` conversion of printf for an `int` argument. -/
def fmtD (z : Int) : Str :=
  if z < 0 then '-' :: natToDec z.natAbs else natToDec z.natAbs

/-- The `%08X` conversion of printf: the argument is read as `unsigned int`, printed
in upper-case hexadecimal and padded with zeros to at least 8 characters. -/
def fmt08X (z : Int) : Str :=
  let digits := natToHex (z % 4294967296).toNat
  List.replicate (8 - digits.length) '0' ++ digits

/-- Helper `format(fmt, ...)` of the repository (a `vsnprintf` wrapper), for the two
conversions its callers here use, `%d` and `%08X`; every other character of the
format is copied. -/
def format : Str → List Int → Str
  | [], _ => []
  | '%' :: 'd' :: rest, a :: args => fmtD a ++ format rest args
  | '%' :: '0' :: '8' :: 'X' :: rest, a :: args => fmt08X a ++ format rest args
  | c :: rest, args => c :: format rest args

/-- Value of a sequence of decimal digits, most significant first. -/
def digitsVal (ds : Str) : Nat :=
  ds.foldl (fun a c => a * 10 + (c.toNat - 48)) 0

/-- The `%d` conversion of scanf (also the body of `atoi`): skip white space, read an
optional sign and the longest run of decimal digits. `none` when there is no digit;
otherwise the value as an `int` and the unread rest. A NUL character is neither
white space nor a digit, so reading stops there as it does in C. A value outside
`int` is undefined in ISO C; it is taken with two's complement wrap-around. -/
def scanInt (s : Str) : Option (Int × Str) :=
  let s := s.dropWhile isspace
  let neg := s.head? = some '-'
  let s := if s.head? = some '-' ∨ s.head? = some '+' then s.tail else s
  let ds := s.takeWhile isdigit
  if ds = [] then none
  else some (wrapInt32 (if neg then - (digitsVal ds : Int) else (digitsVal ds : Int)),
             s.dropWhile isdigit)

/-- C `atoi` (and its wide twin `_wtoi`): the leading integer, `0` when there is
none. -/
def atoi (s : Str) : Int :=
  match scanInt s with
  | some (v, _) => v
  | none => 0

/-- Wide-character `_wtoi`. -/
def _wtoi (s : Str) : Int := atoi s

/-- `sscanf(s, "%d", &n)` (and `swscanf`): the return value and `n`, which keeps `n0`
when nothing is converted. Returns `-1` (EOF) when the input ends before a
conversion, `0` on a matching failure, `1` on success. -/
def sscanf_d (s : Str) (n0 : Int) : Int × Int :=
  match scanInt s with
  | some (v, _) => (1, v)
  | none => if s.dropWhile isspace = [] then (-1, n0) else (0, n0)

/-- `sscanf(s, "%d/%d", &n, &t)` (and `swscanf`): the return value, `n` and `t`;
a variable that is not converted keeps its input value. -/
def sscanf_d_slash_d (s : Str) (n0 t0 : Int) : Int × Int × Int :=
  match scanInt s with
  | none => if s.dropWhile isspace = [] then (-1, n0, t0) else (0, n0, t0)
  | some (n, rest) =>
    match rest with
    | '/' :: rest2 =>
      (match scanInt rest2 with
       | some (t, _) => (2, n, t)
       | none => (1, n, t0))
    | _ => (1, n, t0)

/-! ## `std::map` -/

/-- Assignment `m[k] = v` on a `std::map` kept as a key-ordered list, with the strict
order `lt` of the key type: a key equivalent to `k` gets the new value, otherwise the
pair is inserted at its place. -/
def mapSet {κ ν : Type} (lt : κ → κ → Bool) (k : κ) (v : ν) : List (κ × ν) → List (κ × ν)
  | [] => [(k, v)]
  | (k', v') :: rest =>
    if lt k k' then (k, v) :: (k', v') :: rest
    else if lt k' k then (k', v') :: mapSet lt k v rest
    else (k, v) :: rest

/-- Lookup `m.find(k)`: the value stored under `k`, if any. -/
def mapFind {κ ν : Type} [DecidableEq κ] (k : κ) (m : List (κ × ν)) : Option ν :=
  (m.find? (fun p => decide (p.1 = k))).map Prod.snd

/-- The order of `uint32_t` keys. -/
def natLt (a b : Nat) : Bool := decide (a < b)

/-- The store `std::map<uint32_t, std::wstring>`: canonical key to text. -/
abbrev TagStore := List (Nat × Str)

/-- The store `std::map<std::string, std::wstring>` of freeform tags. -/
abbrev LongTagStore := List (Str × Str)

/-- Comment pairs `std::map<std::string, std::string>`. -/
abbrev Comments := List (Str × Str)

/-- A list is the content of a `std::map`: keys strictly ascending. -/
def IsMap {κ ν : Type} (lt : κ → κ → Bool) (m : List (κ × ν)) : Prop :=
  m.Pairwise (fun a b => lt a.1 b.1 = true)

/-- The comparator of a `std::map` is a strict total order. -/
structure StrictOrder {κ : Type} (lt : κ → κ → Bool) : Prop where
  irrefl : ∀ a, lt a a = false
  trans : ∀ a b c, lt a b = true → lt b c = true → lt a c = true
  tri : ∀ a b, lt a b = false → lt b a = false → a = b

/-! ## Canonical tag keys (`namespace Tag`) -/

/-- Modelled from the spec: `fourcc` (util.h, not part of the sources at hand), the
32-bit identifier of a 4-character mnemonic, first character in the high byte, as
the multi-character literals next to it (`'trkn'`) are. -/
def fourcc (a b c d : Char) : Nat :=
  ((a.toNat * 256 + b.toNat) * 256 + c.toNat) * 256 + d.toNat

namespace Tag

def kTitle : Nat := fourcc (Char.ofNat 0xa9) 'n' 'a' 'm'
def kArtist : Nat := fourcc (Char.ofNat 0xa9) 'A' 'R' 'T'
def kAlbumArtist : Nat := fourcc 'a' 'A' 'R' 'T'
def kAlbum : Nat := fourcc (Char.ofNat 0xa9) 'a' 'l' 'b'
def kGrouping : Nat := fourcc (Char.ofNat 0xa9) 'g' 'r' 'p'
def kComposer : Nat := fourcc (Char.ofNat 0xa9) 'w' 'r' 't'
def kComment : Nat := fourcc (Char.ofNat 0xa9) 'c' 'm' 't'
def kGenre : Nat := fourcc (Char.ofNat 0xa9) 'g' 'e' 'n'
def kGenreID3 : Nat := fourcc 'g' 'n' 'r' 'e'
def kDate : Nat := fourcc (Char.ofNat 0xa9) 'd' 'a' 'y'
def kTrack : Nat := fourcc 't' 'r' 'k' 'n'
def kDisk : Nat := fourcc 'd' 'i' 's' 'k'
def kTempo : Nat := fourcc 't' 'm' 'p' 'o'
def kDescription : Nat := fourcc 'd' 'e' 's' 'c'
def kLongDescription : Nat := fourcc 'l' 'd' 'e' 's'
def kLyrics : Nat := fourcc (Char.ofNat 0xa9) 'l' 'y' 'r'
def kCopyright : Nat := fourcc 'c' 'p' 'r' 't'
def kCompilation : Nat := fourcc 'c' 'p' 'i' 'l'
def kTool : Nat := fourcc (Char.ofNat 0xa9) 't' 'o' 'o'
def kArtwork : Nat := fourcc 'c' 'o' 'v' 'r'

end Tag

/-! ## The comment vocabulary (`namespace Vorbis`) -/

namespace Vorbis

/-- The table `Vorbis::tagNameMap`, in source order, without its `{0, 0}` end
marker. -/
def tagNameMap : List (Str × Nat) :=
  [ ("title".toList, Tag.kTitle),
    ("artist".toList, Tag.kArtist),
    ("albumartist".toList, Tag.kAlbumArtist),
    ("album".toList, Tag.kAlbum),
    ("grouping".toList, Tag.kGrouping),
    ("composer".toList, Tag.kComposer),
    ("genre".toList, Tag.kGenre),
    ("genre".toList, Tag.kGenreID3),
    ("date".toList, Tag.kDate),
    ("year".toList, Tag.kDate),
    ("tracknumber".toList, Tag.kTrack),
    ("track".toList, Tag.kTrack),
    ("discnumber".toList, Tag.kDisk),
    ("disc".toList, Tag.kDisk),
    ("comment".toList, Tag.kComment) ]

/-- `Vorbis::GetIDFromTagName`: the id of the first table row whose name equals
`name` up to letter case, `0` when there is none. -/
def GetIDFromTagName (name : Str) : Nat :=
  match tagNameMap.find? (fun e => decide (strcasecmp e.1 name = 0)) with
  | some e => e.2
  | none => 0

/-- `Vorbis::GetNameFromTagID`: the name of the first table row with id `fcc`, or
the null pointer. -/
def GetNameFromTagID (fcc : Nat) : Option Str :=
  match tagNameMap.find? (fun e => decide (e.2 = fcc)) with
  | some e => some e.1
  | none => none

/-- Local variables of the loop of `ConvertToItunesTags`. -/
structure ToState where
  result : TagStore
  totaltracks : Str
  totaldiscs : Str
  deriving DecidableEq

/-- One iteration of the loop of `ConvertToItunesTags` over a comment pair. -/
def toStep (st : ToState) (kv : Str × Str) : ToState :=
  let key := strtransform kv.1 tolower
  if key = "totaltracks".toList then { st with totaltracks := kv.2 }
  else if key = "totaldiscs".toList then { st with totaldiscs := kv.2 }
  else
    let id := GetIDFromTagName (c_str kv.1)
    if id > 0 then { st with result := mapSet natLt id (m2w kv.2) st.result }
    else st

/-- The statement after the loop for one of Track and Disk: with a non-empty total
and an entry under `key`, the entry becomes `"%d/%d"` of the two parsed numbers. -/
def packTotal (key : Nat) (total : Str) (result : TagStore) : TagStore :=
  match mapFind key result with
  | some index =>
    if total ≠ [] then
      mapSet natLt key (widen (format "%d/%d".toList [_wtoi index, atoi total])) result
    else result
  | none => result

/-- `Vorbis::ConvertToItunesTags`: comment pairs to the canonical store. -/
def ConvertToItunesTags (vc : Comments) : TagStore :=
  let st := vc.foldl toStep ⟨[], [], []⟩
  packTotal Tag.kDisk st.totaldiscs (packTotal Tag.kTrack st.totaltracks st.result)

/-- The Track and Disk branches of `ConvertFromItunesTags`: the index is always
written, the total only when positive; a value that does not start with a number
is skipped. -/
def fromIndexTotal (indexName totalName : Str) (value : Str) (result : Comments) :
    Comments :=
  let r := sscanf_d_slash_d value 0 0
  if r.1 < 1 then result
  else
    let result := mapSet strLt indexName (format "%d".toList [r.2.1]) result
    if r.2.2 > 0 then mapSet strLt totalName (format "%d".toList [r.2.2]) result
    else result

/-- One iteration of the loop of `ConvertFromItunesTags` over a canonical tag.
`genre` is TagLib's table `ID3v1::genre` (an external library): the name of a
0-based genre code, empty when out of range. -/
def fromStep (genre : Int → Str) (result : Comments) (kv : Nat × Str) : Comments :=
  match GetNameFromTagID kv.1 with
  | none => result
  | some name =>
    if kv.1 = Tag.kTrack then
      fromIndexTotal "tracknumber".toList "totaltracks".toList kv.2 result
    else if kv.1 = Tag.kDisk then
      fromIndexTotal "discnumber".toList "totaldiscs".toList kv.2 result
    else if kv.1 = Tag.kGenreID3 then
      let r := sscanf_d kv.2 0
      if r.1 = 1 then mapSet strLt name (genre (r.2 - 1)) result
      else result
    else mapSet strLt name (w2m kv.2) result

/-- `Vorbis::ConvertFromItunesTags`: the canonical store to comment pairs. -/
def ConvertFromItunesTags (genre : Int → Str) (itags : TagStore) : Comments :=
  itags.foldl (fromStep genre) []

end Vorbis

/-! ## Gapless descriptor (`TagEditor`) -/

/-- `struct GaplessInfo`: `delay` and `padding` are `uint32_t`, `samples` is
`uint64_t`. -/
structure GaplessInfo where
  delay : Nat
  padding : Nat
  samples : Nat
  deriving DecidableEq

/-- The format `iTunSMPB_template`. -/
def iTunSMPB_template : Str :=
  (" 00000000 %08X %08X %08X%08X " ++
   "00000000 00000000 00000000 00000000 00000000 00000000 00000000 00000000").toList

/-- Class `TagEditor` without the file name. `m_encoder_delay` and `m_padding` are
`int`, `m_nsamples` is `uint64_t`. -/
structure TagEditor where
  m_tags : TagStore
  m_long_tags : LongTagStore
  m_chapters : List (Str × Int)
  m_encoder_delay : Int
  m_padding : Int
  m_nsamples : Nat
  deriving DecidableEq

namespace TagEditor

/-- The constructor `TagEditor(path)`. -/
def new : TagEditor :=
  { m_tags := [], m_long_tags := [], m_chapters := [],
    m_encoder_delay := 0, m_padding := 0, m_nsamples := 0 }

/-- `TagEditor::setGaplessInfo`: the two `uint32_t` fields are converted to `int`. -/
def setGaplessInfo (e : TagEditor) (info : GaplessInfo) : TagEditor :=
  { e with m_encoder_delay := wrapInt32 info.delay,
           m_padding := wrapInt32 info.padding,
           m_nsamples := info.samples % 18446744073709551616 }

/-- The value computed in the first statement of `TagEditor::save`. -/
def gaplessValue (e : TagEditor) : Str :=
  format iTunSMPB_template
    [e.m_encoder_delay, e.m_padding,
     wrapInt32 ((e.m_nsamples >>> 32 : Nat) : Int),
     wrapInt32 ((e.m_nsamples &&& 0xffffffff : Nat) : Int)]

/-- The first statement of `TagEditor::save`: with a non-zero sample count the
descriptor is stored under `iTunSMPB` in the freeform tags. -/
def saveGapless (e : TagEditor) : TagEditor :=
  if e.m_nsamples ≠ 0 then
    { e with m_long_tags := mapSet strLt "iTunSMPB".toList (widen (gaplessValue e)) e.m_long_tags }
  else e

end TagEditor

/-! ## `PartialSource` -/

/-- The counters of `PartialSource<Source>` (both `uint64_t`), with the log of the
calls made to the `skipSamples` primitive of the concrete `Source`. -/
structure PartialSource where
  m_duration : Nat
  m_samples_read : Nat
  skipped : List Int
  deriving DecidableEq

namespace PartialSource

/-- The value `uint64_t(-1)` that stands for "no duration set". -/
def noDuration : Nat := 18446744073709551615

/-- The constructor `PartialSource()`. -/
def new : PartialSource :=
  { m_duration := noDuration, m_samples_read := 0, skipped := [] }

def getDuration (p : PartialSource) : Nat := p.m_duration

def addSamplesRead (p : PartialSource) (n : Nat) : PartialSource :=
  { p with m_samples_read := (p.m_samples_read + n) % 18446744073709551616 }

def getSamplesRead (p : PartialSource) : Nat := p.m_samples_read

def getRemainingSamples (p : PartialSource) : Nat :=
  wrapUInt64 ((p.m_duration : Int) - (p.m_samples_read : Int))

def adjustSamplesToRead (p : PartialSource) (n : Nat) : Nat :=
  min n p.getRemainingSamples

/-- `PartialSource::setRange(start, length)`; both arguments are `int64_t` and the
default `length` is `-1`. -/
def setRange (p : PartialSource) (start : Int) (length : Int) : PartialSource :=
  let dur := wrapInt64 p.m_duration
  let p1 := if length ≥ 0 ∧ (dur = -1 ∨ length < dur) then
              { p with m_duration := wrapUInt64 length } else p
  let p2 := if start ≠ 0 then { p1 with skipped := p1.skipped ++ [start] } else p1
  if start > 0 ∧ dur > 0 ∧ length = -1 then
    { p2 with m_duration := wrapUInt64 ((p2.m_duration : Int) - start) }
  else p2

end PartialSource


/-! ## `ShortTagWriter` -/

/-- C `strcmp` on NUL-free character sequences (end of list is the terminator):
difference of the first pair of characters that differ, `0` when there is none. -/
def strcmp : Str → Str → Int
  | [], [] => 0
  | [], b :: _ => - (b.toNat : Int)
  | a :: _, [] => (a.toNat : Int)
  | a :: as, b :: bs =>
    if a = b then strcmp as bs else (a.toNat : Int) - (b.toNat : Int)

/-- The calls that `ShortTagWriter` makes on the container file (`MP4FileX`, from
mp4v2wrapper.h), with the arguments as they are passed; `code` is the tag key whose
four characters `fourcc(key).svalue` name the atom. -/
inductive MetadataWrite where
  | SetMetadataTrack (n total : Int)
  | SetMetadataDisk (n total : Int)
  | SetMetadataUint8 (code : Nat) (n : Int)
  | SetMetadataUint16 (code : Nat) (n : Int)
  | SetMetadataGenre (code : Nat) (n : Int)
  | SetMetadataString (code : Nat) (value : Str)
  deriving DecidableEq

namespace ShortTagWriter

/-- `ShortTagWriter::writeTag`: the calls made on the file for one tag. The local
`n` is uninitialised in the source and only read after a successful conversion. -/
def writeTag (key : Nat) (value : Str) : List MetadataWrite :=
  let vp := c_str (w2m value)
  if key = Tag.kTrack then
    let r := sscanf_d_slash_d vp 0 0
    if r.1 > 0 then [MetadataWrite.SetMetadataTrack r.2.1 r.2.2] else []
  else if key = Tag.kDisk then
    let r := sscanf_d_slash_d vp 0 0
    if r.1 > 0 then [MetadataWrite.SetMetadataDisk r.2.1 r.2.2] else []
  else if key = Tag.kCompilation then
    let r := sscanf_d vp 0
    if r.1 = 1 then [MetadataWrite.SetMetadataUint8 key r.2] else []
  else if key = Tag.kTempo then
    let r := sscanf_d vp 0
    if r.1 = 1 then [MetadataWrite.SetMetadataUint16 key r.2] else []
  else if key = Tag.kGenreID3 then
    let r := sscanf_d vp 0
    if r.1 = 1 then [MetadataWrite.SetMetadataGenre key r.2] else []
  else [MetadataWrite.SetMetadataString key vp]

end ShortTagWriter

/-! ## `namespace ID3` -/

namespace ID3

/-- The table `ID3::tagNameMap`, in source order, without its `{0, 0}` end marker. -/
def tagNameMap : List (Str × Nat) :=
  [ ("TIT2".toList, Tag.kTitle),
    ("TPE1".toList, Tag.kArtist),
    ("TPE2".toList, Tag.kAlbumArtist),
    ("TALB".toList, Tag.kAlbum),
    ("TIT1".toList, Tag.kGrouping),
    ("TCOM".toList, Tag.kComposer),
    ("TCON".toList, Tag.kGenre),
    ("TDRC".toList, Tag.kDate),
    ("TRCK".toList, Tag.kTrack),
    ("TPOS".toList, Tag.kDisk),
    ("TBPM".toList, Tag.kTempo),
    ("TCOP".toList, Tag.kCopyright),
    ("TCMP".toList, Tag.kCompilation) ]

/-- `ID3::GetIDFromTagName`: the id of the first table row whose name is `name`,
`0` when there is none. -/
def GetIDFromTagName (name : Str) : Nat :=
  match tagNameMap.find? (fun e => decide (strcmp e.1 name = 0)) with
  | some e => e.2
  | none => 0

end ID3

/-! ## `namespace m4a` -/

/-- `MP4ItmfData` of mp4v2, as far as `parseValue` reads it: `value` is the byte
buffer (`none` for a null pointer). -/
structure MP4ItmfData where
  typeCode : Nat
  value : Option (List Nat)
  valueSize : Nat
  deriving DecidableEq

/-- Type code `MP4_ITMF_BT_UTF8` of mp4v2. -/
def MP4_ITMF_BT_UTF8 : Nat := 1

/-- Type code `MP4_ITMF_BT_INTEGER` of mp4v2. -/
def MP4_ITMF_BT_INTEGER : Nat := 21

namespace m4a

/-- The byte `value[i]`. Reading past the end of the buffer is undefined in C; it
reads `0` here. -/
def byteAt (value : List Nat) (i : Nat) : Nat :=
  value.getD i 0

/-- The expression `(value[i] << 8) | value[i + 1]`. -/
def be16 (value : List Nat) (i : Nat) : Int :=
  (((byteAt value i <<< 8) ||| byteAt value (i + 1) : Nat) : Int)

/-- `m4a::parseValue`: the text of one metadata item. -/
def parseValue (fcc : Nat) (data : MP4ItmfData) : Str :=
  match data.value with
  | none => []
  | some value =>
    if fcc = Tag.kGenreID3 then
      widen (format "%d".toList [be16 value 0])
    else if fcc = Tag.kDisk ∨ fcc = Tag.kTrack then
      widen (format "%d/%d".toList [be16 value 2, be16 value 4])
    else if data.typeCode = MP4_ITMF_BT_INTEGER then
      if data.valueSize = 1 then
        widen (format "%d".toList [(byteAt value 0 : Int)])
      else if data.valueSize = 2 then
        widen (format "%d".toList [be16 value 0])
      else if data.valueSize = 4 then
        widen (format "%d".toList
          [wrapInt32 ((((byteAt value 0 <<< 24) ||| (byteAt value 1 <<< 16) |||
            (byteAt value 2 <<< 8) ||| byteAt value 3 : Nat)) : Int)])
      else []
    else if data.typeCode = MP4_ITMF_BT_UTF8 then
      m2w ((value.take data.valueSize).map Char.ofNat)
    else []

end m4a

/-! ## `DelegatingSource` -/

/-- An implementation of the interface `ITagParser`: what its two methods return;
`getChapters` returns a pointer, `none` is the null pointer. -/
structure ITagParser where
  getTags : TagStore
  getChapters : Option (List (Str × Int))
  deriving DecidableEq

/-- An object behind a `shared_ptr<ISource>`, as far as `DelegatingSource` uses it
for tags: `tagParser` is the outcome of `dynamic_cast<ITagParser*>`, `none` when the
object does not implement `ITagParser`. -/
structure ISource where
  length : Nat
  getSamplesRead : Nat
  tagParser : Option ITagParser
  deriving DecidableEq

/-- Class `DelegatingSource`; `m_src` is `none` for an empty `shared_ptr`. -/
structure DelegatingSource where
  m_src : Option ISource
  m_emptyTags : TagStore
  deriving DecidableEq

namespace DelegatingSource

/-- The constructor `DelegatingSource()`. -/
def empty : DelegatingSource :=
  { m_src := none, m_emptyTags := [] }

/-- The constructor `DelegatingSource(src)`. -/
def new (src : ISource) : DelegatingSource :=
  { m_src := some src, m_emptyTags := [] }

/-- `DelegatingSource::setSource`. -/
def setSource (d : DelegatingSource) (src : ISource) : DelegatingSource :=
  { d with m_src := some src }

/-- `DelegatingSource::getTags`. -/
def getTags (d : DelegatingSource) : TagStore :=
  match d.m_src.bind (fun s => s.tagParser) with
  | none => d.m_emptyTags
  | some parser => parser.getTags

/-- `DelegatingSource::getChapters`. -/
def getChapters (d : DelegatingSource) : Option (List (Str × Int)) :=
  match d.m_src.bind (fun s => s.tagParser) with
  | none => none
  | some parser => parser.getChapters

end DelegatingSource

/-! ## Vocabulary of the statements -/

/-- A three-entry stand-in for the table `TagLib::ID3v1::genre` (an external
library), used where a statement is evaluated: the names of the 0-based codes 0, 1
and 2, and the empty text for every other code. -/
def sampleGenre (i : Int) : Str :=
  if i = 0 then "Blues".toList
  else if i = 1 then "Classic Rock".toList
  else if i = 2 then "Country".toList
  else []

/-- No character of the text is NUL. -/
def NulFree (s : Str) : Prop :=
  ∀ c ∈ s, c.toNat ≠ 0

/-- The text `index/total` of two natural numbers. -/
def indexSlashTotal (index total : Nat) : Str :=
  natToDec index ++ '/' :: natToDec total

/-- Modelled from the spec: the 8-byte Track/Disk buffer, 2 reserved bytes, the
index and the total as 16-bit big-endian numbers, 2 reserved bytes (it is written
by mp4v2, an external library). -/
def trackDiskBuffer (r0 r1 index total r2 r3 : Nat) : List Nat :=
  [r0, r1, index / 256, index % 256, total / 256, total % 256, r2, r3]


/-- The `k` least significant hexadecimal digits of `n`, most significant first, in
upper case. -/
def hexDigits : Nat → Nat → Str
  | 0, _ => []
  | k + 1, n => hexDigits k (n / 16) ++ [hexDigit (n % 16)]

/-- The value `n` written as exactly 8 upper-case hexadecimal digits. -/
def hex8 (n : Nat) : Str := hexDigits 8 n

/-- An upper-case hexadecimal digit: `0`..`9` or `A`..`F`. -/
def isHexUpper (c : Char) : Bool :=
  (48 ≤ c.toNat && c.toNat ≤ 57) || (65 ≤ c.toNat && c.toNat ≤ 70)

/-- The space-separated fields of a text: the non-empty pieces between spaces. -/
def fields (s : Str) : List Str :=
  (s.splitOn ' ').filter (fun f => decide (f ≠ []))

/-- The field `00000000`. -/
def zeroField : Str := "00000000".toList

/-- The descriptor that `TagEditor::save` stores for gapless info `info` in an editor
`e`: the value found under `iTunSMPB` after `setGaplessInfo` and the first statement
of `save`. -/
def gaplessDescriptor (e : TagEditor) (info : GaplessInfo) : Option Str :=
  mapFind "iTunSMPB".toList ((e.setGaplessInfo info).saveGapless).m_long_tags

instance (s : Str) : Decidable (NulFree s) :=
  inferInstanceAs (Decidable (∀ c ∈ s, c.toNat ≠ 0))

/-- The keys of the tags whose value both conversions carry over as text. -/
def textKeys : List Nat :=
  [Tag.kTitle, Tag.kArtist, Tag.kAlbumArtist, Tag.kAlbum, Tag.kGrouping, Tag.kComposer,
   Tag.kGenre, Tag.kDate, Tag.kComment]

/-- The names of the comments that `Vorbis::ConvertFromItunesTags` can write: for
each key the name of its first row in the table, and the two total fields. -/
def writtenNames : List Str :=
  ["title".toList, "artist".toList, "albumartist".toList, "album".toList,
   "grouping".toList, "composer".toList, "genre".toList, "date".toList,
   "tracknumber".toList, "discnumber".toList, "comment".toList,
   "totaltracks".toList, "totaldiscs".toList]

/-- A Track or Disk value in the form that both conversions keep: the decimal text
`i`, or `i/t` with a total `t` greater than zero, both numbers within `int`. -/
def CanonicalIndexTotal (s : Str) : Prop :=
  ∃ i t : Nat, i < 2147483648 ∧ t < 2147483648 ∧
    (s = natToDec i ∨ (0 < t ∧ s = indexSlashTotal i t))

/-- A tag that the round trip through the comment vocabulary keeps: a text tag, or
a Track or Disk tag with a value in canonical form. -/
def RoundTripTag (kv : Nat × Str) : Prop :=
  kv.1 ∈ textKeys ∨ ((kv.1 = Tag.kTrack ∨ kv.1 = Tag.kDisk) ∧ CanonicalIndexTotal kv.2)

/-! ## Lemmas: characters and numerals -/

theorem toNat_ofNat_small (n : Nat) (h : n < 55296) : (Char.ofNat n).toNat = n := by
  have hv : n.isValidChar := Or.inl h
  simp [Char.ofNat, hv, Char.ofNatAux, Char.toNat, UInt32.toNat]

theorem char_eq_of_toNat_eq {a b : Char} (h : a.toNat = b.toNat) : a = b := by
  rw [← Char.ofNat_toNat a, ← Char.ofNat_toNat b, h]

theorem decDigit_toNat (d : Nat) (h : d < 10) : (decDigit d).toNat = 48 + d := by
  unfold decDigit
  exact toNat_ofNat_small _ (by omega)

theorem isdigit_decDigit (d : Nat) (h : d < 10) : isdigit (decDigit d) = true := by
  simp [isdigit, decDigit_toNat d h]
  omega

theorem toBaseAux_append (b : Nat) (dig : Nat → Char) (hb : 1 < b) :
    ∀ (n fuel1 fuel2 : Nat) (acc : Str), n < fuel1 → n < fuel2 →
      toBaseAux b dig fuel1 n acc = toBaseAux b dig fuel2 n [] ++ acc := by
  intro n
  induction n using Nat.strong_induction_on with
  | _ n ih =>
    intro fuel1 fuel2 acc h1 h2
    obtain ⟨f1, rfl⟩ : ∃ f, fuel1 = f + 1 := ⟨fuel1 - 1, by omega⟩
    obtain ⟨f2, rfl⟩ : ∃ f, fuel2 = f + 1 := ⟨fuel2 - 1, by omega⟩
    simp only [toBaseAux]
    by_cases hn : n < b
    · simp [hn]
    · simp only [hn, if_false]
      have hpos : 0 < n := by omega
      have hdiv : n / b < n := Nat.div_lt_self hpos hb
      rw [ih (n / b) hdiv f1 (n / b + 1) _ (by omega) (by omega),
        ih (n / b) hdiv f2 (n / b + 1) [dig (n % b)] (by omega) (by omega)]
      simp

theorem toBase_rec (b : Nat) (dig : Nat → Char) (hb : 1 < b) (n : Nat) :
    toBaseAux b dig (n + 1) n [] =
      if n < b then [dig n]
      else toBaseAux b dig (n / b + 1) (n / b) [] ++ [dig (n % b)] := by
  by_cases hn : n < b
  · simp [toBaseAux, hn]
  · have hpos : 0 < n := by omega
    have hdiv : n / b < n := Nat.div_lt_self hpos hb
    simp only [toBaseAux, hn, if_false]
    exact toBaseAux_append b dig hb (n / b) n (n / b + 1) _ hdiv (by omega)

theorem natToDec_rec (n : Nat) :
    natToDec n = if n < 10 then [decDigit n] else natToDec (n / 10) ++ [decDigit (n % 10)] :=
  toBase_rec 10 decDigit (by decide) n

theorem natToHex_rec (n : Nat) :
    natToHex n = if n < 16 then [hexDigit n] else natToHex (n / 16) ++ [hexDigit (n % 16)] :=
  toBase_rec 16 hexDigit (by decide) n

theorem natToDec_ne_nil (n : Nat) : natToDec n ≠ [] := by
  rw [natToDec_rec]
  split <;> simp

theorem natToDec_isdigit (n : Nat) : ∀ c ∈ natToDec n, isdigit c = true := by
  induction n using Nat.strong_induction_on with
  | _ n ih =>
    rw [natToDec_rec]
    by_cases hn : n < 10
    · simp only [hn, if_true, List.mem_singleton]
      intro c hc
      rw [hc]
      exact isdigit_decDigit n hn
    · simp only [hn, if_false, List.mem_append, List.mem_singleton]
      intro c hc
      rcases hc with hc | hc
      · exact ih (n / 10) (Nat.div_lt_self (by omega) (by decide)) c hc
      · rw [hc]
        exact isdigit_decDigit _ (Nat.mod_lt _ (by decide))

theorem digitsVal_append_single (ds : Str) (c : Char) :
    digitsVal (ds ++ [c]) = digitsVal ds * 10 + (c.toNat - 48) := by
  simp [digitsVal, List.foldl_append]

theorem digitsVal_natToDec (n : Nat) : digitsVal (natToDec n) = n := by
  induction n using Nat.strong_induction_on with
  | _ n ih =>
    rw [natToDec_rec]
    by_cases hn : n < 10
    · simp [hn, digitsVal, decDigit_toNat n hn]
    · simp only [hn, if_false]
      rw [digitsVal_append_single, ih (n / 10) (Nat.div_lt_self (by omega) (by decide)),
        decDigit_toNat _ (Nat.mod_lt _ (by decide))]
      omega

/-- The first character of a decimal numeral is a digit. -/
theorem natToDec_head (n : Nat) : ∃ c cs, natToDec n = c :: cs ∧ isdigit c = true := by
  have hne := natToDec_ne_nil n
  cases h : natToDec n with
  | nil => exact absurd h hne
  | cons c cs =>
    exact ⟨c, cs, rfl, natToDec_isdigit n c (by rw [h]; exact List.mem_cons_self _ _)⟩

theorem takeWhile_append_of_all {α : Type} (p : α → Bool) (l r : List α)
    (hl : ∀ x ∈ l, p x = true) (hr : r.head?.map p ≠ some true) :
    (l ++ r).takeWhile p = l ∧ (l ++ r).dropWhile p = r := by
  induction l with
  | nil =>
    cases r with
    | nil => simp
    | cons x xs =>
      have hx : p x = false := by
        cases hp : p x with
        | false => rfl
        | true => simp [hp] at hr
      simp [List.takeWhile, List.dropWhile, hx]
  | cons a l ih =>
    have ha : p a = true := hl a (List.mem_cons_self _ _)
    have ih' := ih (fun x hx => hl x (List.mem_cons_of_mem _ hx))
    simp [List.takeWhile, List.dropWhile, ha, ih'.1, ih'.2]

theorem isdigit_not_space (c : Char) (h : isdigit c = true) : isspace c = false := by
  simp only [isdigit, isspace, Bool.and_eq_true, decide_eq_true_eq, Bool.or_eq_false_iff,
    decide_eq_false_iff_not, Bool.and_eq_false_iff] at *
  omega

theorem isdigit_not_sign (c : Char) (h : isdigit c = true) : c ≠ '-' ∧ c ≠ '+' := by
  simp only [isdigit, Bool.and_eq_true, decide_eq_true_eq] at h
  constructor <;> intro hc <;> rw [hc] at h <;> revert h <;> decide

/-- Scanning a decimal numeral that fits `int` yields its value and stops at the
first character that is not a digit. -/
theorem scanInt_natToDec (n : Nat) (rest : Str) (hn : n < 2147483648)
    (hr : rest.head?.map isdigit ≠ some true) :
    scanInt (natToDec n ++ rest) = some ((n : Int), rest) := by
  obtain ⟨c, cs, hc, hd⟩ := natToDec_head n
  have hsp : isspace c = false := isdigit_not_space c hd
  have hsg := isdigit_not_sign c hd
  have htd := takeWhile_append_of_all isdigit (natToDec n) rest (natToDec_isdigit n) hr
  have hdrop : (natToDec n ++ rest).dropWhile isspace = natToDec n ++ rest := by
    rw [hc]; simp [List.dropWhile, hsp]
  have hhead : (natToDec n ++ rest).head? = some c := by rw [hc]; rfl
  have hw : wrapInt32 (n : Int) = (n : Int) := by unfold wrapInt32; omega
  unfold scanInt
  simp only [hdrop, hhead, Option.some.injEq, hsg.1, hsg.2, or_self, if_false, htd.1, htd.2,
    natToDec_ne_nil n, digitsVal_natToDec, hw, decide_False, Bool.false_eq_true]

theorem atoi_natToDec (n : Nat) (hn : n < 2147483648) : atoi (natToDec n) = (n : Int) := by
  have h := scanInt_natToDec n [] hn (by simp)
  rw [List.append_nil] at h
  simp [atoi, h]

theorem fmtD_nat (n : Nat) : fmtD (n : Int) = natToDec n := by
  have h : ¬ ((n : Int) < 0) := by omega
  simp [fmtD, h]

theorem format_d (a : Int) : format "%d".toList [a] = fmtD a := by
  simp [format]

theorem format_d_slash_d (a b : Int) :
    format "%d/%d".toList [a, b] = fmtD a ++ '/' :: fmtD b := by
  simp [format]

/-! ## Lemmas: ordered maps -/

theorem natLt_strictOrder : StrictOrder natLt where
  irrefl := by intro a; simp [natLt]
  trans := by
    intro a b c h1 h2
    simp only [natLt, decide_eq_true_eq] at *
    omega
  tri := by
    intro a b h1 h2
    simp only [natLt, decide_eq_false_iff_not] at *
    omega

theorem strLt_irrefl : ∀ a : Str, strLt a a = false
  | [] => rfl
  | a :: as => by simp [strLt, strLt_irrefl as]

theorem strLt_trans : ∀ a b c : Str, strLt a b = true → strLt b c = true → strLt a c = true
  | [], [], _, h, _ => by simp [strLt] at h
  | [], _ :: _, [], _, h => by simp [strLt] at h
  | [], _ :: _, _ :: _, _, _ => by simp [strLt]
  | _ :: _, [], _, h, _ => by simp [strLt] at h
  | _ :: _, _ :: _, [], _, h => by simp [strLt] at h
  | a :: as, b :: bs, c :: cs, h1, h2 => by
    simp only [strLt] at h1 h2 ⊢
    by_cases hab : a.toNat < b.toNat
    · by_cases hbc : b.toNat < c.toNat
      · have : a.toNat < c.toNat := by omega
        simp [this]
      · by_cases hcb : c.toNat < b.toNat
        · simp [hbc, hcb] at h2
        · have : a.toNat < c.toNat := by omega
          simp [this]
    · by_cases hba : b.toNat < a.toNat
      · simp [hab, hba] at h1
      · simp only [hab, hba, if_false] at h1
        by_cases hbc : b.toNat < c.toNat
        · have : a.toNat < c.toNat := by omega
          simp [this]
        · by_cases hcb : c.toNat < b.toNat
          · simp [hbc, hcb] at h2
          · simp only [hbc, hcb, if_false] at h2
            have h3 : ¬ a.toNat < c.toNat := by omega
            have h4 : ¬ c.toNat < a.toNat := by omega
            simp only [h3, h4, if_false]
            exact strLt_trans as bs cs h1 h2

theorem strLt_tri : ∀ a b : Str, strLt a b = false → strLt b a = false → a = b
  | [], [], _, _ => rfl
  | [], _ :: _, h, _ => by simp [strLt] at h
  | _ :: _, [], _, h => by simp [strLt] at h
  | a :: as, b :: bs, h1, h2 => by
    simp only [strLt] at h1 h2
    by_cases hab : a.toNat < b.toNat
    · simp [hab] at h1
    · by_cases hba : b.toNat < a.toNat
      · simp [hba] at h2
      · simp only [hab, hba, if_false] at h1 h2
        have hc : a = b := char_eq_of_toNat_eq (by omega)
        rw [hc, strLt_tri as bs h1 h2]

theorem strLt_strictOrder : StrictOrder strLt where
  irrefl := strLt_irrefl
  trans := strLt_trans
  tri := strLt_tri

section MapLemmas

set_option linter.unusedSectionVars false

variable {κ ν : Type} [DecidableEq κ] {lt : κ → κ → Bool}

theorem StrictOrder.ne_of_lt (ord : StrictOrder lt) {a b : κ} (h : lt a b = true) : a ≠ b := by
  intro hab
  rw [hab, ord.irrefl] at h
  exact Bool.false_ne_true h

theorem StrictOrder.asymm (ord : StrictOrder lt) {a b : κ} (h : lt a b = true) :
    lt b a = false := by
  cases hba : lt b a with
  | false => rfl
  | true =>
    have := ord.trans a b a h hba
    rw [ord.irrefl] at this
    exact absurd this Bool.false_ne_true

theorem mapFind_nil (k : κ) : mapFind k ([] : List (κ × ν)) = none := rfl

theorem mapFind_cons (k k' : κ) (v' : ν) (m : List (κ × ν)) :
    mapFind k ((k', v') :: m) = if k' = k then some v' else mapFind k m := by
  unfold mapFind
  by_cases h : k' = k <;> simp [List.find?, h]

/-- Reading a map after `m[k] = v`. -/
theorem mapFind_mapSet (ord : StrictOrder lt) (k k' : κ) (v : ν) (m : List (κ × ν)) :
    mapFind k' (mapSet lt k v m) = if k' = k then some v else mapFind k' m := by
  induction m with
  | nil =>
    by_cases h : k = k'
    · simp [mapSet, mapFind_cons, h]
    · have h' : ¬ k' = k := fun e => h e.symm
      simp [mapSet, mapFind_cons, mapFind_nil, h, h']
  | cons p rest ih =>
    obtain ⟨k0, v0⟩ := p
    simp only [mapSet]
    by_cases h1 : lt k k0 = true
    · rw [if_pos h1, mapFind_cons, mapFind_cons]
      by_cases h : k = k'
      · simp [h]
      · have h' : ¬ k' = k := fun e => h e.symm
        simp [h, h']
    · rw [if_neg h1]
      by_cases h2 : lt k0 k = true
      · rw [if_pos h2, mapFind_cons, mapFind_cons, ih]
        have hne : k0 ≠ k := ord.ne_of_lt h2
        by_cases h : k0 = k'
        · have h' : ¬ k' = k := by rw [← h]; exact hne
          simp [h, h']
        · simp [h]
      · rw [if_neg h2, mapFind_cons, mapFind_cons]
        have heq : k = k0 := ord.tri k k0 (by simpa using h1) (by simpa using h2)
        subst heq
        by_cases h : k = k'
        · simp [h]
        · have h' : ¬ k' = k := fun e => h e.symm
          simp [h, h']

theorem mapFind_mapSet_self (ord : StrictOrder lt) (k : κ) (v : ν) (m : List (κ × ν)) :
    mapFind k (mapSet lt k v m) = some v := by
  rw [mapFind_mapSet ord]; simp

theorem mapFind_mapSet_ne (ord : StrictOrder lt) {k k' : κ} (h : k' ≠ k) (v : ν)
    (m : List (κ × ν)) : mapFind k' (mapSet lt k v m) = mapFind k' m := by
  rw [mapFind_mapSet ord]; simp [h]

theorem mem_mapSet (k : κ) (v : ν) (m : List (κ × ν)) :
    ∀ p ∈ mapSet lt k v m, p = (k, v) ∨ p ∈ m := by
  induction m with
  | nil => intro p hp; simpa [mapSet] using hp
  | cons q rest ih =>
    obtain ⟨k0, v0⟩ := q
    intro p hp
    simp only [mapSet] at hp
    split at hp
    · simpa using hp
    · split at hp
      · rcases List.mem_cons.mp hp with h | h
        · right; rw [h]; exact List.mem_cons_self _ _
        · rcases ih p h with h' | h'
          · left; exact h'
          · right; exact List.mem_cons_of_mem _ h'
      · rcases List.mem_cons.mp hp with h | h
        · left; exact h
        · right; exact List.mem_cons_of_mem _ h

theorem isMap_nil : IsMap lt ([] : List (κ × ν)) := List.Pairwise.nil

theorem isMap_cons {p : κ × ν} {m : List (κ × ν)} :
    IsMap lt (p :: m) ↔ (∀ q ∈ m, lt p.1 q.1 = true) ∧ IsMap lt m := by
  unfold IsMap
  exact List.pairwise_cons

/-- `m[k] = v` keeps the keys strictly ascending. -/
theorem isMap_mapSet (ord : StrictOrder lt) (k : κ) (v : ν) (m : List (κ × ν))
    (hm : IsMap lt m) : IsMap lt (mapSet lt k v m) := by
  induction m with
  | nil => simp [mapSet, IsMap]
  | cons p rest ih =>
    obtain ⟨k0, v0⟩ := p
    obtain ⟨hhead, hrest⟩ := isMap_cons.mp hm
    simp only [mapSet]
    by_cases h1 : lt k k0 = true
    · simp only [h1, if_true]
      refine isMap_cons.mpr ⟨?_, hm⟩
      intro q hq
      rcases List.mem_cons.mp hq with h | h
      · rw [h]; exact h1
      · exact ord.trans _ _ _ h1 (hhead q h)
    · simp only [h1, if_false]
      by_cases h2 : lt k0 k = true
      · simp only [h2, if_true]
        refine isMap_cons.mpr ⟨?_, ih hrest⟩
        intro q hq
        rcases mem_mapSet k v rest q hq with h | h
        · rw [h]; exact h2
        · exact hhead q h
      · simp only [h2, if_false]
        have heq : k = k0 := ord.tri k k0 (by simpa using h1) (by simpa using h2)
        subst heq
        exact isMap_cons.mpr ⟨hhead, hrest⟩

theorem mapFind_eq_none_of_forall_ne (k : κ) (m : List (κ × ν)) (h : ∀ p ∈ m, p.1 ≠ k) :
    mapFind k m = none := by
  induction m with
  | nil => rfl
  | cons p rest ih =>
    obtain ⟨k0, v0⟩ := p
    have h0 : k0 ≠ k := h (k0, v0) (List.mem_cons_self _ _)
    rw [mapFind_cons, if_neg h0]
    exact ih (fun q hq => h q (List.mem_cons_of_mem _ hq))

theorem mem_of_mapFind_eq_some (k : κ) (v : ν) (m : List (κ × ν)) (h : mapFind k m = some v) :
    (k, v) ∈ m := by
  induction m with
  | nil => simp [mapFind_nil] at h
  | cons p rest ih =>
    obtain ⟨k0, v0⟩ := p
    rw [mapFind_cons] at h
    by_cases h0 : k0 = k
    · rw [if_pos h0] at h
      have hv : v0 = v := Option.some.inj h
      rw [h0, hv]; exact List.mem_cons_self _ _
    · rw [if_neg h0] at h
      exact List.mem_cons_of_mem _ (ih h)

/-- In a `std::map` a stored pair is what `find` returns. -/
theorem mapFind_of_mem (ord : StrictOrder lt) (k : κ) (v : ν) (m : List (κ × ν))
    (hm : IsMap lt m) (h : (k, v) ∈ m) : mapFind k m = some v := by
  induction m with
  | nil => simp at h
  | cons p rest ih =>
    obtain ⟨k0, v0⟩ := p
    obtain ⟨hhead, hrest⟩ := isMap_cons.mp hm
    rw [mapFind_cons]
    rcases List.mem_cons.mp h with h1 | h1
    · have hk : k = k0 := congrArg Prod.fst h1
      have hv : v = v0 := congrArg Prod.snd h1
      simp [hk, hv]
    · have hne : k0 ≠ k := ord.ne_of_lt (hhead (k, v) h1)
      rw [if_neg hne]
      exact ih hrest h1

/-- Two `std::map`s with the same content are the same key-ordered list. -/
theorem isMap_ext (ord : StrictOrder lt) :
    ∀ (a b : List (κ × ν)), IsMap lt a → IsMap lt b →
      (∀ k, mapFind k a = mapFind k b) → a = b := by
  intro a
  induction a with
  | nil =>
    intro b _ _ h
    cases b with
    | nil => rfl
    | cons q _ =>
      have := h q.1
      rw [mapFind_nil, mapFind_cons, if_pos rfl] at this
      exact absurd this (by simp)
  | cons p a ih =>
    intro b ha hb h
    obtain ⟨ka, va⟩ := p
    obtain ⟨hahead, harest⟩ := isMap_cons.mp ha
    cases b with
    | nil =>
      have := h ka
      rw [mapFind_nil, mapFind_cons, if_pos rfl] at this
      exact absurd this (by simp)
    | cons q b =>
      obtain ⟨kb, vb⟩ := q
      obtain ⟨hbhead, hbrest⟩ := isMap_cons.mp hb
      have hkeys : ka = kb := by
        by_contra hne
        have h1 := h ka
        rw [mapFind_cons, mapFind_cons, if_pos rfl, if_neg (fun e => hne e.symm)] at h1
        have hmem1 : (ka, va) ∈ b := mem_of_mapFind_eq_some ka va b h1.symm
        have h2 := h kb
        rw [mapFind_cons, mapFind_cons, if_pos rfl, if_neg hne] at h2
        have hmem2 : (kb, vb) ∈ a := mem_of_mapFind_eq_some kb vb a h2
        have l1 : lt kb ka = true := hbhead _ hmem1
        have l2 : lt ka kb = true := hahead _ hmem2
        rw [ord.asymm l1] at l2
        exact Bool.false_ne_true l2
      subst hkeys
      have hvals : va = vb := by
        have h1 := h ka
        rw [mapFind_cons, mapFind_cons, if_pos rfl, if_pos rfl] at h1
        exact Option.some.inj h1
      subst hvals
      have htail : a = b := by
        apply ih b harest hbrest
        intro k
        have h1 := h k
        rw [mapFind_cons, mapFind_cons] at h1
        by_cases hk : ka = k
        · subst hk
          rw [mapFind_eq_none_of_forall_ne ka a (fun q hq => (ord.ne_of_lt (hahead q hq)).symm),
            mapFind_eq_none_of_forall_ne ka b (fun q hq => (ord.ne_of_lt (hbhead q hq)).symm)]
        · rw [if_neg hk, if_neg hk] at h1
          exact h1
      rw [htail]

end MapLemmas

/-! ## Lemmas: the gapless descriptor -/

theorem hexDigit_isHexUpper (d : Nat) (h : d < 16) : isHexUpper (hexDigit d) = true := by
  interval_cases d <;> decide

theorem hexDigits_isHexUpper : ∀ (k n : Nat), ∀ c ∈ hexDigits k n, isHexUpper c = true
  | 0, _ => by simp [hexDigits]
  | k + 1, n => by
    intro c hc
    simp only [hexDigits, List.mem_append, List.mem_singleton] at hc
    rcases hc with hc | hc
    · exact hexDigits_isHexUpper k (n / 16) c hc
    · rw [hc]; exact hexDigit_isHexUpper _ (Nat.mod_lt _ (by decide))

theorem hexDigits_length : ∀ (k n : Nat), (hexDigits k n).length = k
  | 0, _ => rfl
  | k + 1, n => by simp [hexDigits, hexDigits_length k]

theorem space_not_mem_of_isHexUpper (l : Str) (h : ∀ c ∈ l, isHexUpper c = true) :
    ' ' ∉ l := by
  intro hmem
  have := h ' ' hmem
  revert this
  decide

theorem natToHex_zero : natToHex 0 = ['0'] := by decide

/-- Zero padding of the hexadecimal numeral to `k + 1` places gives the `k + 1` low
digits, when the value fits. -/
theorem pad_natToHex : ∀ (k n : Nat), n < 16 ^ (k + 1) →
    List.replicate (k + 1 - (natToHex n).length) '0' ++ natToHex n = hexDigits (k + 1) n
  | 0, n, h => by
    have hn : n < 16 := by simpa using h
    rw [natToHex_rec, if_pos hn]
    simp [hexDigits, Nat.mod_eq_of_lt hn]
  | k + 1, n, h => by
    have hdiv : n / 16 < 16 ^ (k + 1) := by
      rw [Nat.div_lt_iff_lt_mul (by decide)]
      calc n < 16 ^ (k + 1 + 1) := h
        _ = 16 ^ (k + 1) * 16 := by ring
    have ih := pad_natToHex k (n / 16) hdiv
    rw [hexDigits, ← ih]
    by_cases hn : n < 16
    · have h0 : n / 16 = 0 := Nat.div_eq_of_lt hn
      rw [natToHex_rec n, if_pos hn, h0, natToHex_zero, Nat.mod_eq_of_lt hn]
      simp only [List.length_singleton, Nat.add_sub_cancel]
      rw [show [( '0' : Char)] = List.replicate 1 '0' from rfl, ← List.replicate_add]
    · rw [natToHex_rec n, if_neg hn]
      simp only [List.length_append, List.length_singleton, List.append_assoc]
      congr 2
      omega

theorem fmt08X_eq_hex8 (z : Int) (n : Nat) (hz : (z % 4294967296).toNat = n) :
    fmt08X z = hex8 n := by
  have hn : n < 16 ^ (7 + 1) := by
    have : (16 : Nat) ^ (7 + 1) = 4294967296 := by norm_num
    rw [this]; omega
  unfold fmt08X hex8
  simp only [hz]
  exact pad_natToHex 7 n hn

theorem iTunSMPB_template_format (a b c d : Int) :
    format iTunSMPB_template [a, b, c, d] =
      [' '].intercalate
        ([[], zeroField, fmt08X a, fmt08X b, fmt08X c ++ fmt08X d] ++
          List.replicate 8 zeroField) := by
  have ht : iTunSMPB_template =
      " 00000000 ".toList ++ ('%' :: '0' :: '8' :: 'X' :: ' ' :: '%' :: '0' :: '8' :: 'X' ::
        ' ' :: '%' :: '0' :: '8' :: 'X' :: '%' :: '0' :: '8' :: 'X' ::
        " 00000000 00000000 00000000 00000000 00000000 00000000 00000000 00000000".toList) := by
    decide
  rw [ht]
  simp [format, List.intercalate, List.intersperse, zeroField, List.replicate]

theorem wrapInt32_mod (x : Nat) (h : x < 4294967296) :
    (wrapInt32 (x : Int) % 4294967296).toNat = x := by
  unfold wrapInt32
  omega

/-- The descriptor of a gapless info with a non-zero sample count, as the fields it
is joined from. -/
theorem gaplessDescriptor_eq (e : TagEditor) (info : GaplessInfo)
    (hd : info.delay < 4294967296) (hp : info.padding < 4294967296)
    (hs : info.samples < 18446744073709551616) (h0 : info.samples ≠ 0) :
    gaplessDescriptor e info = some ([' '].intercalate
      ([[], zeroField, hex8 info.delay, hex8 info.padding,
        hex8 (info.samples / 4294967296) ++ hex8 (info.samples % 4294967296)] ++
        List.replicate 8 zeroField)) := by
  have hsm : info.samples % 18446744073709551616 = info.samples := Nat.mod_eq_of_lt hs
  have hhi : info.samples >>> 32 = info.samples / 4294967296 := by
    simp [Nat.shiftRight_eq_div_pow]
  have hlo : info.samples &&& 0xffffffff = info.samples % 4294967296 := by
    have := Nat.and_pow_two_sub_one_eq_mod info.samples 32
    simpa using this
  have hhil : info.samples / 4294967296 < 4294967296 := by omega
  have hlol : info.samples % 4294967296 < 4294967296 := Nat.mod_lt _ (by decide)
  unfold gaplessDescriptor TagEditor.saveGapless
  simp only [TagEditor.setGaplessInfo, hsm, ne_eq, h0, not_false_eq_true, if_true]
  rw [mapFind_mapSet_self strLt_strictOrder]
  simp only [TagEditor.gaplessValue, widen, hhi, hlo, iTunSMPB_template_format]
  rw [fmt08X_eq_hex8 _ _ (wrapInt32_mod _ hd), fmt08X_eq_hex8 _ _ (wrapInt32_mod _ hp),
    fmt08X_eq_hex8 _ _ (wrapInt32_mod _ hhil), fmt08X_eq_hex8 _ _ (wrapInt32_mod _ hlol)]

theorem hex8_ne_nil (n : Nat) : hex8 n ≠ [] := by
  intro h
  have := hexDigits_length 8 n
  unfold hex8 at h
  rw [h] at this
  exact absurd this (by decide)

/-- The fields of a text joined, with single spaces and a leading space, from pieces
made of hexadecimal digits. -/
theorem fields_intercalate (fs : List Str) (hne : ∀ f ∈ fs, f ≠ [])
    (hhex : ∀ f ∈ fs, ∀ c ∈ f, isHexUpper c = true) :
    fields ([' '].intercalate ([] :: fs)) = fs := by
  unfold fields
  rw [List.splitOn_intercalate _ ' ' _ (by simp)]
  · rw [List.filter_cons]
    simp only [ne_eq, not_true_eq_false, decide_False, Bool.false_eq_true, if_false]
    rw [List.filter_eq_self]
    intro f hf
    simpa using hne f hf
  · intro l hl
    rcases List.mem_cons.mp hl with h | h
    · rw [h]; simp
    · exact space_not_mem_of_isHexUpper l (hhex l h)

theorem gapless_fields_eq (e : TagEditor) (info : GaplessInfo)
    (hd : info.delay < 4294967296) (hp : info.padding < 4294967296)
    (hs : info.samples < 18446744073709551616) (h0 : info.samples ≠ 0) :
    (gaplessDescriptor e info).map fields =
      some ([zeroField, hex8 info.delay, hex8 info.padding,
        hex8 (info.samples / 4294967296) ++ hex8 (info.samples % 4294967296)] ++
        List.replicate 8 zeroField) := by
  rw [gaplessDescriptor_eq e info hd hp hs h0, Option.map_some']
  congr 1
  have hz : ∀ c ∈ zeroField, isHexUpper c = true := by decide
  have hznil : zeroField ≠ [] := by decide
  apply fields_intercalate
  · intro f hf
    rcases List.mem_append.mp hf with h | h
    · simp only [List.mem_cons, List.mem_singleton, List.not_mem_nil, or_false] at h
      rcases h with h | h | h | h
      · rw [h]; exact hznil
      · rw [h]; exact hex8_ne_nil _
      · rw [h]; exact hex8_ne_nil _
      · rw [h]; simp [hex8_ne_nil]
    · rw [(List.mem_replicate.mp h).2]; exact hznil
  · intro f hf c hc
    rcases List.mem_append.mp hf with h | h
    · simp only [List.mem_cons, List.mem_singleton, List.not_mem_nil, or_false] at h
      rcases h with h | h | h | h
      · rw [h] at hc; exact hz c hc
      · rw [h] at hc; exact hexDigits_isHexUpper 8 _ c hc
      · rw [h] at hc; exact hexDigits_isHexUpper 8 _ c hc
      · rw [h] at hc
        rcases List.mem_append.mp hc with h' | h' <;> exact hexDigits_isHexUpper 8 _ c h'
    · rw [(List.mem_replicate.mp h).2] at hc; exact hz c hc

/-! ## Lemmas: C strings and scanning -/

theorem c_str_of_nulFree (s : Str) (h : NulFree s) : c_str s = s := by
  unfold c_str
  rw [List.takeWhile_eq_self_iff]
  intro c hc
  simpa using h c hc

theorem isdigit_toNat_ne_zero (c : Char) (h : isdigit c = true) : c.toNat ≠ 0 := by
  unfold isdigit at h
  simp only [Bool.and_eq_true, decide_eq_true_eq] at h
  omega

theorem nulFree_natToDec (n : Nat) : NulFree (natToDec n) :=
  fun c hc => isdigit_toNat_ne_zero c (natToDec_isdigit n c hc)

theorem nulFree_indexSlashTotal (n t : Nat) : NulFree (indexSlashTotal n t) := by
  intro c hc
  unfold indexSlashTotal at hc
  rw [List.mem_append, List.mem_cons] at hc
  rcases hc with h | h | h
  · exact nulFree_natToDec n c h
  · rw [h]; decide
  · exact nulFree_natToDec t c h

theorem scanInt_dec (n : Nat) (hn : n < 2147483648) :
    scanInt (natToDec n) = some ((n : Int), []) := by
  have h := scanInt_natToDec n [] hn (by simp)
  rwa [List.append_nil] at h

theorem scanInt_indexSlashTotal (n t : Nat) (hn : n < 2147483648) :
    scanInt (indexSlashTotal n t) = some ((n : Int), '/' :: natToDec t) :=
  scanInt_natToDec n ('/' :: natToDec t) hn (by simp [isdigit])

theorem sscanf_d_dec (n : Nat) (hn : n < 2147483648) (n0 : Int) :
    sscanf_d (natToDec n) n0 = (1, (n : Int)) := by
  unfold sscanf_d
  rw [scanInt_dec n hn]

theorem sscanf_d_slash_d_dec (n : Nat) (hn : n < 2147483648) (n0 t0 : Int) :
    sscanf_d_slash_d (natToDec n) n0 t0 = (1, (n : Int), t0) := by
  unfold sscanf_d_slash_d
  rw [scanInt_dec n hn]

theorem sscanf_d_slash_d_indexSlashTotal (n t : Nat) (hn : n < 2147483648)
    (ht : t < 2147483648) (n0 t0 : Int) :
    sscanf_d_slash_d (indexSlashTotal n t) n0 t0 = (2, (n : Int), (t : Int)) := by
  unfold sscanf_d_slash_d
  rw [scanInt_indexSlashTotal n t hn]
  simp only []
  rw [scanInt_dec t ht]

theorem sscanf_d_none (s : Str) (n0 : Int) (h : scanInt s = none) :
    (sscanf_d s n0).1 ≠ 1 := by
  unfold sscanf_d
  rw [h]
  simp only []
  split
  · show (-1 : Int) ≠ 1
    decide
  · show (0 : Int) ≠ 1
    decide

theorem sscanf_d_slash_d_none (s : Str) (n0 t0 : Int) (h : scanInt s = none) :
    (sscanf_d_slash_d s n0 t0).1 < 1 := by
  unfold sscanf_d_slash_d
  rw [h]
  simp only []
  split
  · show (-1 : Int) < 1
    decide
  · show (0 : Int) < 1
    decide

theorem format_index_total (n t : Nat) :
    format "%d/%d".toList [(n : Int), (t : Int)] = indexSlashTotal n t := by
  rw [format_d_slash_d, fmtD_nat, fmtD_nat]
  rfl

theorem format_dec (n : Nat) : format "%d".toList [(n : Int)] = natToDec n := by
  rw [format_d, fmtD_nat]

/-! ## Lemmas: big-endian bytes -/

theorem shl8_or (a b : Nat) (hb : b < 256) : (a <<< 8) ||| b = a * 256 + b := by
  rw [Nat.shiftLeft_eq, Nat.mul_comm]
  exact (Nat.mul_add_lt_is_or (i := 8) hb a).symm

theorem be16_trackDiskBuffer (r0 r1 index total r2 r3 : Nat) :
    m4a.be16 (trackDiskBuffer r0 r1 index total r2 r3) 2 = (index : Int) ∧
    m4a.be16 (trackDiskBuffer r0 r1 index total r2 r3) 4 = (total : Int) := by
  have h1 : index % 256 < 256 := Nat.mod_lt _ (by decide)
  have h2 : total % 256 < 256 := Nat.mod_lt _ (by decide)
  constructor
  · show (((index / 256) <<< 8 ||| index % 256 : Nat) : Int) = (index : Int)
    rw [shl8_or _ _ h1]
    congr 1
    omega
  · show (((total / 256) <<< 8 ||| total % 256 : Nat) : Int) = (total : Int)
    rw [shl8_or _ _ h2]
    congr 1
    omega

/-! ## Lemmas: the gapless step -/

theorem widen_eq (s : Str) : widen s = s := rfl

theorem saveGapless_zero (e : TagEditor) (h : e.m_nsamples = 0) : e.saveGapless = e := by
  unfold TagEditor.saveGapless
  rw [if_neg (not_not.mpr h)]

theorem saveGapless_long_tags (e : TagEditor) (h : e.m_nsamples ≠ 0) :
    e.saveGapless.m_long_tags =
      mapSet strLt "iTunSMPB".toList (widen (TagEditor.gaplessValue e)) e.m_long_tags := by
  unfold TagEditor.saveGapless
  rw [if_pos h]

theorem setGaplessInfo_nsamples (e : TagEditor) (info : GaplessInfo) :
    (e.setGaplessInfo info).m_nsamples = info.samples % 18446744073709551616 := by
  cases e; rfl

theorem setGaplessInfo_long_tags (e : TagEditor) (info : GaplessInfo) :
    (e.setGaplessInfo info).m_long_tags = e.m_long_tags := by
  cases e; rfl

/-! ## Lemmas: letter case and string comparison -/

theorem tolower_toNat (c : Char) :
    (tolower c).toNat = if 65 ≤ c.toNat ∧ c.toNat ≤ 90 then c.toNat + 32 else c.toNat := by
  unfold tolower
  split
  · rename_i h
    exact toNat_ofNat_small _ (by omega)
  · rfl

theorem tolower_toNat_ne_zero (c : Char) (h : c.toNat ≠ 0) : (tolower c).toNat ≠ 0 := by
  rw [tolower_toNat]
  split <;> omega

theorem le_tolower (c : Char) : c.toNat ≤ (tolower c).toNat := by
  rw [tolower_toNat]
  split <;> omega

theorem nulFree_cons {c : Char} {s : Str} : NulFree (c :: s) ↔ c.toNat ≠ 0 ∧ NulFree s := by
  unfold NulFree
  simp

theorem nulFree_nil : NulFree [] := by
  intro c hc
  simp at hc

theorem nulFree_c_str (s : Str) : NulFree (c_str s) := by
  intro c hc
  unfold c_str at hc
  have := List.mem_takeWhile_imp hc
  simpa using this

/-- On C strings `strcasecmp` returns 0 exactly when the two agree up to letter
case. -/
theorem strcasecmp_eq_zero_iff : ∀ (a b : Str), NulFree a → NulFree b →
    (strcasecmp a b = 0 ↔ a.map tolower = b.map tolower)
  | [], [], _, _ => by simp [strcasecmp]
  | [], b :: bs, _, hb => by
    have h := tolower_toNat_ne_zero b (nulFree_cons.mp hb).1
    simp only [strcasecmp, List.map_nil, List.map_cons]
    constructor
    · intro h0; omega
    · intro h0; simp at h0
  | a :: as, [], ha, _ => by
    have h := tolower_toNat_ne_zero a (nulFree_cons.mp ha).1
    simp only [strcasecmp, List.map_nil, List.map_cons]
    constructor
    · intro h0; omega
    · intro h0; simp at h0
  | a :: as, b :: bs, ha, hb => by
    have ih := strcasecmp_eq_zero_iff as bs (nulFree_cons.mp ha).2 (nulFree_cons.mp hb).2
    simp only [strcasecmp, List.map_cons, List.cons.injEq]
    by_cases hab : tolower a = tolower b
    · simp only [hab, if_true, true_and]
      exact ih
    · simp only [hab, if_false, false_and, iff_false]
      intro h0
      apply hab
      apply char_eq_of_toNat_eq
      omega

/-- On C strings `strcmp` returns 0 exactly when the two are equal. -/
theorem strcmp_eq_zero_iff : ∀ (a b : Str), NulFree a → NulFree b →
    (strcmp a b = 0 ↔ a = b)
  | [], [], _, _ => by simp [strcmp]
  | [], b :: bs, _, hb => by
    have h := (nulFree_cons.mp hb).1
    simp only [strcmp]
    constructor
    · intro h0; omega
    · intro h0; simp at h0
  | a :: as, [], ha, _ => by
    have h := (nulFree_cons.mp ha).1
    simp only [strcmp]
    constructor
    · intro h0; omega
    · intro h0; simp at h0
  | a :: as, b :: bs, ha, hb => by
    have ih := strcmp_eq_zero_iff as bs (nulFree_cons.mp ha).2 (nulFree_cons.mp hb).2
    simp only [strcmp, List.cons.injEq]
    by_cases hab : a = b
    · simp only [hab, if_true, true_and]
      exact ih
    · simp only [hab, if_false, false_and, iff_false]
      intro h0
      apply hab
      apply char_eq_of_toNat_eq
      omega

/-- A text is never below its lower-case form in the order of `std::string`: letter
case variants of a lower-case key sort before it. -/
theorem strLt_map_tolower : ∀ k : Str, strLt (k.map tolower) k = false
  | [] => rfl
  | a :: as => by
    have h := le_tolower a
    have ih := strLt_map_tolower as
    simp only [List.map_cons, strLt]
    split
    · omega
    · split
      · rfl
      · exact ih

/-! ## Lemmas: the name tables -/

theorem find?_congr_mem {α : Type} (p q : α → Bool) :
    ∀ (l : List α), (∀ a ∈ l, p a = q a) → l.find? p = l.find? q
  | [], _ => rfl
  | a :: l, h => by
    have ha : p a = q a := h a (List.mem_cons_self a l)
    have ih := find?_congr_mem p q l (fun b hb => h b (List.mem_cons_of_mem a hb))
    simp only [List.find?_cons, ha, ih]

theorem Vorbis.tagNameMap_lower :
    ∀ e ∈ Vorbis.tagNameMap, NulFree e.1 ∧ e.1.map tolower = e.1 := by
  unfold NulFree
  decide

theorem ID3.tagNameMap_nulFree : ∀ e ∈ ID3.tagNameMap, NulFree e.1 := by
  unfold NulFree
  decide

/-- `Vorbis::GetIDFromTagName` on a C string looks up the lower-case form of the
name. -/
theorem Vorbis.GetIDFromTagName_eq (name : Str) (hn : NulFree name) :
    Vorbis.GetIDFromTagName name =
      match Vorbis.tagNameMap.find? (fun e => decide (e.1 = name.map tolower)) with
      | some e => e.2
      | none => 0 := by
  have hc : Vorbis.tagNameMap.find? (fun e => decide (strcasecmp e.1 name = 0)) =
      Vorbis.tagNameMap.find? (fun e => decide (e.1 = name.map tolower)) := by
    apply find?_congr_mem
    intro e he
    obtain ⟨h1, h2⟩ := Vorbis.tagNameMap_lower e he
    have h := strcasecmp_eq_zero_iff e.1 name h1 hn
    rw [h2] at h
    exact decide_eq_decide.mpr h
  unfold Vorbis.GetIDFromTagName
  rw [hc]

/-- `Vorbis::GetIDFromTagName` depends on the lower-case form of the name only. -/
theorem Vorbis.GetIDFromTagName_of_lower (name s : Str) (hn : NulFree name)
    (hs : name.map tolower = s) (hl : NulFree s ∧ s.map tolower = s) :
    Vorbis.GetIDFromTagName name = Vorbis.GetIDFromTagName s := by
  rw [Vorbis.GetIDFromTagName_eq name hn, Vorbis.GetIDFromTagName_eq s hl.1, hs, hl.2]

/-- A non-zero result of `Vorbis::GetIDFromTagName` is the id of a table row whose
name is the lower-case form of the argument. -/
theorem Vorbis.GetIDFromTagName_row (name : Str) (hn : NulFree name)
    (h : Vorbis.GetIDFromTagName name ≠ 0) :
    (name.map tolower, Vorbis.GetIDFromTagName name) ∈ Vorbis.tagNameMap := by
  rw [Vorbis.GetIDFromTagName_eq name hn] at h ⊢
  cases hf : Vorbis.tagNameMap.find? (fun e => decide (e.1 = name.map tolower)) with
  | none => rw [hf] at h; exact absurd rfl h
  | some e =>
    have h1 := List.find?_some hf
    have h2 := List.mem_of_find?_eq_some hf
    simp only [decide_eq_true_eq] at h1
    simp only []
    rw [← h1]
    exact h2

/-- `Vorbis::GetIDFromTagName` returns 0 for a name that is in no row of the table,
letter case apart. -/
theorem Vorbis.GetIDFromTagName_eq_zero (name : Str) (hn : NulFree name)
    (h : ∀ e ∈ Vorbis.tagNameMap, e.1 ≠ name.map tolower) :
    Vorbis.GetIDFromTagName name = 0 := by
  rw [Vorbis.GetIDFromTagName_eq name hn]
  have : Vorbis.tagNameMap.find? (fun e => decide (e.1 = name.map tolower)) = none := by
    rw [List.find?_eq_none]
    intro e he
    simpa using h e he
  rw [this]

/-- `Vorbis::GetIDFromTagName` never returns GenreID3: the row of `genre` with the
textual Genre key comes first. -/
theorem Vorbis.GetIDFromTagName_ne_genreID3 (name : Str) (hn : NulFree name) :
    Vorbis.GetIDFromTagName name ≠ Tag.kGenreID3 := by
  intro h
  have h0 : Vorbis.GetIDFromTagName name ≠ 0 := by rw [h]; decide
  have hrow := Vorbis.GetIDFromTagName_row name hn h0
  rw [h] at hrow
  have hfact : ∀ e ∈ Vorbis.tagNameMap, e.2 = Tag.kGenreID3 → e.1 = "genre".toList := by
    decide
  have hs : name.map tolower = "genre".toList := hfact _ hrow rfl
  have hg : Vorbis.GetIDFromTagName "genre".toList = Tag.kGenre := by decide
  rw [Vorbis.GetIDFromTagName_of_lower name _ hn hs (by unfold NulFree; decide), hg] at h
  revert h
  decide

/-- The names that `Vorbis::GetIDFromTagName` maps to Track. -/
theorem Vorbis.GetIDFromTagName_eq_track (name : Str) (hn : NulFree name)
    (h : Vorbis.GetIDFromTagName name = Tag.kTrack) :
    name.map tolower = "tracknumber".toList ∨ name.map tolower = "track".toList := by
  have h0 : Vorbis.GetIDFromTagName name ≠ 0 := by rw [h]; decide
  have hrow := Vorbis.GetIDFromTagName_row name hn h0
  rw [h] at hrow
  have hfact : ∀ e ∈ Vorbis.tagNameMap, e.2 = Tag.kTrack →
      e.1 = "tracknumber".toList ∨ e.1 = "track".toList := by
    decide
  exact hfact _ hrow rfl

/-- The names that `Vorbis::GetIDFromTagName` maps to Disk. -/
theorem Vorbis.GetIDFromTagName_eq_disk (name : Str) (hn : NulFree name)
    (h : Vorbis.GetIDFromTagName name = Tag.kDisk) :
    name.map tolower = "discnumber".toList ∨ name.map tolower = "disc".toList := by
  have h0 : Vorbis.GetIDFromTagName name ≠ 0 := by rw [h]; decide
  have hrow := Vorbis.GetIDFromTagName_row name hn h0
  rw [h] at hrow
  have hfact : ∀ e ∈ Vorbis.tagNameMap, e.2 = Tag.kDisk →
      e.1 = "discnumber".toList ∨ e.1 = "disc".toList := by
    decide
  exact hfact _ hrow rfl

/-- `ID3::GetIDFromTagName` returns 0 for a name that is in no row of the table. -/
theorem ID3.GetIDFromTagName_unlisted (name : Str) (hn : NulFree name)
    (h : ∀ e ∈ ID3.tagNameMap, e.1 ≠ name) :
    ID3.GetIDFromTagName name = 0 := by
  unfold ID3.GetIDFromTagName
  have : ID3.tagNameMap.find? (fun e => decide (strcmp e.1 name = 0)) = none := by
    rw [List.find?_eq_none]
    intro e he
    have h1 := strcmp_eq_zero_iff e.1 name (ID3.tagNameMap_nulFree e he) hn
    simp only [decide_eq_true_eq]
    exact fun hc => h e he (h1.mp hc)
  rw [this]

/-- A result of `Vorbis::GetNameFromTagID` is the name of a table row with that
id. -/
theorem Vorbis.GetNameFromTagID_row (fcc : Nat) (name : Str)
    (h : Vorbis.GetNameFromTagID fcc = some name) : (name, fcc) ∈ Vorbis.tagNameMap := by
  unfold Vorbis.GetNameFromTagID at h
  cases hf : Vorbis.tagNameMap.find? (fun e => decide (e.2 = fcc)) with
  | none => rw [hf] at h; simp at h
  | some e =>
    rw [hf] at h
    have h1 := List.find?_some hf
    have h2 := List.mem_of_find?_eq_some hf
    simp only [decide_eq_true_eq] at h1
    simp only [Option.some.injEq] at h
    rw [← h, ← h1]
    exact h2

/-! ## Lemmas: folds over a `std::map` -/

/-- An observation that no step of a loop changes is unchanged by the loop. -/
theorem foldl_obs_unchanged {σ α β : Type} (f : σ → α → σ) (obs : σ → β) :
    ∀ (l : List α) (s : σ), (∀ s, ∀ a ∈ l, obs (f s a) = obs s) →
      obs (l.foldl f s) = obs s
  | [], _, _ => rfl
  | a :: l, s, h => by
    rw [List.foldl_cons,
      foldl_obs_unchanged f obs l (f s a) (fun s b hb => h s b (List.mem_cons_of_mem a hb))]
    exact h s a (List.mem_cons_self a l)

/-- A stored pair of a `std::map` splits it into the pairs before it and the pairs
after it, whose keys are greater. -/
theorem isMap_split {κ ν : Type} [DecidableEq κ] {lt : κ → κ → Bool} (k : κ) (v : ν)
    (m : List (κ × ν)) (hm : IsMap lt m) (h : mapFind k m = some v) :
    ∃ l1 l2, m = l1 ++ (k, v) :: l2 ∧ (∀ a ∈ l2, lt k a.1 = true) ∧
      (∀ a ∈ l1, lt a.1 k = true) := by
  obtain ⟨l1, l2, hl⟩ := List.append_of_mem (mem_of_mapFind_eq_some k v m h)
  refine ⟨l1, l2, hl, ?_, ?_⟩
  · unfold IsMap at hm
    rw [hl, List.pairwise_append] at hm
    exact fun a ha => (List.pairwise_cons.mp hm.2.1).1 a ha
  · unfold IsMap at hm
    rw [hl, List.pairwise_append] at hm
    exact fun a ha => hm.2.2 a ha (k, v) (List.mem_cons_self _ _)

/-! ## Lemmas: the loop of `ConvertToItunesTags` -/

open Vorbis

theorem toStep_result (st : ToState) (kv : Str × Str) :
    (toStep st kv).result =
      if strtransform kv.1 tolower = "totaltracks".toList ∨
          strtransform kv.1 tolower = "totaldiscs".toList then st.result
      else if GetIDFromTagName (c_str kv.1) > 0 then
        mapSet natLt (GetIDFromTagName (c_str kv.1)) (m2w kv.2) st.result
      else st.result := by
  unfold toStep
  by_cases h1 : strtransform kv.1 tolower = "totaltracks".toList
  · simp only [h1, if_true, true_or]
  · by_cases h2 : strtransform kv.1 tolower = "totaldiscs".toList
    · have hne : ¬ ("totaldiscs".toList = "totaltracks".toList) := by decide
      simp only [h2, hne, if_true, if_false, or_true]
    · simp only [h1, h2, if_false, or_self]
      split <;> rfl

theorem toStep_totaltracks (st : ToState) (kv : Str × Str) :
    (toStep st kv).totaltracks =
      if strtransform kv.1 tolower = "totaltracks".toList then kv.2 else st.totaltracks := by
  unfold toStep
  by_cases h1 : strtransform kv.1 tolower = "totaltracks".toList
  · simp only [h1, if_true]
  · by_cases h2 : strtransform kv.1 tolower = "totaldiscs".toList
    · have hne : ¬ ("totaldiscs".toList = "totaltracks".toList) := by decide
      simp only [h2, hne, if_true, if_false]
    · simp only [h1, h2, if_false]
      split <;> rfl

theorem toStep_totaldiscs (st : ToState) (kv : Str × Str) :
    (toStep st kv).totaldiscs =
      if strtransform kv.1 tolower = "totaltracks".toList then st.totaldiscs
      else if strtransform kv.1 tolower = "totaldiscs".toList then kv.2
      else st.totaldiscs := by
  unfold toStep
  by_cases h1 : strtransform kv.1 tolower = "totaltracks".toList
  · simp only [h1, if_true]
  · by_cases h2 : strtransform kv.1 tolower = "totaldiscs".toList
    · have hne : ¬ ("totaldiscs".toList = "totaltracks".toList) := by decide
      simp only [h2, hne, if_true, if_false]
    · simp only [h1, h2, if_false]
      split <;> rfl

/-- A pair whose name maps to another key leaves the entry of key `K` alone. -/
theorem toStep_find_ne (K : Nat) (st : ToState) (kv : Str × Str)
    (h : GetIDFromTagName (c_str kv.1) ≠ K) :
    mapFind K (toStep st kv).result = mapFind K st.result := by
  rw [toStep_result]
  split
  · rfl
  · split
    · exact mapFind_mapSet_ne natLt_strictOrder (Ne.symm h) _ _
    · rfl

/-- A total field leaves the store alone. -/
theorem toStep_result_of_total (st : ToState) (kv : Str × Str)
    (h : strtransform kv.1 tolower = "totaltracks".toList ∨
      strtransform kv.1 tolower = "totaldiscs".toList) :
    (toStep st kv).result = st.result := by
  rw [toStep_result, if_pos h]

/-- A pair that is no total field and whose name maps to `K` sets the entry of
`K`. -/
theorem toStep_find_eq (K : Nat) (st : ToState) (kv : Str × Str)
    (h1 : strtransform kv.1 tolower ≠ "totaltracks".toList)
    (h2 : strtransform kv.1 tolower ≠ "totaldiscs".toList)
    (h : GetIDFromTagName (c_str kv.1) = K) (hK : K > 0) :
    mapFind K (toStep st kv).result = some kv.2 := by
  rw [toStep_result, if_neg (not_or.mpr ⟨h1, h2⟩), h, if_pos hK]
  exact mapFind_mapSet_self natLt_strictOrder _ _ _

theorem foldl_toStep_find_unchanged (K : Nat) (l : Comments) (st : ToState)
    (h : ∀ kv ∈ l, GetIDFromTagName (c_str kv.1) ≠ K) :
    mapFind K (l.foldl toStep st).result = mapFind K st.result :=
  foldl_obs_unchanged toStep (fun s => mapFind K s.result) l st
    (fun s kv hkv => toStep_find_ne K s kv (h kv hkv))

theorem foldl_toStep_totaltracks_unchanged (l : Comments) (st : ToState)
    (h : ∀ kv ∈ l, strtransform kv.1 tolower ≠ "totaltracks".toList) :
    (l.foldl toStep st).totaltracks = st.totaltracks :=
  foldl_obs_unchanged toStep (fun s => s.totaltracks) l st
    (fun s kv hkv => by
      show (toStep s kv).totaltracks = s.totaltracks
      rw [toStep_totaltracks, if_neg (h kv hkv)])

theorem foldl_toStep_totaldiscs_unchanged (l : Comments) (st : ToState)
    (h : ∀ kv ∈ l, strtransform kv.1 tolower ≠ "totaldiscs".toList) :
    (l.foldl toStep st).totaldiscs = st.totaldiscs :=
  foldl_obs_unchanged toStep (fun s => s.totaldiscs) l st
    (fun s kv hkv => by
      show (toStep s kv).totaldiscs = s.totaldiscs
      rw [toStep_totaldiscs, if_neg (h kv hkv)]
      split <;> rfl)

/-- A key above `name` in the order of `std::string` is not a letter-case variant of
the lower-case `name`. -/
theorem lower_ne_of_strLt (name k : Str) (h : strLt name k = true) :
    strtransform k tolower ≠ name := by
  intro he
  have := strLt_map_tolower k
  unfold strtransform at he
  rw [he, h] at this
  exact absurd this (by decide)

/-- A C-string key above `tracknumber` does not map to Track. -/
theorem not_track_of_strLt (k : Str) (hn : NulFree k)
    (h : strLt "tracknumber".toList k = true) : GetIDFromTagName (c_str k) ≠ Tag.kTrack := by
  rw [c_str_of_nulFree k hn]
  intro he
  rcases GetIDFromTagName_eq_track k hn he with h1 | h1
  · exact lower_ne_of_strLt _ k h h1
  · have h2 : strLt "track".toList "tracknumber".toList = true := by decide
    exact lower_ne_of_strLt _ k (strLt_trans _ _ _ h2 h) h1

/-- A C-string key above `discnumber` does not map to Disk. -/
theorem not_disk_of_strLt (k : Str) (hn : NulFree k)
    (h : strLt "discnumber".toList k = true) : GetIDFromTagName (c_str k) ≠ Tag.kDisk := by
  rw [c_str_of_nulFree k hn]
  intro he
  rcases GetIDFromTagName_eq_disk k hn he with h1 | h1
  · exact lower_ne_of_strLt _ k h h1
  · have h2 : strLt "disc".toList "discnumber".toList = true := by decide
    exact lower_ne_of_strLt _ k (strLt_trans _ _ _ h2 h) h1

/-- After the loop the Track entry is the value of the field `tracknumber`, when the
comments have one. -/
theorem foldl_toStep_track (vc : Comments) (st : ToState) (iv : Str)
    (hm : IsMap strLt vc) (hn : ∀ kv ∈ vc, NulFree kv.1)
    (h : mapFind "tracknumber".toList vc = some iv) :
    mapFind Tag.kTrack (vc.foldl toStep st).result = some iv := by
  obtain ⟨l1, l2, hl, hgt, _⟩ := isMap_split _ _ vc hm h
  have hn2 : ∀ kv ∈ l2, NulFree kv.1 := fun kv hkv => hn kv (by rw [hl]; simp [hkv])
  rw [hl, List.foldl_append, List.foldl_cons,
    foldl_toStep_find_unchanged Tag.kTrack l2 _
      (fun kv hkv => not_track_of_strLt kv.1 (hn2 kv hkv) (hgt kv hkv))]
  exact toStep_find_eq Tag.kTrack _ ("tracknumber".toList, iv)
    (show strtransform "tracknumber".toList tolower ≠ "totaltracks".toList by decide)
    (show strtransform "tracknumber".toList tolower ≠ "totaldiscs".toList by decide)
    (show GetIDFromTagName (c_str "tracknumber".toList) = Tag.kTrack by decide) (by decide)

/-- After the loop the Disk entry is the value of the field `discnumber`, when the
comments have one. -/
theorem foldl_toStep_disk (vc : Comments) (st : ToState) (iv : Str)
    (hm : IsMap strLt vc) (hn : ∀ kv ∈ vc, NulFree kv.1)
    (h : mapFind "discnumber".toList vc = some iv) :
    mapFind Tag.kDisk (vc.foldl toStep st).result = some iv := by
  obtain ⟨l1, l2, hl, hgt, _⟩ := isMap_split _ _ vc hm h
  have hn2 : ∀ kv ∈ l2, NulFree kv.1 := fun kv hkv => hn kv (by rw [hl]; simp [hkv])
  rw [hl, List.foldl_append, List.foldl_cons,
    foldl_toStep_find_unchanged Tag.kDisk l2 _
      (fun kv hkv => not_disk_of_strLt kv.1 (hn2 kv hkv) (hgt kv hkv))]
  exact toStep_find_eq Tag.kDisk _ ("discnumber".toList, iv)
    (show strtransform "discnumber".toList tolower ≠ "totaltracks".toList by decide)
    (show strtransform "discnumber".toList tolower ≠ "totaldiscs".toList by decide)
    (show GetIDFromTagName (c_str "discnumber".toList) = Tag.kDisk by decide) (by decide)

/-- After the loop `totaltracks` is the value of the field `totaltracks`, when the
comments have one. -/
theorem foldl_toStep_totaltracks (vc : Comments) (st : ToState) (tv : Str)
    (hm : IsMap strLt vc) (h : mapFind "totaltracks".toList vc = some tv) :
    (vc.foldl toStep st).totaltracks = tv := by
  obtain ⟨l1, l2, hl, hgt, _⟩ := isMap_split _ _ vc hm h
  rw [hl, List.foldl_append, List.foldl_cons,
    foldl_toStep_totaltracks_unchanged l2 _
      (fun kv hkv => lower_ne_of_strLt _ kv.1 (hgt kv hkv)),
    toStep_totaltracks,
    if_pos (show strtransform "totaltracks".toList tolower = "totaltracks".toList by decide)]

/-- After the loop `totaldiscs` is the value of the field `totaldiscs`, when the
comments have one. -/
theorem foldl_toStep_totaldiscs (vc : Comments) (st : ToState) (tv : Str)
    (hm : IsMap strLt vc) (h : mapFind "totaldiscs".toList vc = some tv) :
    (vc.foldl toStep st).totaldiscs = tv := by
  obtain ⟨l1, l2, hl, hgt, _⟩ := isMap_split _ _ vc hm h
  rw [hl, List.foldl_append, List.foldl_cons,
    foldl_toStep_totaldiscs_unchanged l2 _
      (fun kv hkv => lower_ne_of_strLt _ kv.1 (hgt kv hkv)),
    toStep_totaldiscs,
    if_neg (show ¬ strtransform "totaldiscs".toList tolower = "totaltracks".toList by decide),
    if_pos (show strtransform "totaldiscs".toList tolower = "totaldiscs".toList by decide)]

/-! ## Lemmas: packing the total -/

theorem packTotal_of_none (key : Nat) (total : Str) (result : TagStore)
    (h : mapFind key result = none) : packTotal key total result = result := by
  unfold packTotal
  rw [h]

theorem packTotal_of_empty (key : Nat) (result : TagStore) :
    packTotal key [] result = result := by
  unfold packTotal
  split
  · rw [if_neg (by simp)]
  · rfl

theorem packTotal_of_some (key : Nat) (total index : Str) (result : TagStore)
    (h : mapFind key result = some index) (ht : total ≠ []) :
    packTotal key total result =
      mapSet natLt key (format "%d/%d".toList [_wtoi index, atoi total]) result := by
  unfold packTotal
  rw [h]
  simp only []
  rw [if_pos ht, widen_eq]

theorem mapFind_packTotal_ne (K key : Nat) (total : Str) (result : TagStore) (h : K ≠ key) :
    mapFind K (packTotal key total result) = mapFind K result := by
  unfold packTotal
  split
  · split
    · exact mapFind_mapSet_ne natLt_strictOrder h _ _
    · rfl
  · rfl

theorem mapFind_packTotal_self (key : Nat) (total index : Str) (result : TagStore)
    (h : mapFind key result = some index) :
    mapFind key (packTotal key total result) =
      if total = [] then some index
      else some (format "%d/%d".toList [_wtoi index, atoi total]) := by
  by_cases ht : total = []
  · rw [ht, packTotal_of_empty, if_pos rfl, h]
  · rw [packTotal_of_some key total index result h ht, if_neg ht,
      mapFind_mapSet_self natLt_strictOrder]

/-- The Track entry of the result of `ConvertToItunesTags`, by the state after the
loop. -/
theorem convertTo_track (vc : Comments) (index : Str)
    (h : mapFind Tag.kTrack (vc.foldl toStep ⟨[], [], []⟩).result = some index) :
    mapFind Tag.kTrack (ConvertToItunesTags vc) =
      if (vc.foldl toStep ⟨[], [], []⟩).totaltracks = [] then some index
      else some (format "%d/%d".toList
        [_wtoi index, atoi (vc.foldl toStep ⟨[], [], []⟩).totaltracks]) := by
  unfold ConvertToItunesTags
  simp only []
  rw [mapFind_packTotal_ne _ _ _ _ (by decide), mapFind_packTotal_self _ _ _ _ h]

/-- The Disk entry of the result of `ConvertToItunesTags`, by the state after the
loop. -/
theorem convertTo_disk (vc : Comments) (index : Str)
    (h : mapFind Tag.kDisk (vc.foldl toStep ⟨[], [], []⟩).result = some index) :
    mapFind Tag.kDisk (ConvertToItunesTags vc) =
      if (vc.foldl toStep ⟨[], [], []⟩).totaldiscs = [] then some index
      else some (format "%d/%d".toList
        [_wtoi index, atoi (vc.foldl toStep ⟨[], [], []⟩).totaldiscs]) := by
  unfold ConvertToItunesTags
  simp only []
  rw [mapFind_packTotal_self]
  rw [mapFind_packTotal_ne _ _ _ _ (by decide)]
  exact h

/-- An entry of the result of `ConvertToItunesTags` other than Track and Disk is
the entry after the loop. -/
theorem convertTo_other (vc : Comments) (K : Nat) (h1 : K ≠ Tag.kTrack) (h2 : K ≠ Tag.kDisk) :
    mapFind K (ConvertToItunesTags vc) =
      mapFind K (vc.foldl toStep ⟨[], [], []⟩).result := by
  unfold ConvertToItunesTags
  simp only []
  rw [mapFind_packTotal_ne _ _ _ _ h2, mapFind_packTotal_ne _ _ _ _ h1]

/-! ## Lemmas: comment pairs that the loop passes over -/

/-- The store and `totaldiscs` after the loop do not depend on the `totaltracks`
fields. -/
theorem foldl_toStep_filter_totaltracks : ∀ (vc : Comments) (st st' : ToState),
    st.result = st'.result → st.totaldiscs = st'.totaldiscs →
    (vc.foldl toStep st).result =
      ((vc.filter (fun kv => decide (strtransform kv.1 tolower ≠ "totaltracks".toList))).foldl
        toStep st').result ∧
    (vc.foldl toStep st).totaldiscs =
      ((vc.filter (fun kv => decide (strtransform kv.1 tolower ≠ "totaltracks".toList))).foldl
        toStep st').totaldiscs
  | [], _, _, hr, hd => ⟨hr, hd⟩
  | kv :: rest, st, st', hr, hd => by
    by_cases h : strtransform kv.1 tolower = "totaltracks".toList
    · rw [List.filter_cons_of_neg (by simp [h]), List.foldl_cons]
      apply foldl_toStep_filter_totaltracks rest (toStep st kv) st'
      · rw [toStep_result_of_total st kv (Or.inl h), hr]
      · rw [toStep_totaldiscs, if_pos h, hd]
    · have hp : decide (strtransform kv.1 tolower ≠ "totaltracks".toList) = true :=
        decide_eq_true h
      rw [List.filter_cons, if_pos hp, List.foldl_cons, List.foldl_cons]
      apply foldl_toStep_filter_totaltracks rest (toStep st kv) (toStep st' kv)
      · rw [toStep_result, toStep_result, hr]
      · rw [toStep_totaldiscs, toStep_totaldiscs, hd]

/-- The store and `totaltracks` after the loop do not depend on the `totaldiscs`
fields. -/
theorem foldl_toStep_filter_totaldiscs : ∀ (vc : Comments) (st st' : ToState),
    st.result = st'.result → st.totaltracks = st'.totaltracks →
    (vc.foldl toStep st).result =
      ((vc.filter (fun kv => decide (strtransform kv.1 tolower ≠ "totaldiscs".toList))).foldl
        toStep st').result ∧
    (vc.foldl toStep st).totaltracks =
      ((vc.filter (fun kv => decide (strtransform kv.1 tolower ≠ "totaldiscs".toList))).foldl
        toStep st').totaltracks
  | [], _, _, hr, hd => ⟨hr, hd⟩
  | kv :: rest, st, st', hr, hd => by
    by_cases h : strtransform kv.1 tolower = "totaldiscs".toList
    · rw [List.filter_cons_of_neg (by simp [h]), List.foldl_cons]
      apply foldl_toStep_filter_totaldiscs rest (toStep st kv) st'
      · rw [toStep_result_of_total st kv (Or.inr h), hr]
      · have hne : ¬ ("totaldiscs".toList = "totaltracks".toList) := by decide
        rw [toStep_totaltracks, h, if_neg hne, hd]
    · have hp : decide (strtransform kv.1 tolower ≠ "totaldiscs".toList) = true :=
        decide_eq_true h
      rw [List.filter_cons, if_pos hp, List.foldl_cons, List.foldl_cons]
      apply foldl_toStep_filter_totaldiscs rest (toStep st kv) (toStep st' kv)
      · rw [toStep_result, toStep_result, hr]
      · rw [toStep_totaltracks, toStep_totaltracks, hd]

/-- A pair that is no total field and whose name maps to no key is passed over. -/
theorem toStep_of_unmapped (st : ToState) (kv : Str × Str)
    (h1 : strtransform kv.1 tolower ≠ "totaltracks".toList)
    (h2 : strtransform kv.1 tolower ≠ "totaldiscs".toList)
    (h : GetIDFromTagName (c_str kv.1) = 0) : toStep st kv = st := by
  unfold toStep
  simp only [h1, h2, h, if_false, gt_iff_lt, lt_self_iff_false]

/-- Storing a pair that the loop passes over does not change the state after the
loop. -/
theorem foldl_toStep_mapSet (k v : Str) (hk : ∀ st v', toStep st (k, v') = st) :
    ∀ (vc : Comments) (st : ToState),
      (mapSet strLt k v vc).foldl toStep st = vc.foldl toStep st
  | [], st => by
    show toStep st (k, v) = st
    exact hk st v
  | (k', v') :: rest, st => by
    unfold mapSet
    by_cases h1 : strLt k k' = true
    · rw [if_pos h1, List.foldl_cons, hk]
    · rw [if_neg h1]
      by_cases h2 : strLt k' k = true
      · rw [if_pos h2, List.foldl_cons, List.foldl_cons,
          foldl_toStep_mapSet k v hk rest (toStep st (k', v'))]
      · rw [if_neg h2, List.foldl_cons, List.foldl_cons, hk]
        have he : k = k' := strLt_tri k k' (by simpa using h1) (by simpa using h2)
        rw [← he, hk]

/-- The names that `Vorbis::GetIDFromTagName` maps to the textual Genre key. -/
theorem Vorbis.GetIDFromTagName_eq_genre (name : Str) (hn : NulFree name)
    (h : Vorbis.GetIDFromTagName name = Tag.kGenre) :
    name.map tolower = "genre".toList := by
  have h0 : Vorbis.GetIDFromTagName name ≠ 0 := by rw [h]; decide
  have hrow := Vorbis.GetIDFromTagName_row name hn h0
  rw [h] at hrow
  have hfact : ∀ e ∈ Vorbis.tagNameMap, e.2 = Tag.kGenre → e.1 = "genre".toList := by
    decide
  exact hfact _ hrow rfl

/-- After the loop the Genre entry is the value of the field `genre`, when the
comments have one. -/
theorem foldl_toStep_genre (vc : Comments) (st : ToState) (v : Str)
    (hm : IsMap strLt vc) (hn : ∀ kv ∈ vc, NulFree kv.1)
    (h : mapFind "genre".toList vc = some v) :
    mapFind Tag.kGenre (vc.foldl toStep st).result = some v := by
  obtain ⟨l1, l2, hl, hgt, _⟩ := isMap_split _ _ vc hm h
  have hn2 : ∀ kv ∈ l2, NulFree kv.1 := fun kv hkv => hn kv (by rw [hl]; simp [hkv])
  rw [hl, List.foldl_append, List.foldl_cons,
    foldl_toStep_find_unchanged Tag.kGenre l2 _
      (fun kv hkv => by
        rw [c_str_of_nulFree kv.1 (hn2 kv hkv)]
        intro he
        exact lower_ne_of_strLt _ kv.1 (hgt kv hkv)
          (Vorbis.GetIDFromTagName_eq_genre kv.1 (hn2 kv hkv) he))]
  exact toStep_find_eq Tag.kGenre _ ("genre".toList, v)
    (show strtransform "genre".toList tolower ≠ "totaltracks".toList by decide)
    (show strtransform "genre".toList tolower ≠ "totaldiscs".toList by decide)
    (show GetIDFromTagName (c_str "genre".toList) = Tag.kGenre by decide) (by decide)

/-! ## Lemmas: the loop of `ConvertFromItunesTags` -/

theorem mapFind_eq_none_forall {κ ν : Type} [DecidableEq κ] (k : κ) (m : List (κ × ν))
    (h : mapFind k m = none) : ∀ p ∈ m, p.1 ≠ k := by
  unfold mapFind at h
  rw [Option.map_eq_none', List.find?_eq_none] at h
  intro p hp
  simpa using h p hp

theorem fromIndexTotal_none (iN tN value : Str) (acc : Comments) (h : scanInt value = none) :
    fromIndexTotal iN tN value acc = acc := by
  unfold fromIndexTotal
  simp only []
  rw [if_pos (sscanf_d_slash_d_none value 0 0 h)]

theorem fromIndexTotal_dec (iN tN : Str) (i : Nat) (acc : Comments) (hi : i < 2147483648) :
    fromIndexTotal iN tN (natToDec i) acc = mapSet strLt iN (natToDec i) acc := by
  unfold fromIndexTotal
  simp only []
  rw [sscanf_d_slash_d_dec i hi]
  simp only []
  rw [if_neg (by omega), if_neg (by decide), format_dec]

theorem fromIndexTotal_pair (iN tN : Str) (i t : Nat) (acc : Comments)
    (hi : i < 2147483648) (ht : t < 2147483648) :
    fromIndexTotal iN tN (indexSlashTotal i t) acc =
      if 0 < t then mapSet strLt tN (natToDec t) (mapSet strLt iN (natToDec i) acc)
      else mapSet strLt iN (natToDec i) acc := by
  unfold fromIndexTotal
  simp only []
  rw [sscanf_d_slash_d_indexSlashTotal i t hi ht]
  simp only []
  rw [if_neg (by omega), format_dec, format_dec]
  by_cases h : 0 < t
  · rw [if_pos h, if_pos (by omega)]
  · rw [if_neg h, if_neg (by omega)]

theorem mapFind_fromIndexTotal_ne (nm iN tN value : Str) (acc : Comments)
    (h1 : nm ≠ iN) (h2 : nm ≠ tN) :
    mapFind nm (fromIndexTotal iN tN value acc) = mapFind nm acc := by
  unfold fromIndexTotal
  simp only []
  split
  · rfl
  · split
    · rw [mapFind_mapSet_ne strLt_strictOrder h2, mapFind_mapSet_ne strLt_strictOrder h1]
    · rw [mapFind_mapSet_ne strLt_strictOrder h1]

theorem fromStep_eq (g : Int → Str) (acc : Comments) (k : Nat) (v name : Str)
    (hname : GetNameFromTagID k = some name) :
    fromStep g acc (k, v) =
      if k = Tag.kTrack then fromIndexTotal "tracknumber".toList "totaltracks".toList v acc
      else if k = Tag.kDisk then fromIndexTotal "discnumber".toList "totaldiscs".toList v acc
      else if k = Tag.kGenreID3 then
        if (sscanf_d v 0).1 = 1 then mapSet strLt name (g ((sscanf_d v 0).2 - 1)) acc
        else acc
      else mapSet strLt name v acc := by
  unfold fromStep
  simp only [hname, w2m]

theorem fromStep_track (g : Int → Str) (acc : Comments) (v : Str) :
    fromStep g acc (Tag.kTrack, v) =
      fromIndexTotal "tracknumber".toList "totaltracks".toList v acc := by
  have h : GetNameFromTagID Tag.kTrack = some "tracknumber".toList := by decide
  rw [fromStep_eq g acc _ v _ h, if_pos rfl]

theorem fromStep_disk (g : Int → Str) (acc : Comments) (v : Str) :
    fromStep g acc (Tag.kDisk, v) =
      fromIndexTotal "discnumber".toList "totaldiscs".toList v acc := by
  have h : GetNameFromTagID Tag.kDisk = some "discnumber".toList := by decide
  have h1 : Tag.kDisk ≠ Tag.kTrack := by decide
  rw [fromStep_eq g acc _ v _ h, if_neg h1, if_pos rfl]

theorem fromStep_genreID3 (g : Int → Str) (acc : Comments) (v : Str) :
    fromStep g acc (Tag.kGenreID3, v) =
      if (sscanf_d v 0).1 = 1 then mapSet strLt "genre".toList (g ((sscanf_d v 0).2 - 1)) acc
      else acc := by
  have h : GetNameFromTagID Tag.kGenreID3 = some "genre".toList := by decide
  have h1 : Tag.kGenreID3 ≠ Tag.kTrack := by decide
  have h2 : Tag.kGenreID3 ≠ Tag.kDisk := by decide
  rw [fromStep_eq g acc _ v _ h, if_neg h1, if_neg h2, if_pos rfl]

theorem fromStep_text (g : Int → Str) (acc : Comments) (kv : Nat × Str) (name : Str)
    (hname : GetNameFromTagID kv.1 = some name) (h1 : kv.1 ≠ Tag.kTrack)
    (h2 : kv.1 ≠ Tag.kDisk) (h3 : kv.1 ≠ Tag.kGenreID3) :
    fromStep g acc kv = mapSet strLt name kv.2 acc := by
  obtain ⟨k, v⟩ := kv
  rw [fromStep_eq g acc k v name hname, if_neg h1, if_neg h2, if_neg h3]

theorem fromStep_unnamed (g : Int → Str) (acc : Comments) (kv : Nat × Str)
    (hname : GetNameFromTagID kv.1 = none) : fromStep g acc kv = acc := by
  unfold fromStep
  simp only [hname]

/-- A step of the loop leaves the comment `nm` alone unless it is the index or total
name of a Track or Disk tag, or the name of the tag in the table. -/
theorem fromStep_find_unchanged (g : Int → Str) (nm : Str) (acc : Comments) (kv : Nat × Str)
    (h1 : kv.1 = Tag.kTrack → nm ≠ "tracknumber".toList ∧ nm ≠ "totaltracks".toList)
    (h2 : kv.1 = Tag.kDisk → nm ≠ "discnumber".toList ∧ nm ≠ "totaldiscs".toList)
    (h3 : kv.1 ≠ Tag.kTrack → kv.1 ≠ Tag.kDisk → GetNameFromTagID kv.1 ≠ some nm) :
    mapFind nm (fromStep g acc kv) = mapFind nm acc := by
  obtain ⟨k, v⟩ := kv
  by_cases hT : k = Tag.kTrack
  · subst hT
    rw [fromStep_track, mapFind_fromIndexTotal_ne _ _ _ _ _ (h1 rfl).1 (h1 rfl).2]
  · by_cases hD : k = Tag.kDisk
    · subst hD
      rw [fromStep_disk, mapFind_fromIndexTotal_ne _ _ _ _ _ (h2 rfl).1 (h2 rfl).2]
    · have h3' := h3 hT hD
      by_cases hG : k = Tag.kGenreID3
      · subst hG
        rw [fromStep_genreID3]
        split
        · apply mapFind_mapSet_ne strLt_strictOrder
          intro he
          apply h3'
          rw [he]
          show GetNameFromTagID Tag.kGenreID3 = some "genre".toList
          decide
        · rfl
      · cases hname : GetNameFromTagID k with
        | none => rw [fromStep_unnamed g acc (k, v) hname]
        | some name =>
          rw [fromStep_text g acc (k, v) name hname hT hD hG]
          apply mapFind_mapSet_ne strLt_strictOrder
          intro he
          apply h3'
          show GetNameFromTagID k = some nm
          rw [hname, he]

theorem foldl_fromStep_find_unchanged (g : Int → Str) (nm : Str) (l : TagStore)
    (acc : Comments)
    (h : ∀ kv ∈ l,
      (kv.1 = Tag.kTrack → nm ≠ "tracknumber".toList ∧ nm ≠ "totaltracks".toList) ∧
      (kv.1 = Tag.kDisk → nm ≠ "discnumber".toList ∧ nm ≠ "totaldiscs".toList) ∧
      (kv.1 ≠ Tag.kTrack → kv.1 ≠ Tag.kDisk → GetNameFromTagID kv.1 ≠ some nm)) :
    mapFind nm (l.foldl (fromStep g) acc) = mapFind nm acc :=
  foldl_obs_unchanged (fromStep g) (fun s => mapFind nm s) l acc
    (fun s kv hkv => fromStep_find_unchanged g nm s kv (h kv hkv).1 (h kv hkv).2.1
      (h kv hkv).2.2)

/-- The comment `nm`, whose name is in the table for the key `K` only and is none of
the four index and total names, is left alone by every tag with another key. -/
theorem foldl_fromStep_find_of_key (g : Int → Str) (nm : Str) (K : Nat) (l : TagStore)
    (acc : Comments) (hK : ∀ e ∈ tagNameMap, e.1 = nm → e.2 = K)
    (h1 : K ≠ Tag.kTrack → nm ≠ "tracknumber".toList ∧ nm ≠ "totaltracks".toList)
    (h2 : K ≠ Tag.kDisk → nm ≠ "discnumber".toList ∧ nm ≠ "totaldiscs".toList)
    (hl : ∀ kv ∈ l, kv.1 ≠ K) :
    mapFind nm (l.foldl (fromStep g) acc) = mapFind nm acc := by
  apply foldl_fromStep_find_unchanged
  intro kv hkv
  have hne := hl kv hkv
  refine ⟨fun h => h1 (h ▸ Ne.symm hne), fun h => h2 (h ▸ Ne.symm hne), ?_⟩
  intro _ _ hname
  exact hne (hK _ (GetNameFromTagID_row kv.1 nm hname) rfl)

/-! ## Lemmas: Track, Disk and GenreID3 in `ConvertFromItunesTags` -/

theorem ne_of_natLt {a b : Nat} (h : natLt a b = true) : a ≠ b := by
  unfold natLt at h
  have := of_decide_eq_true h
  omega

theorem mapFind_fromIndexTotal_congr (nm iN tN value : Str) (acc acc' : Comments)
    (h : mapFind nm acc = mapFind nm acc') :
    mapFind nm (fromIndexTotal iN tN value acc) =
      mapFind nm (fromIndexTotal iN tN value acc') := by
  unfold fromIndexTotal
  simp only []
  split
  · exact h
  · split
    · rw [mapFind_mapSet strLt_strictOrder, mapFind_mapSet strLt_strictOrder,
        mapFind_mapSet strLt_strictOrder, mapFind_mapSet strLt_strictOrder, h]
    · rw [mapFind_mapSet strLt_strictOrder, mapFind_mapSet strLt_strictOrder, h]

/-- The comments that one Track or Disk tag of a `std::map` store gives: those that
its step gives on the empty comments. -/
theorem from_index_total (g : Int → Str) (K : Nat) (iN tN : Str) (itags : TagStore) (v : Str)
    (hstep : ∀ acc v, fromStep g acc (K, v) = fromIndexTotal iN tN v acc)
    (hu : ∀ nm : Str, nm = iN ∨ nm = tN → ∀ (l : TagStore) (acc : Comments),
      (∀ kv ∈ l, kv.1 ≠ K) → mapFind nm (l.foldl (fromStep g) acc) = mapFind nm acc)
    (hm : IsMap natLt itags) (h : mapFind K itags = some v) (nm : Str)
    (hnm : nm = iN ∨ nm = tN) :
    mapFind nm (ConvertFromItunesTags g itags) =
      mapFind nm (fromIndexTotal iN tN v []) := by
  obtain ⟨l1, l2, hl, hgt, hlt⟩ := isMap_split _ _ itags hm h
  have h2 : ∀ kv ∈ l2, kv.1 ≠ K := fun kv hkv => Ne.symm (ne_of_natLt (hgt kv hkv))
  have h1 : ∀ kv ∈ l1, kv.1 ≠ K := fun kv hkv => ne_of_natLt (hlt kv hkv)
  unfold ConvertFromItunesTags
  rw [hl, List.foldl_append, List.foldl_cons, hu nm hnm l2 _ h2, hstep]
  apply mapFind_fromIndexTotal_congr
  exact hu nm hnm l1 [] h1

theorem from_track (g : Int → Str) (itags : TagStore) (v : Str)
    (hm : IsMap natLt itags) (h : mapFind Tag.kTrack itags = some v) (nm : Str)
    (hnm : nm = "tracknumber".toList ∨ nm = "totaltracks".toList) :
    mapFind nm (ConvertFromItunesTags g itags) =
      mapFind nm (fromIndexTotal "tracknumber".toList "totaltracks".toList v []) := by
  apply from_index_total g Tag.kTrack _ _ itags v (fromStep_track g) _ hm h nm hnm
  intro nm hnm l acc hl
  rcases hnm with h | h
  · subst h
    exact foldl_fromStep_find_of_key g _ Tag.kTrack l acc (by decide)
      (fun h => absurd rfl h) (fun _ => by decide) hl
  · subst h
    exact foldl_fromStep_find_of_key g _ Tag.kTrack l acc (by decide)
      (fun h => absurd rfl h) (fun _ => by decide) hl

theorem from_disk (g : Int → Str) (itags : TagStore) (v : Str)
    (hm : IsMap natLt itags) (h : mapFind Tag.kDisk itags = some v) (nm : Str)
    (hnm : nm = "discnumber".toList ∨ nm = "totaldiscs".toList) :
    mapFind nm (ConvertFromItunesTags g itags) =
      mapFind nm (fromIndexTotal "discnumber".toList "totaldiscs".toList v []) := by
  apply from_index_total g Tag.kDisk _ _ itags v (fromStep_disk g) _ hm h nm hnm
  intro nm hnm l acc hl
  rcases hnm with h | h
  · subst h
    exact foldl_fromStep_find_of_key g _ Tag.kDisk l acc (by decide)
      (fun _ => by decide) (fun h => absurd rfl h) hl
  · subst h
    exact foldl_fromStep_find_of_key g _ Tag.kDisk l acc (by decide)
      (fun _ => by decide) (fun h => absurd rfl h) hl

theorem mapFind_index_of_dec (iN tN : Str) (i : Nat) (hi : i < 2147483648) (hne : tN ≠ iN) :
    mapFind iN (fromIndexTotal iN tN (natToDec i) []) = some (natToDec i) ∧
    mapFind tN (fromIndexTotal iN tN (natToDec i) []) = none := by
  rw [fromIndexTotal_dec iN tN i [] hi]
  constructor
  · exact mapFind_mapSet_self strLt_strictOrder _ _ _
  · rw [mapFind_mapSet_ne strLt_strictOrder hne]
    rfl

theorem mapFind_index_of_pair (iN tN : Str) (i t : Nat) (hi : i < 2147483648)
    (ht : t < 2147483648) (hne : tN ≠ iN) :
    mapFind iN (fromIndexTotal iN tN (indexSlashTotal i t) []) = some (natToDec i) ∧
    mapFind tN (fromIndexTotal iN tN (indexSlashTotal i t) []) =
      if 0 < t then some (natToDec t) else none := by
  rw [fromIndexTotal_pair iN tN i t [] hi ht]
  by_cases h : 0 < t
  · rw [if_pos h, if_pos h]
    constructor
    · rw [mapFind_mapSet_ne strLt_strictOrder (Ne.symm hne)]
      exact mapFind_mapSet_self strLt_strictOrder _ _ _
    · exact mapFind_mapSet_self strLt_strictOrder _ _ _
  · rw [if_neg h, if_neg h]
    constructor
    · exact mapFind_mapSet_self strLt_strictOrder _ _ _
    · rw [mapFind_mapSet_ne strLt_strictOrder hne]
      rfl

/-- The comment `genre` that a GenreID3 tag of decimal value `n` gives, in a store
without a textual Genre tag. -/
theorem from_genreID3 (g : Int → Str) (itags : TagStore) (n : Nat)
    (hm : IsMap natLt itags) (hn : n < 2147483648)
    (h : mapFind Tag.kGenreID3 itags = some (natToDec n))
    (hng : mapFind Tag.kGenre itags = none) :
    mapFind "genre".toList (ConvertFromItunesTags g itags) = some (g ((n : Int) - 1)) := by
  obtain ⟨l1, l2, hl, hgt, _⟩ := isMap_split _ _ itags hm h
  have hall := mapFind_eq_none_forall _ _ hng
  have hfact : ∀ e ∈ tagNameMap, e.1 = "genre".toList →
      e.2 = Tag.kGenre ∨ e.2 = Tag.kGenreID3 := by decide
  have h2 : ∀ kv ∈ l2,
      (kv.1 = Tag.kTrack → "genre".toList ≠ "tracknumber".toList ∧
        "genre".toList ≠ "totaltracks".toList) ∧
      (kv.1 = Tag.kDisk → "genre".toList ≠ "discnumber".toList ∧
        "genre".toList ≠ "totaldiscs".toList) ∧
      (kv.1 ≠ Tag.kTrack → kv.1 ≠ Tag.kDisk →
        GetNameFromTagID kv.1 ≠ some "genre".toList) := by
    intro kv hkv
    refine ⟨fun _ => by decide, fun _ => by decide, ?_⟩
    intro _ _ hname
    rcases hfact _ (GetNameFromTagID_row kv.1 _ hname) rfl with hc | hc
    · exact hall kv (by rw [hl]; simp [hkv]) hc
    · exact ne_of_natLt (hgt kv hkv) hc.symm
  unfold ConvertFromItunesTags
  rw [hl, List.foldl_append, List.foldl_cons, foldl_fromStep_find_unchanged g _ l2 _ h2,
    fromStep_genreID3, sscanf_d_dec n hn]
  simp only [if_true]
  exact mapFind_mapSet_self strLt_strictOrder _ _ _

/-! ## Lemmas: `ShortTagWriter::writeTag` -/

open ShortTagWriter

theorem writeTag_track (key : Nat) (value : Str) (hk : key = Tag.kTrack) :
    writeTag key value =
      if (sscanf_d_slash_d (c_str value) 0 0).1 > 0 then
        [MetadataWrite.SetMetadataTrack (sscanf_d_slash_d (c_str value) 0 0).2.1
          (sscanf_d_slash_d (c_str value) 0 0).2.2]
      else [] := by
  unfold writeTag
  simp only [w2m]
  rw [if_pos hk]

theorem writeTag_disk (key : Nat) (value : Str) (hk : key = Tag.kDisk) :
    writeTag key value =
      if (sscanf_d_slash_d (c_str value) 0 0).1 > 0 then
        [MetadataWrite.SetMetadataDisk (sscanf_d_slash_d (c_str value) 0 0).2.1
          (sscanf_d_slash_d (c_str value) 0 0).2.2]
      else [] := by
  have h1 : key ≠ Tag.kTrack := by rw [hk]; decide
  unfold writeTag
  simp only [w2m]
  rw [if_neg h1, if_pos hk]

theorem writeTag_compilation (key : Nat) (value : Str) (hk : key = Tag.kCompilation) :
    writeTag key value =
      if (sscanf_d (c_str value) 0).1 = 1 then
        [MetadataWrite.SetMetadataUint8 key (sscanf_d (c_str value) 0).2]
      else [] := by
  have h1 : key ≠ Tag.kTrack := by rw [hk]; decide
  have h2 : key ≠ Tag.kDisk := by rw [hk]; decide
  unfold writeTag
  simp only [w2m]
  rw [if_neg h1, if_neg h2, if_pos hk]

theorem writeTag_tempo (key : Nat) (value : Str) (hk : key = Tag.kTempo) :
    writeTag key value =
      if (sscanf_d (c_str value) 0).1 = 1 then
        [MetadataWrite.SetMetadataUint16 key (sscanf_d (c_str value) 0).2]
      else [] := by
  have h1 : key ≠ Tag.kTrack := by rw [hk]; decide
  have h2 : key ≠ Tag.kDisk := by rw [hk]; decide
  have h3 : key ≠ Tag.kCompilation := by rw [hk]; decide
  unfold writeTag
  simp only [w2m]
  rw [if_neg h1, if_neg h2, if_neg h3, if_pos hk]

theorem writeTag_genreID3 (key : Nat) (value : Str) (hk : key = Tag.kGenreID3) :
    writeTag key value =
      if (sscanf_d (c_str value) 0).1 = 1 then
        [MetadataWrite.SetMetadataGenre key (sscanf_d (c_str value) 0).2]
      else [] := by
  have h1 : key ≠ Tag.kTrack := by rw [hk]; decide
  have h2 : key ≠ Tag.kDisk := by rw [hk]; decide
  have h3 : key ≠ Tag.kCompilation := by rw [hk]; decide
  have h4 : key ≠ Tag.kTempo := by rw [hk]; decide
  unfold writeTag
  simp only [w2m]
  rw [if_neg h1, if_neg h2, if_neg h3, if_neg h4, if_pos hk]

theorem writeTag_other (key : Nat) (value : Str) (h1 : key ≠ Tag.kTrack)
    (h2 : key ≠ Tag.kDisk) (h3 : key ≠ Tag.kCompilation) (h4 : key ≠ Tag.kTempo)
    (h5 : key ≠ Tag.kGenreID3) :
    writeTag key value = [MetadataWrite.SetMetadataString key (c_str value)] := by
  unfold writeTag
  simp only [w2m]
  rw [if_neg h1, if_neg h2, if_neg h3, if_neg h4, if_neg h5]

/-! ## Lemmas: the round trip through the comment vocabulary -/

/-- A property that every step of a loop keeps holds after the loop. -/
theorem foldl_invariant {σ α : Type} (P : σ → Prop) (f : σ → α → σ) :
    ∀ (l : List α) (s : σ), P s → (∀ s, ∀ a ∈ l, P s → P (f s a)) → P (l.foldl f s)
  | [], _, h0, _ => h0
  | a :: l, s, h0, hstep => by
    rw [List.foldl_cons]
    exact foldl_invariant P f l (f s a) (hstep s a (List.mem_cons_self a l) h0)
      (fun s b hb => hstep s b (List.mem_cons_of_mem a hb))

theorem option_any_eq_true {α : Type} (p : α → Bool) (o : Option α) (h : o.any p = true) :
    ∃ a, o = some a ∧ p a = true := by
  cases o with
  | none => simp at h
  | some a => exact ⟨a, rfl, by simpa using h⟩

/-- The text keys: each has a name in the table, which is a written name and a C
string, maps back to the key, and is no total field. -/
theorem textKeys_name (K : Nat) (hK : K ∈ textKeys) :
    ∃ nm, GetNameFromTagID K = some nm ∧ nm ∈ writtenNames ∧ NulFree nm ∧
      GetIDFromTagName (c_str nm) = K ∧
      strtransform nm tolower ≠ "totaltracks".toList ∧
      strtransform nm tolower ≠ "totaldiscs".toList ∧
      nm ≠ "tracknumber".toList ∧ nm ≠ "totaltracks".toList ∧
      nm ≠ "discnumber".toList ∧ nm ≠ "totaldiscs".toList := by
  have hfact : ∀ K ∈ textKeys, ((GetNameFromTagID K).any fun nm =>
      decide (nm ∈ writtenNames ∧ NulFree nm ∧
        GetIDFromTagName (c_str nm) = K ∧
        strtransform nm tolower ≠ "totaltracks".toList ∧
        strtransform nm tolower ≠ "totaldiscs".toList ∧
        nm ≠ "tracknumber".toList ∧ nm ≠ "totaltracks".toList ∧
        nm ≠ "discnumber".toList ∧ nm ≠ "totaldiscs".toList)) = true := by
    decide
  obtain ⟨nm, h1, h2⟩ := option_any_eq_true _ _ (hfact K hK)
  exact ⟨nm, h1, of_decide_eq_true h2⟩

theorem textKeys_ne (K : Nat) (hK : K ∈ textKeys) :
    K ≠ Tag.kTrack ∧ K ≠ Tag.kDisk ∧ K ≠ Tag.kGenreID3 ∧ 0 < K := by
  have hfact : ∀ K ∈ textKeys,
      K ≠ Tag.kTrack ∧ K ≠ Tag.kDisk ∧ K ≠ Tag.kGenreID3 ∧ 0 < K := by
    decide
  exact hfact K hK

theorem textKeys_name_inj (K K' : Nat) (hK : K ∈ textKeys) (hK' : K' ∈ textKeys)
    (h : GetNameFromTagID K = GetNameFromTagID K') : K = K' := by
  have hfact : ∀ K ∈ textKeys, ∀ K' ∈ textKeys,
      GetNameFromTagID K = GetNameFromTagID K' → K = K' := by
    decide
  exact hfact K hK K' hK' h

/-- The written names are C strings; a letter-case variant of a total field among
them is the total field; and each that maps to a key is the name of that key. -/
theorem writtenNames_facts (a : Str) (ha : a ∈ writtenNames) :
    NulFree a ∧
    (strtransform a tolower = "totaltracks".toList → a = "totaltracks".toList) ∧
    (strtransform a tolower = "totaldiscs".toList → a = "totaldiscs".toList) ∧
    (GetIDFromTagName (c_str a) = 0 ∨
      GetNameFromTagID (GetIDFromTagName (c_str a)) = some a) := by
  have hfact : ∀ a ∈ writtenNames, NulFree a ∧
      (strtransform a tolower = "totaltracks".toList → a = "totaltracks".toList) ∧
      (strtransform a tolower = "totaldiscs".toList → a = "totaldiscs".toList) ∧
      (GetIDFromTagName (c_str a) = 0 ∨
        GetNameFromTagID (GetIDFromTagName (c_str a)) = some a) := by
    decide
  exact hfact a ha

/-! ### The store after the loops is a `std::map` -/

theorem isMap_fromIndexTotal (iN tN value : Str) (acc : Comments) (h : IsMap strLt acc) :
    IsMap strLt (fromIndexTotal iN tN value acc) := by
  unfold fromIndexTotal
  simp only []
  split
  · exact h
  · split
    · exact isMap_mapSet strLt_strictOrder _ _ _ (isMap_mapSet strLt_strictOrder _ _ _ h)
    · exact isMap_mapSet strLt_strictOrder _ _ _ h

theorem isMap_fromStep (g : Int → Str) (acc : Comments) (kv : Nat × Str)
    (h : IsMap strLt acc) : IsMap strLt (fromStep g acc kv) := by
  obtain ⟨k, v⟩ := kv
  cases hname : GetNameFromTagID k with
  | none => rw [fromStep_unnamed g acc (k, v) hname]; exact h
  | some name =>
    rw [fromStep_eq g acc k v name hname]
    split
    · exact isMap_fromIndexTotal _ _ _ _ h
    · split
      · exact isMap_fromIndexTotal _ _ _ _ h
      · split
        · split
          · exact isMap_mapSet strLt_strictOrder _ _ _ h
          · exact h
        · exact isMap_mapSet strLt_strictOrder _ _ _ h

theorem isMap_convertFrom (g : Int → Str) (itags : TagStore) :
    IsMap strLt (ConvertFromItunesTags g itags) :=
  foldl_invariant (fun s => IsMap strLt s) (fromStep g) itags [] isMap_nil
    (fun s a _ hs => isMap_fromStep g s a hs)

theorem isMap_toStep (st : ToState) (kv : Str × Str) (h : IsMap natLt st.result) :
    IsMap natLt (toStep st kv).result := by
  rw [toStep_result]
  split
  · exact h
  · split
    · exact isMap_mapSet natLt_strictOrder _ _ _ h
    · exact h

theorem isMap_packTotal (key : Nat) (total : Str) (result : TagStore)
    (h : IsMap natLt result) : IsMap natLt (packTotal key total result) := by
  unfold packTotal
  split
  · split
    · exact isMap_mapSet natLt_strictOrder _ _ _ h
    · exact h
  · exact h

theorem isMap_convertTo (vc : Comments) : IsMap natLt (ConvertToItunesTags vc) := by
  unfold ConvertToItunesTags
  simp only []
  apply isMap_packTotal
  apply isMap_packTotal
  exact foldl_invariant (fun s => IsMap natLt s.result) toStep vc ⟨[], [], []⟩ isMap_nil
    (fun s a _ hs => isMap_toStep s a hs)

theorem mapFind_packTotal_none (K key : Nat) (total : Str) (result : TagStore)
    (h : mapFind K result = none) : mapFind K (packTotal key total result) = none := by
  by_cases hk : K = key
  · subst hk
    rw [packTotal_of_none _ _ _ h, h]
  · rw [mapFind_packTotal_ne _ _ _ _ hk, h]

theorem mapFind_convertTo_none (vc : Comments) (K : Nat)
    (h : mapFind K (vc.foldl toStep ⟨[], [], []⟩).result = none) :
    mapFind K (ConvertToItunesTags vc) = none := by
  unfold ConvertToItunesTags
  simp only []
  exact mapFind_packTotal_none _ _ _ _ (mapFind_packTotal_none _ _ _ _ h)

/-! ### Where the comments come from -/

theorem mem_fromIndexTotal (iN tN value : Str) (acc : Comments) (p : Str × Str)
    (h : p ∈ fromIndexTotal iN tN value acc) : p ∈ acc ∨ p.1 = iN ∨ p.1 = tN := by
  unfold fromIndexTotal at h
  simp only [] at h
  split at h
  · exact Or.inl h
  · split at h
    · rcases mem_mapSet _ _ _ p h with h1 | h1
      · exact Or.inr (Or.inr (by rw [h1]))
      · rcases mem_mapSet _ _ _ p h1 with h2 | h2
        · exact Or.inr (Or.inl (by rw [h2]))
        · exact Or.inl h2
    · rcases mem_mapSet _ _ _ p h with h1 | h1
      · exact Or.inr (Or.inl (by rw [h1]))
      · exact Or.inl h1

/-- Every comment made from a store of round-trip tags has a written name, and is a
total field or has a name that maps to the key of a tag of the store. -/
theorem convertFrom_provenance (g : Int → Str) (itags : TagStore)
    (hok : ∀ kv ∈ itags, RoundTripTag kv) :
    ∀ p ∈ ConvertFromItunesTags g itags, p.1 ∈ writtenNames ∧
      (p.1 = "totaltracks".toList ∨ p.1 = "totaldiscs".toList ∨
        ∃ kv ∈ itags, GetIDFromTagName (c_str p.1) = kv.1) := by
  apply foldl_invariant (fun s : Comments => ∀ p ∈ s, p.1 ∈ writtenNames ∧
      (p.1 = "totaltracks".toList ∨ p.1 = "totaldiscs".toList ∨
        ∃ kv ∈ itags, GetIDFromTagName (c_str p.1) = kv.1)) (fromStep g) itags []
  · intro p hp
    simp at hp
  · intro s kv hkv hs p hp
    obtain ⟨k, v⟩ := kv
    rcases hok (k, v) hkv with hT | ⟨hT | hT, _⟩
    · obtain ⟨nm, h1, h2, _, h4, _⟩ := textKeys_name k hT
      obtain ⟨n1, n2, n3, _⟩ := textKeys_ne k hT
      rw [fromStep_text g s (k, v) nm h1 n1 n2 n3] at hp
      rcases mem_mapSet _ _ _ p hp with h | h
      · rw [h]
        exact ⟨h2, Or.inr (Or.inr ⟨(k, v), hkv, h4⟩)⟩
      · exact hs p h
    · have hT' : k = Tag.kTrack := hT
      subst hT'
      rw [fromStep_track] at hp
      rcases mem_fromIndexTotal _ _ _ _ p hp with h | h | h
      · exact hs p h
      · rw [h]
        exact ⟨by decide, Or.inr (Or.inr ⟨(Tag.kTrack, v), hkv,
          (show GetIDFromTagName (c_str "tracknumber".toList) = Tag.kTrack by decide)⟩)⟩
      · rw [h]
        exact ⟨by decide, Or.inl rfl⟩
    · have hT' : k = Tag.kDisk := hT
      subst hT'
      rw [fromStep_disk] at hp
      rcases mem_fromIndexTotal _ _ _ _ p hp with h | h | h
      · exact hs p h
      · rw [h]
        exact ⟨by decide, Or.inr (Or.inr ⟨(Tag.kDisk, v), hkv,
          (show GetIDFromTagName (c_str "discnumber".toList) = Tag.kDisk by decide)⟩)⟩
      · rw [h]
        exact ⟨by decide, Or.inr (Or.inl rfl)⟩

/-! ### The comments read back -/

/-- A total field, or a pair whose name maps to another key, leaves the entry of key
`K` alone. -/
theorem toStep_find_passed (K : Nat) (st : ToState) (kv : Str × Str)
    (h : (strtransform kv.1 tolower = "totaltracks".toList ∨
        strtransform kv.1 tolower = "totaldiscs".toList) ∨
      GetIDFromTagName (c_str kv.1) ≠ K) :
    mapFind K (toStep st kv).result = mapFind K st.result := by
  rcases h with h | h
  · rw [toStep_result_of_total st kv h]
  · exact toStep_find_ne K st kv h

theorem foldl_toStep_find_passed (K : Nat) (l : Comments) (st : ToState)
    (h : ∀ kv ∈ l, (strtransform kv.1 tolower = "totaltracks".toList ∨
        strtransform kv.1 tolower = "totaldiscs".toList) ∨
      GetIDFromTagName (c_str kv.1) ≠ K) :
    mapFind K (l.foldl toStep st).result = mapFind K st.result :=
  foldl_obs_unchanged toStep (fun s => mapFind K s.result) l st
    (fun s kv hkv => toStep_find_passed K s kv (h kv hkv))

/-- Among comments with written names, the comment with the name of the key `K` gives
the entry of `K` after the loop. -/
theorem to_find_of_written (c : Comments) (st : ToState) (K : Nat) (nm0 v : Str)
    (hm : IsMap strLt c) (hA : ∀ kv ∈ c, kv.1 ∈ writtenNames)
    (hname : GetNameFromTagID K = some nm0) (hid : GetIDFromTagName (c_str nm0) = K)
    (hK : 0 < K) (hnt : strtransform nm0 tolower ≠ "totaltracks".toList)
    (hnd : strtransform nm0 tolower ≠ "totaldiscs".toList)
    (h : mapFind nm0 c = some v) :
    mapFind K (c.foldl toStep st).result = some v := by
  obtain ⟨l1, l2, hl, hgt, _⟩ := isMap_split _ _ c hm h
  have h2 : ∀ kv ∈ l2, GetIDFromTagName (c_str kv.1) ≠ K := by
    intro kv hkv he
    have hknm : kv.1 ≠ nm0 := by
      intro e
      have := hgt kv hkv
      rw [e, strLt_irrefl] at this
      exact absurd this (by decide)
    rcases (writtenNames_facts kv.1 (hA kv (by rw [hl]; simp [hkv]))).2.2.2 with h0 | h0
    · rw [he] at h0
      omega
    · rw [he, hname] at h0
      exact hknm (Option.some.inj h0).symm
  rw [hl, List.foldl_append, List.foldl_cons, foldl_toStep_find_unchanged K l2 _ h2]
  exact toStep_find_eq K _ (nm0, v) hnt hnd hid hK

/-- Among comments with written names, `totaltracks` after the loop is the value of
the field `totaltracks`, empty when there is none. -/
theorem to_totaltracks (c : Comments) (hm : IsMap strLt c)
    (hA : ∀ kv ∈ c, kv.1 ∈ writtenNames) :
    (c.foldl toStep ⟨[], [], []⟩).totaltracks =
      (mapFind "totaltracks".toList c).getD [] := by
  cases h : mapFind "totaltracks".toList c with
  | none =>
    rw [foldl_toStep_totaltracks_unchanged c _ (fun kv hkv he =>
      mapFind_eq_none_forall _ _ h kv hkv ((writtenNames_facts kv.1 (hA kv hkv)).2.1 he))]
    rfl
  | some tv =>
    rw [foldl_toStep_totaltracks c _ tv hm h]
    rfl

/-- Among comments with written names, `totaldiscs` after the loop is the value of
the field `totaldiscs`, empty when there is none. -/
theorem to_totaldiscs (c : Comments) (hm : IsMap strLt c)
    (hA : ∀ kv ∈ c, kv.1 ∈ writtenNames) :
    (c.foldl toStep ⟨[], [], []⟩).totaldiscs =
      (mapFind "totaldiscs".toList c).getD [] := by
  cases h : mapFind "totaldiscs".toList c with
  | none =>
    rw [foldl_toStep_totaldiscs_unchanged c _ (fun kv hkv he =>
      mapFind_eq_none_forall _ _ h kv hkv ((writtenNames_facts kv.1 (hA kv hkv)).2.2.1 he))]
    rfl
  | some tv =>
    rw [foldl_toStep_totaldiscs c _ tv hm h]
    rfl

/-- A text tag of a store of round-trip tags gives the comment with its name and
value. -/
theorem from_text (g : Int → Str) (itags : TagStore) (hm : IsMap natLt itags)
    (hok : ∀ kv ∈ itags, RoundTripTag kv) (K : Nat) (v nm0 : Str) (hK : K ∈ textKeys)
    (hname : GetNameFromTagID K = some nm0)
    (hn1 : nm0 ≠ "tracknumber".toList) (hn2 : nm0 ≠ "totaltracks".toList)
    (hn3 : nm0 ≠ "discnumber".toList) (hn4 : nm0 ≠ "totaldiscs".toList)
    (h : mapFind K itags = some v) :
    mapFind nm0 (ConvertFromItunesTags g itags) = some v := by
  obtain ⟨l1, l2, hl, hgt, _⟩ := isMap_split _ _ itags hm h
  obtain ⟨k1, k2, k3, _⟩ := textKeys_ne K hK
  have h2 : ∀ kv ∈ l2,
      (kv.1 = Tag.kTrack → nm0 ≠ "tracknumber".toList ∧ nm0 ≠ "totaltracks".toList) ∧
      (kv.1 = Tag.kDisk → nm0 ≠ "discnumber".toList ∧ nm0 ≠ "totaldiscs".toList) ∧
      (kv.1 ≠ Tag.kTrack → kv.1 ≠ Tag.kDisk → GetNameFromTagID kv.1 ≠ some nm0) := by
    intro kv hkv
    refine ⟨fun _ => ⟨hn1, hn2⟩, fun _ => ⟨hn3, hn4⟩, ?_⟩
    intro hT hD he
    have hmem : kv ∈ itags := by rw [hl]; simp [hkv]
    rcases hok kv hmem with ht | ⟨ht | ht, _⟩
    · have := textKeys_name_inj kv.1 K ht hK (by rw [he, hname])
      exact ne_of_natLt (hgt kv hkv) this.symm
    · exact hT ht
    · exact hD ht
  unfold ConvertFromItunesTags
  rw [hl, List.foldl_append, List.foldl_cons, foldl_fromStep_find_unchanged g _ l2 _ h2,
    fromStep_text g _ (K, v) nm0 hname k1 k2 k3]
  exact mapFind_mapSet_self strLt_strictOrder _ _ _

/-- What the Track or Disk entry packed from the comments of a canonical value
is: the value. -/
theorem pack_canonical (v : Str) (hcan : CanonicalIndexTotal v) (iN tN : Str)
    (hne : tN ≠ iN) :
    ∃ index : Str, mapFind iN (fromIndexTotal iN tN v []) = some index ∧
      (if (mapFind tN (fromIndexTotal iN tN v [])).getD [] = [] then some index
       else some (format "%d/%d".toList
        [_wtoi index, atoi ((mapFind tN (fromIndexTotal iN tN v [])).getD [])])) =
      some v := by
  obtain ⟨i, t, hi, ht, hv⟩ := hcan
  rcases hv with hv | ⟨htpos, hv⟩
  · obtain ⟨h1, h2⟩ := mapFind_index_of_dec iN tN i hi hne
    refine ⟨natToDec i, by rw [hv]; exact h1, ?_⟩
    rw [hv, h2]
    exact if_pos rfl
  · obtain ⟨h1, h2⟩ := mapFind_index_of_pair iN tN i t hi ht hne
    refine ⟨natToDec i, by rw [hv]; exact h1, ?_⟩
    rw [hv, h2, if_pos htpos, Option.getD_some, if_neg (natToDec_ne_nil t)]
    unfold _wtoi
    rw [atoi_natToDec i hi, atoi_natToDec t ht, format_index_total]

/-- The round trip keeps every entry of a store of round-trip tags. -/
theorem roundtrip_find (g : Int → Str) (itags : TagStore) (hm : IsMap natLt itags)
    (hok : ∀ kv ∈ itags, RoundTripTag kv) (K : Nat) :
    mapFind K (ConvertToItunesTags (ConvertFromItunesTags g itags)) = mapFind K itags := by
  have hcm := isMap_convertFrom g itags
  have hprov := convertFrom_provenance g itags hok
  have hA : ∀ kv ∈ ConvertFromItunesTags g itags, kv.1 ∈ writtenNames :=
    fun kv hkv => (hprov kv hkv).1
  have hnul : ∀ kv ∈ ConvertFromItunesTags g itags, NulFree kv.1 :=
    fun kv hkv => (writtenNames_facts kv.1 (hA kv hkv)).1
  cases h : mapFind K itags with
  | none =>
    have hall := mapFind_eq_none_forall K itags h
    apply mapFind_convertTo_none
    rw [foldl_toStep_find_passed K _ _ (fun kv hkv => by
      rcases (hprov kv hkv).2 with e | e | ⟨kv0, hkv0, e⟩
      · left; left; rw [e]; decide
      · left; right; rw [e]; decide
      · right; rw [e]; exact hall kv0 hkv0)]
    rfl
  | some v =>
    have hmem := mem_of_mapFind_eq_some K v itags h
    rcases hok (K, v) hmem with hT | ⟨hT | hT, hcan⟩
    · obtain ⟨nm, h1, _, _, h4, h5, h6, n1, n2, n3, n4⟩ := textKeys_name K hT
      obtain ⟨k1, k2, _, k4⟩ := textKeys_ne K hT
      rw [convertTo_other _ K k1 k2]
      exact to_find_of_written _ _ K nm v hcm hA h1 h4 k4 h5 h6
        (from_text g itags hm hok K v nm hT h1 n1 n2 n3 n4 h)
    · have hT' : K = Tag.kTrack := hT
      subst hT'
      obtain ⟨index, hi1, hi2⟩ := pack_canonical v hcan "tracknumber".toList
        "totaltracks".toList (by decide)
      have e1 := from_track g itags v hm h _ (Or.inl rfl)
      have e2 := from_track g itags v hm h _ (Or.inr rfl)
      rw [convertTo_track _ index (foldl_toStep_track _ _ index hcm hnul (e1.trans hi1)),
        to_totaltracks _ hcm hA, e2]
      exact hi2
    · have hT' : K = Tag.kDisk := hT
      subst hT'
      obtain ⟨index, hi1, hi2⟩ := pack_canonical v hcan "discnumber".toList
        "totaldiscs".toList (by decide)
      have e1 := from_disk g itags v hm h _ (Or.inl rfl)
      have e2 := from_disk g itags v hm h _ (Or.inr rfl)
      rw [convertTo_disk _ index (foldl_toStep_disk _ _ index hcm hnul (e1.trans hi1)),
        to_totaldiscs _ hcm hA, e2]
      exact hi2

/-! ## The gapless descriptor -/

/-- C5. For gapless info with a non-zero sample count, the descriptor stored by
`TagEditor::save` has, as its space-separated fields: `00000000`, the delay as 8
upper-case hexadecimal digits (field 2), the padding as 8 hexadecimal digits
(field 3), then the high 32 bits of `samples` followed by its low 32 bits, each as
8 hexadecimal digits, and after them only fields `00000000`. -/
theorem C5_gapless_descriptor_layout (e : TagEditor) (info : GaplessInfo)
    (hd : info.delay < 4294967296) (hp : info.padding < 4294967296)
    (hs : info.samples < 18446744073709551616) (h0 : info.samples ≠ 0) :
    (gaplessDescriptor e info).map fields =
      some ([zeroField, hex8 info.delay, hex8 info.padding,
        hex8 (info.samples / 4294967296) ++ hex8 (info.samples % 4294967296)] ++
        List.replicate 8 zeroField) :=
  gapless_fields_eq e info hd hp hs h0

/-- C5, at the values of the specification: delay `0x1A2`, padding `0x5`, samples
`0x100000001`. -/
theorem C5_gapless_descriptor_layout_witness :
    ((418 : Nat) < 4294967296 ∧ (5 : Nat) < 4294967296 ∧
      (4294967297 : Nat) < 18446744073709551616 ∧ (4294967297 : Nat) ≠ 0) ∧
    (gaplessDescriptor TagEditor.new ⟨418, 5, 4294967297⟩).map fields =
      some (["00000000".toList, "000001A2".toList, "00000005".toList,
        "00000001".toList ++ "00000001".toList] ++ List.replicate 8 "00000000".toList) :=
  ⟨by decide,
   C5_gapless_descriptor_layout TagEditor.new ⟨418, 5, 4294967297⟩
     (by decide) (by decide) (by decide) (by decide)⟩

/-- C6, refuted as stated: for delay `0x1A2`, padding `0x5`, samples `0x100000001`
the descriptor has 12 fields, not 11, and its fourth field has 16 digits, not 8:
the two halves of `samples` are not separate fields. -/
theorem C6_eleven_fields_counterexample :
    (gaplessDescriptor TagEditor.new ⟨418, 5, 4294967297⟩).map
        (fun s => (fields s).map List.length) =
      some [8, 8, 8, 16, 8, 8, 8, 8, 8, 8, 8, 8] ∧
    (gaplessDescriptor TagEditor.new ⟨418, 5, 4294967297⟩).map
        (fun s => (fields s).map List.length) ≠ some (List.replicate 11 8) ∧
    (gaplessDescriptor TagEditor.new ⟨418, 5, 4294967297⟩).map
        (fun s => (fields s).get? 3) = some (some "0000000100000001".toList) := by
  decide

/-- C6, amended. For gapless info with a non-zero sample count the descriptor has
exactly 12 space-separated fields, all made of upper-case hexadecimal digits; each
has exactly 8 digits except the fourth, which has 16: the high 32 bits of
`samples` followed by its low 32 bits. -/
theorem C6_twelve_fields (e : TagEditor) (info : GaplessInfo)
    (hd : info.delay < 4294967296) (hp : info.padding < 4294967296)
    (hs : info.samples < 18446744073709551616) (h0 : info.samples ≠ 0) :
    (gaplessDescriptor e info).map (fun s => (fields s).map List.length) =
      some [8, 8, 8, 16, 8, 8, 8, 8, 8, 8, 8, 8] ∧
    (gaplessDescriptor e info).map (fun s => (fields s).get? 3) =
      some (some (hex8 (info.samples / 4294967296) ++ hex8 (info.samples % 4294967296))) ∧
    (gaplessDescriptor e info).map
      (fun s => (fields s).all (fun f => f.all isHexUpper)) = some true := by
  have h := gapless_fields_eq e info hd hp hs h0
  cases hg : gaplessDescriptor e info with
  | none => rw [hg] at h; simp at h
  | some s =>
    rw [hg, Option.map_some'] at h
    have hf := Option.some.inj h
    have hz : zeroField.length = 8 := by decide
    have hzh : zeroField.all isHexUpper = true := by decide
    have hall : ∀ n, (hex8 n).all isHexUpper = true := by
      intro n
      rw [List.all_eq_true]
      exact hexDigits_isHexUpper 8 n
    simp only [Option.map_some', hf]
    refine ⟨?_, ?_, ?_⟩
    · simp [hex8, hexDigits_length, hz, List.replicate]
    · simp
    · simp [hall, hzh, List.replicate, List.all_append]

/-- C6 amended, at the values of the specification. -/
theorem C6_twelve_fields_witness :
    ((418 : Nat) < 4294967296 ∧ (5 : Nat) < 4294967296 ∧
      (4294967297 : Nat) < 18446744073709551616 ∧ (4294967297 : Nat) ≠ 0) ∧
    ((gaplessDescriptor TagEditor.new ⟨418, 5, 4294967297⟩).map
        (fun s => (fields s).map List.length) =
      some [8, 8, 8, 16, 8, 8, 8, 8, 8, 8, 8, 8] ∧
    (gaplessDescriptor TagEditor.new ⟨418, 5, 4294967297⟩).map (fun s => (fields s).get? 3) =
      some (some (hex8 (4294967297 / 4294967296) ++ hex8 (4294967297 % 4294967296))) ∧
    (gaplessDescriptor TagEditor.new ⟨418, 5, 4294967297⟩).map
      (fun s => (fields s).all (fun f => f.all isHexUpper)) = some true) :=
  ⟨by decide,
   C6_twelve_fields TagEditor.new ⟨418, 5, 4294967297⟩
     (by decide) (by decide) (by decide) (by decide)⟩

/-- C7. With a sample count of zero (also in an editor on which `setGaplessInfo` was
never called) the descriptor step of `TagEditor::save` leaves the freeform tags
unchanged, whatever delay and padding are; with a non-zero sample count the
freeform tags gain exactly the entry `iTunSMPB`: that key reads the descriptor and
every other key reads what it read before. -/
theorem C7_descriptor_step_frame (e : TagEditor) (info : GaplessInfo)
    (hs : info.samples < 18446744073709551616) :
    TagEditor.new.saveGapless = TagEditor.new ∧
    (e.m_nsamples = 0 → e.saveGapless = e) ∧
    (info.samples = 0 →
      ((e.setGaplessInfo info).saveGapless).m_long_tags = e.m_long_tags) ∧
    (info.samples ≠ 0 → ∀ k : Str,
      mapFind k ((e.setGaplessInfo info).saveGapless).m_long_tags =
        if k = "iTunSMPB".toList then some (TagEditor.gaplessValue (e.setGaplessInfo info))
        else mapFind k e.m_long_tags) := by
  have hsm : (e.setGaplessInfo info).m_nsamples = info.samples := by
    rw [setGaplessInfo_nsamples, Nat.mod_eq_of_lt hs]
  refine ⟨saveGapless_zero _ rfl, saveGapless_zero e, ?_, ?_⟩
  · intro h
    rw [saveGapless_zero _ (hsm.trans h), setGaplessInfo_long_tags]
  · intro h k
    rw [saveGapless_long_tags _ (by rw [hsm]; exact h), mapFind_mapSet strLt_strictOrder,
      widen_eq, setGaplessInfo_long_tags]

/-- C7, at a new editor with the gapless info of the specification: the freeform
tags then hold the descriptor and nothing else. -/
theorem C7_descriptor_step_frame_witness :
    (4294967297 : Nat) < 18446744073709551616 ∧
    (TagEditor.new.saveGapless = TagEditor.new ∧
    (TagEditor.new.m_nsamples = 0 → TagEditor.new.saveGapless = TagEditor.new) ∧
    ((⟨418, 5, 4294967297⟩ : GaplessInfo).samples = 0 →
      ((TagEditor.new.setGaplessInfo ⟨418, 5, 4294967297⟩).saveGapless).m_long_tags =
        TagEditor.new.m_long_tags) ∧
    ((⟨418, 5, 4294967297⟩ : GaplessInfo).samples ≠ 0 → ∀ k : Str,
      mapFind k ((TagEditor.new.setGaplessInfo ⟨418, 5, 4294967297⟩).saveGapless).m_long_tags =
        if k = "iTunSMPB".toList then
          some (TagEditor.gaplessValue (TagEditor.new.setGaplessInfo ⟨418, 5, 4294967297⟩))
        else mapFind k TagEditor.new.m_long_tags)) :=
  ⟨by decide, C7_descriptor_step_frame TagEditor.new ⟨418, 5, 4294967297⟩ (by decide)⟩

open PartialSource

/-! ## `PartialSource` -/

/-- C8, refuted as stated: with duration 0 (finite) `setRange(5)` leaves the duration
at 0, which is neither `0 - 5` nor its `uint64_t` wrap-around; with duration `2^63`
`setRange(1)` leaves the duration unchanged too. -/
theorem C8_start_only_counterexample :
    (((PartialSource.mk 0 0 []).setRange 5 (-1)).m_duration : Int) ≠ 0 - 5 ∧
    ((PartialSource.mk 0 0 []).setRange 5 (-1)).m_duration ≠ wrapUInt64 (0 - 5) ∧
    ((PartialSource.mk 0 0 []).setRange 5 (-1)).m_duration = 0 ∧
    ((PartialSource.mk 9223372036854775808 0 []).setRange 1 (-1)).m_duration
      ≠ 9223372036854775808 - 1 := by
  decide

/-- C8, amended. For a duration `d` below `2^63`, `setRange(start)` with
`0 < start ≤ d` and no length given sets the duration to `d - start`. -/
theorem C8_start_only_shrinks (p : PartialSource) (start : Int)
    (hstart : 0 < start) (hle : start ≤ (p.m_duration : Int))
    (hfin : p.m_duration < 9223372036854775808) :
    ((p.setRange start (-1)).m_duration : Int) = (p.m_duration : Int) - start := by
  have hd : wrapInt64 (p.m_duration : Int) = (p.m_duration : Int) := by
    unfold wrapInt64; omega
  have hpos : (0 : Int) < (p.m_duration : Int) := by omega
  simp only [setRange, hd]
  have h1 : ¬ ((-1 : Int) ≥ 0 ∧ ((p.m_duration : Int) = -1 ∨ (-1 : Int) < (p.m_duration : Int))) := by
    omega
  have h2 : start ≠ 0 := by omega
  have h3 : start > 0 ∧ (p.m_duration : Int) > 0 ∧ (-1 : Int) = -1 := ⟨hstart, hpos, rfl⟩
  simp only [h1, h2, h3, if_true, if_false, ne_eq, not_false_eq_true, and_self]
  unfold wrapUInt64
  omega

/-- C8 amended, at the values of the specification: duration 1000 and
`setRange(100)` give duration 900. -/
theorem C8_start_only_shrinks_witness :
    ((0 : Int) < 100 ∧ (100 : Int) ≤ ((PartialSource.mk 1000 0 []).m_duration : Int) ∧
      (PartialSource.mk 1000 0 []).m_duration < 9223372036854775808) ∧
    ((((PartialSource.mk 1000 0 []).setRange 100 (-1)).m_duration : Int) =
      ((PartialSource.mk 1000 0 []).m_duration : Int) - 100) ∧
    ((PartialSource.mk 1000 0 []).setRange 100 (-1)).m_duration = 900 :=
  ⟨by decide,
   C8_start_only_shrinks (PartialSource.mk 1000 0 []) 100 (by decide) (by decide) (by decide),
   by decide⟩

/-- C9, refuted as stated: with duration `2^63` the call `setRange(100, 500)` leaves
the duration unchanged although 500 is smaller; the same happens at the duration
`2^64 - 10` reached by `setRange(0, 10)` followed by `setRange(20)`. -/
theorem C9_length_given_counterexample :
    ((PartialSource.mk 9223372036854775808 0 []).setRange 100 500).m_duration
        = 9223372036854775808 ∧
      (500 : Int) < 9223372036854775808 ∧
      (((PartialSource.new.setRange 0 10).setRange 20 (-1)).setRange 100 500).m_duration
        = 18446744073709551606 := by
  decide

/-- C9, amended. When no duration is set or the duration is below `2^63`,
`setRange(start, length)` with `0 ≤ length` sets the duration to `length` if no
duration was set or `length` is smaller than the duration, and leaves it unchanged
otherwise; `start` is not subtracted, and `start` frames are skipped when `start`
is not zero. -/
theorem C9_length_given (p : PartialSource) (start length : Int)
    (hlen : 0 ≤ length) (hlen64 : length < 9223372036854775808)
    (hdur : p.m_duration = noDuration ∨ p.m_duration < 9223372036854775808) :
    ((p.setRange start length).m_duration : Int) =
        (if p.m_duration = noDuration ∨ length < (p.m_duration : Int) then length
         else (p.m_duration : Int)) ∧
      (p.setRange start length).skipped =
        (if start ≠ 0 then p.skipped ++ [start] else p.skipped) := by
  have hne : ¬ (length = -1) := by omega
  have hd : wrapInt64 (p.m_duration : Int) = -1 ↔ p.m_duration = noDuration := by
    unfold wrapInt64 noDuration
    rcases hdur with h | h
    · simp [h, noDuration]
    · omega
  have hlt : p.m_duration ≠ noDuration →
      (length < wrapInt64 (p.m_duration : Int) ↔ length < (p.m_duration : Int)) := by
    intro hn
    rcases hdur with h | h
    · exact absurd h hn
    · unfold wrapInt64; omega
  have hw : ((wrapUInt64 length : Nat) : Int) = length := by
    unfold wrapUInt64; omega
  unfold setRange
  by_cases hs : p.m_duration = noDuration
  · have h1 : wrapInt64 ((noDuration : Nat) : Int) = -1 := by decide
    by_cases h0 : start = 0 <;> simp [h1, hs, hlen, hne, h0, hw]
  · have h1 : ¬ wrapInt64 (p.m_duration : Int) = -1 := fun h => hs (hd.mp h)
    by_cases hc : length < (p.m_duration : Int)
    · have hc' := (hlt hs).mpr hc
      by_cases h0 : start = 0 <;> simp [h1, hs, hlen, hne, h0, hw, hc, hc']
    · have hc' : ¬ length < wrapInt64 (p.m_duration : Int) := fun h => hc ((hlt hs).mp h)
      by_cases h0 : start = 0 <;> simp [h1, hs, hlen, hne, h0, hw, hc, hc']

/-- C9 amended, at the values of the specification: duration 1000 and
`setRange(100, 500)` give duration 500 and one skip of 100 frames. -/
theorem C9_length_given_witness :
    ((0 : Int) ≤ 500 ∧ (500 : Int) < 9223372036854775808 ∧
      ((PartialSource.mk 1000 0 []).m_duration = noDuration ∨
        (PartialSource.mk 1000 0 []).m_duration < 9223372036854775808)) ∧
    ((((PartialSource.mk 1000 0 []).setRange 100 500).m_duration : Int) =
        (if (PartialSource.mk 1000 0 []).m_duration = noDuration ∨
            (500 : Int) < ((PartialSource.mk 1000 0 []).m_duration : Int) then 500
         else ((PartialSource.mk 1000 0 []).m_duration : Int)) ∧
      ((PartialSource.mk 1000 0 []).setRange 100 500).skipped =
        (if (100 : Int) ≠ 0 then (PartialSource.mk 1000 0 []).skipped ++ [100]
         else (PartialSource.mk 1000 0 []).skipped)) ∧
    ((PartialSource.mk 1000 0 []).setRange 100 500).m_duration = 500 ∧
    ((PartialSource.mk 1000 0 []).setRange 100 500).skipped = [100] :=
  ⟨by decide,
   C9_length_given (PartialSource.mk 1000 0 []) 100 500 (by decide) (by decide) (by decide),
   by decide, by decide⟩

/-- C10, the failing call: with the finite duration 10, `setRange(20)` without a
length subtracts 20 from the unsigned duration, which wraps around to `2^64 - 10`;
the duration after the call is greater than the duration before it. -/
theorem C10_duration_grows :
    (PartialSource.mk 10 0 []).m_duration ≠ noDuration ∧
    ((PartialSource.mk 10 0 []).setRange 20 (-1)).m_duration = 18446744073709551606 ∧
    ¬ ((PartialSource.mk 10 0 []).setRange 20 (-1)).m_duration ≤
        (PartialSource.mk 10 0 []).m_duration := by
  decide

/-- C11. With `framesReadSoFar ≤ duration`, `getRemainingSamples()` is
`duration - framesReadSoFar` and `adjustSamplesToRead(requested)` is the smaller of
`requested` and that difference. (For all counters the result is the difference
modulo `2^64`, as `uint64_t` subtraction gives it.) -/
theorem C11_remaining_and_adjust (p : PartialSource) (requested : Nat)
    (hr : p.m_samples_read ≤ p.m_duration) (hd : p.m_duration < 18446744073709551616) :
    p.getRemainingSamples = p.m_duration - p.m_samples_read ∧
    p.adjustSamplesToRead requested = min requested (p.m_duration - p.m_samples_read) ∧
    ((p.getRemainingSamples : Nat) : Int) =
      ((p.m_duration : Int) - (p.m_samples_read : Int)) % 18446744073709551616 := by
  have h1 : p.getRemainingSamples = p.m_duration - p.m_samples_read := by
    unfold getRemainingSamples wrapUInt64
    omega
  refine ⟨h1, ?_, ?_⟩
  · unfold adjustSamplesToRead
    rw [h1]
  · unfold getRemainingSamples wrapUInt64
    omega

/-- C11, at the values of the specification: duration 50, 40 frames read, 100
requested gives 10. -/
theorem C11_remaining_and_adjust_witness :
    ((PartialSource.mk 50 40 []).m_samples_read ≤ (PartialSource.mk 50 40 []).m_duration ∧
      (PartialSource.mk 50 40 []).m_duration < 18446744073709551616) ∧
    ((PartialSource.mk 50 40 []).getRemainingSamples =
        (PartialSource.mk 50 40 []).m_duration - (PartialSource.mk 50 40 []).m_samples_read ∧
      (PartialSource.mk 50 40 []).adjustSamplesToRead 100 =
        min 100 ((PartialSource.mk 50 40 []).m_duration -
          (PartialSource.mk 50 40 []).m_samples_read) ∧
      (((PartialSource.mk 50 40 []).getRemainingSamples : Nat) : Int) =
        (((PartialSource.mk 50 40 []).m_duration : Int) -
          ((PartialSource.mk 50 40 []).m_samples_read : Int)) % 18446744073709551616) ∧
    (PartialSource.mk 50 40 []).adjustSamplesToRead 100 = 10 :=
  ⟨by decide,
   C11_remaining_and_adjust (PartialSource.mk 50 40 []) 100 (by decide) (by decide),
   by decide⟩

/-! ## `DelegatingSource` -/

/-- C12. A `DelegatingSource` around a source without the `ITagParser` capability
returns the empty tag store from `getTags()` and the null pointer ("no chapters")
from `getChapters()`; around a source with the capability both return what the
wrapped parser returns. This holds for a source given to the constructor and for
one given to `setSource`. -/
theorem C12_delegating_tags (len read : Nat) (parser : ITagParser) (src0 : ISource) :
    (DelegatingSource.new ⟨len, read, none⟩).getTags = [] ∧
    (DelegatingSource.new ⟨len, read, none⟩).getChapters = none ∧
    (DelegatingSource.empty.setSource ⟨len, read, none⟩).getTags = [] ∧
    (DelegatingSource.empty.setSource ⟨len, read, none⟩).getChapters = none ∧
    ((DelegatingSource.new src0).setSource ⟨len, read, none⟩).getTags = [] ∧
    ((DelegatingSource.new src0).setSource ⟨len, read, none⟩).getChapters = none ∧
    (DelegatingSource.new ⟨len, read, some parser⟩).getTags = parser.getTags ∧
    (DelegatingSource.new ⟨len, read, some parser⟩).getChapters = parser.getChapters ∧
    ((DelegatingSource.new src0).setSource ⟨len, read, some parser⟩).getTags =
      parser.getTags ∧
    ((DelegatingSource.new src0).setSource ⟨len, read, some parser⟩).getChapters =
      parser.getChapters :=
  ⟨rfl, rfl, rfl, rfl, rfl, rfl, rfl, rfl, rfl, rfl⟩

/-! ## `m4a::parseValue` -/

/-- C13. For `index` and `total` in `0..65535` and any reserved bytes, the 8-byte
Track/Disk buffer (2 reserved bytes, big-endian index, big-endian total, 2 reserved
bytes) is read by `m4a::parseValue` under the key Track and under the key Disk as
the text `index/total`, from which `%d/%d` reads `index` and `total` again. -/
theorem C13_track_disk_buffer_read_back (r0 r1 r2 r3 index total typeCode valueSize : Nat)
    (hi : index < 65536) (ht : total < 65536) :
    m4a.parseValue Tag.kTrack
        ⟨typeCode, some (trackDiskBuffer r0 r1 index total r2 r3), valueSize⟩ =
      indexSlashTotal index total ∧
    m4a.parseValue Tag.kDisk
        ⟨typeCode, some (trackDiskBuffer r0 r1 index total r2 r3), valueSize⟩ =
      indexSlashTotal index total ∧
    sscanf_d_slash_d (indexSlashTotal index total) 0 0 = (2, (index : Int), (total : Int)) := by
  have hb := be16_trackDiskBuffer r0 r1 index total r2 r3
  have h1 : Tag.kTrack ≠ Tag.kGenreID3 := by decide
  have h2 : Tag.kDisk ≠ Tag.kGenreID3 := by decide
  refine ⟨?_, ?_, sscanf_d_slash_d_indexSlashTotal index total (by omega) (by omega) 0 0⟩
  · unfold m4a.parseValue
    simp only [h1, if_false, or_true, if_true]
    rw [hb.1, hb.2, widen_eq, format_index_total]
  · unfold m4a.parseValue
    simp only [h2, if_false, true_or, if_true]
    rw [hb.1, hb.2, widen_eq, format_index_total]

/-- C13, at the values of the specification: `Track = "5/12"` is written as the pair
(5, 12), and the buffer of index 5 and total 12, here with reserved bytes 0, 0, 0
and 7, reads back as `5/12`. -/
theorem C13_track_disk_buffer_read_back_witness :
    ((5 : Nat) < 65536 ∧ (12 : Nat) < 65536) ∧
    (m4a.parseValue Tag.kTrack ⟨0, some (trackDiskBuffer 0 0 5 12 0 7), 8⟩ =
        indexSlashTotal 5 12 ∧
      m4a.parseValue Tag.kDisk ⟨0, some (trackDiskBuffer 0 0 5 12 0 7), 8⟩ =
        indexSlashTotal 5 12 ∧
      sscanf_d_slash_d (indexSlashTotal 5 12) 0 0 = (2, ((5 : Nat) : Int), ((12 : Nat) : Int))) ∧
    indexSlashTotal 5 12 = "5/12".toList ∧
    ShortTagWriter.writeTag Tag.kTrack "5/12".toList =
      [MetadataWrite.SetMetadataTrack 5 12] :=
  ⟨by decide, C13_track_disk_buffer_read_back 0 0 0 7 5 12 0 8 (by decide) (by decide),
   by decide, by decide⟩

/-! ## `PartialSource`: the read counter stays within the duration -/

/-- C21. For a `PartialSource` with `framesReadSoFar ≤ duration`:
`adjustSamplesToRead(n)` is at most `n` and at most `getRemainingSamples()`; after
`addSamplesRead(k)` with `k ≤ adjustSamplesToRead(n)` the counter has grown by `k`
without wrapping, `framesReadSoFar ≤ duration` still holds and
`getRemainingSamples()` is the difference of the two, reduced by `k`; and when
`framesReadSoFar = duration`, `adjustSamplesToRead(n)` is 0. -/
theorem C21_read_counter_invariant (p : PartialSource) (n k : Nat)
    (hr : p.m_samples_read ≤ p.m_duration) (hd : p.m_duration < 18446744073709551616)
    (hk : k ≤ p.adjustSamplesToRead n) :
    p.adjustSamplesToRead n ≤ n ∧
    p.adjustSamplesToRead n ≤ p.getRemainingSamples ∧
    (p.addSamplesRead k).m_samples_read = p.m_samples_read + k ∧
    (p.addSamplesRead k).m_samples_read ≤ (p.addSamplesRead k).m_duration ∧
    (p.addSamplesRead k).getRemainingSamples + k = p.getRemainingSamples ∧
    p.getRemainingSamples + p.m_samples_read = p.m_duration ∧
    (p.m_samples_read = p.m_duration → p.adjustSamplesToRead n = 0) := by
  have h1 : p.getRemainingSamples = p.m_duration - p.m_samples_read := by
    unfold getRemainingSamples wrapUInt64
    omega
  have h2 : p.adjustSamplesToRead n = min n (p.m_duration - p.m_samples_read) := by
    unfold adjustSamplesToRead
    rw [h1]
  have hk2 : k ≤ p.m_duration - p.m_samples_read := by
    rw [h2] at hk
    exact le_trans hk (Nat.min_le_right _ _)
  have h3 : (p.addSamplesRead k).m_samples_read = p.m_samples_read + k := by
    show (p.m_samples_read + k) % 18446744073709551616 = p.m_samples_read + k
    apply Nat.mod_eq_of_lt
    omega
  have h4 : (p.addSamplesRead k).m_duration = p.m_duration := rfl
  have h5 : (p.addSamplesRead k).getRemainingSamples =
      p.m_duration - (p.m_samples_read + k) := by
    unfold getRemainingSamples wrapUInt64
    rw [h3, h4]
    omega
  refine ⟨?_, ?_, h3, ?_, ?_, ?_, ?_⟩
  · rw [h2]
    exact Nat.min_le_left _ _
  · rw [h2, h1]
    exact Nat.min_le_right _ _
  · rw [h3, h4]
    omega
  · rw [h5, h1]
    omega
  · rw [h1]
    omega
  · intro he
    rw [h2, he, Nat.sub_self]
    exact Nat.min_eq_right (Nat.zero_le n)

/-- C21, at duration 50 with 40 frames read: 100 requested gives 10, and after
reading those 10 the counter is 50, nothing remains and the next request gives 0. -/
theorem C21_read_counter_invariant_witness :
    ((PartialSource.mk 50 40 []).m_samples_read ≤ (PartialSource.mk 50 40 []).m_duration ∧
      (PartialSource.mk 50 40 []).m_duration < 18446744073709551616 ∧
      10 ≤ (PartialSource.mk 50 40 []).adjustSamplesToRead 100) ∧
    ((PartialSource.mk 50 40 []).adjustSamplesToRead 100 ≤ 100 ∧
    (PartialSource.mk 50 40 []).adjustSamplesToRead 100 ≤
      (PartialSource.mk 50 40 []).getRemainingSamples ∧
    ((PartialSource.mk 50 40 []).addSamplesRead 10).m_samples_read =
      (PartialSource.mk 50 40 []).m_samples_read + 10 ∧
    ((PartialSource.mk 50 40 []).addSamplesRead 10).m_samples_read ≤
      ((PartialSource.mk 50 40 []).addSamplesRead 10).m_duration ∧
    ((PartialSource.mk 50 40 []).addSamplesRead 10).getRemainingSamples + 10 =
      (PartialSource.mk 50 40 []).getRemainingSamples ∧
    (PartialSource.mk 50 40 []).getRemainingSamples +
      (PartialSource.mk 50 40 []).m_samples_read = (PartialSource.mk 50 40 []).m_duration ∧
    ((PartialSource.mk 50 40 []).m_samples_read = (PartialSource.mk 50 40 []).m_duration →
      (PartialSource.mk 50 40 []).adjustSamplesToRead 100 = 0)) ∧
    ((PartialSource.mk 50 40 []).addSamplesRead 10).getRemainingSamples = 0 ∧
    ((PartialSource.mk 50 40 []).addSamplesRead 10).adjustSamplesToRead 100 = 0 :=
  ⟨by decide,
   C21_read_counter_invariant (PartialSource.mk 50 40 []) 100 10
     (by decide) (by decide) (by decide),
   by decide, by decide⟩

/-! ## `Vorbis::ConvertToItunesTags` -/

/-- C2. For comment pairs (a `std::map`, names without NUL) with the index field
`tracknumber` (resp. `discnumber`) of decimal value `i`: when the total field
`totaltracks` (resp. `totaldiscs`) is present with decimal value `t`, the Track
(resp. Disk) entry of the result of `Vorbis::ConvertToItunesTags` is the text
`i/t`; when no total field is present in any letter case, it is the text `i`. -/
theorem C2_index_and_total (vc : Comments) (i t : Nat)
    (hm : IsMap strLt vc) (hn : ∀ kv ∈ vc, NulFree kv.1)
    (hi : i < 2147483648) (ht : t < 2147483648) :
    (mapFind "tracknumber".toList vc = some (natToDec i) →
      (mapFind "totaltracks".toList vc = some (natToDec t) →
        mapFind Tag.kTrack (ConvertToItunesTags vc) = some (indexSlashTotal i t)) ∧
      ((∀ kv ∈ vc, strtransform kv.1 tolower ≠ "totaltracks".toList) →
        mapFind Tag.kTrack (ConvertToItunesTags vc) = some (natToDec i))) ∧
    (mapFind "discnumber".toList vc = some (natToDec i) →
      (mapFind "totaldiscs".toList vc = some (natToDec t) →
        mapFind Tag.kDisk (ConvertToItunesTags vc) = some (indexSlashTotal i t)) ∧
      ((∀ kv ∈ vc, strtransform kv.1 tolower ≠ "totaldiscs".toList) →
        mapFind Tag.kDisk (ConvertToItunesTags vc) = some (natToDec i))) := by
  constructor
  · intro hidx
    have hc := convertTo_track vc _ (foldl_toStep_track vc ⟨[], [], []⟩ _ hm hn hidx)
    constructor
    · intro htot
      rw [hc, foldl_toStep_totaltracks vc _ _ hm htot, if_neg (natToDec_ne_nil t)]
      unfold _wtoi
      rw [atoi_natToDec i hi, atoi_natToDec t ht, format_index_total]
    · intro habs
      rw [hc, foldl_toStep_totaltracks_unchanged vc _ habs, if_pos rfl]
  · intro hidx
    have hc := convertTo_disk vc _ (foldl_toStep_disk vc ⟨[], [], []⟩ _ hm hn hidx)
    constructor
    · intro htot
      rw [hc, foldl_toStep_totaldiscs vc _ _ hm htot, if_neg (natToDec_ne_nil t)]
      unfold _wtoi
      rw [atoi_natToDec i hi, atoi_natToDec t ht, format_index_total]
    · intro habs
      rw [hc, foldl_toStep_totaldiscs_unchanged vc _ habs, if_pos rfl]

/-- C2, at the values of the specification: `tracknumber` 5 with `totaltracks` 12
gives Track `5/12`, and `tracknumber` 5 alone gives Track `5`. -/
theorem C2_index_and_total_witness :
    (IsMap strLt [("totaltracks".toList, "12".toList), ("tracknumber".toList, "5".toList)] ∧
      (∀ kv ∈ [("totaltracks".toList, "12".toList), ("tracknumber".toList, "5".toList)],
        NulFree kv.1) ∧
      (5 : Nat) < 2147483648 ∧ (12 : Nat) < 2147483648) ∧
    ((mapFind "tracknumber".toList
          [("totaltracks".toList, "12".toList), ("tracknumber".toList, "5".toList)] =
        some (natToDec 5) →
      (mapFind "totaltracks".toList
          [("totaltracks".toList, "12".toList), ("tracknumber".toList, "5".toList)] =
          some (natToDec 12) →
        mapFind Tag.kTrack (ConvertToItunesTags
          [("totaltracks".toList, "12".toList), ("tracknumber".toList, "5".toList)]) =
          some (indexSlashTotal 5 12)) ∧
      ((∀ kv ∈ [("totaltracks".toList, "12".toList), ("tracknumber".toList, "5".toList)],
          strtransform kv.1 tolower ≠ "totaltracks".toList) →
        mapFind Tag.kTrack (ConvertToItunesTags
          [("totaltracks".toList, "12".toList), ("tracknumber".toList, "5".toList)]) =
          some (natToDec 5))) ∧
    (mapFind "discnumber".toList
          [("totaltracks".toList, "12".toList), ("tracknumber".toList, "5".toList)] =
        some (natToDec 5) →
      (mapFind "totaldiscs".toList
          [("totaltracks".toList, "12".toList), ("tracknumber".toList, "5".toList)] =
          some (natToDec 12) →
        mapFind Tag.kDisk (ConvertToItunesTags
          [("totaltracks".toList, "12".toList), ("tracknumber".toList, "5".toList)]) =
          some (indexSlashTotal 5 12)) ∧
      ((∀ kv ∈ [("totaltracks".toList, "12".toList), ("tracknumber".toList, "5".toList)],
          strtransform kv.1 tolower ≠ "totaldiscs".toList) →
        mapFind Tag.kDisk (ConvertToItunesTags
          [("totaltracks".toList, "12".toList), ("tracknumber".toList, "5".toList)]) =
          some (natToDec 5)))) ∧
    ConvertToItunesTags
        [("totaltracks".toList, "12".toList), ("tracknumber".toList, "5".toList)] =
      [(Tag.kTrack, "5/12".toList)] ∧
    ConvertToItunesTags [("tracknumber".toList, "5".toList)] = [(Tag.kTrack, "5".toList)] :=
  ⟨⟨by unfold IsMap; decide, by unfold NulFree; decide, by decide, by decide⟩,
   C2_index_and_total
     [("totaltracks".toList, "12".toList), ("tracknumber".toList, "5".toList)] 5 12
     (by unfold IsMap; decide) (by unfold NulFree; decide) (by decide) (by decide),
   by decide, by decide⟩

/-- C3. For comment pairs with no field that maps to Track (resp. Disk), the result
of `Vorbis::ConvertToItunesTags` has no Track (resp. Disk) entry, whatever
`totaltracks` (resp. `totaldiscs`) fields are present, and is the result for the
pairs without their `totaltracks` (resp. `totaldiscs`) fields of any letter case:
the total creates no entry. -/
theorem C3_total_without_index (vc : Comments) :
    ((∀ kv ∈ vc, GetIDFromTagName (c_str kv.1) ≠ Tag.kTrack) →
      mapFind Tag.kTrack (ConvertToItunesTags vc) = none ∧
      ConvertToItunesTags vc = ConvertToItunesTags
        (vc.filter (fun kv => decide (strtransform kv.1 tolower ≠ "totaltracks".toList)))) ∧
    ((∀ kv ∈ vc, GetIDFromTagName (c_str kv.1) ≠ Tag.kDisk) →
      mapFind Tag.kDisk (ConvertToItunesTags vc) = none ∧
      ConvertToItunesTags vc = ConvertToItunesTags
        (vc.filter (fun kv => decide (strtransform kv.1 tolower ≠ "totaldiscs".toList)))) := by
  constructor
  · intro h
    have h1 : mapFind Tag.kTrack (vc.foldl toStep ⟨[], [], []⟩).result = none :=
      foldl_toStep_find_unchanged Tag.kTrack vc _ h
    have hf := foldl_toStep_filter_totaltracks vc ⟨[], [], []⟩ ⟨[], [], []⟩ rfl rfl
    have h2 := h1
    rw [hf.1] at h2
    constructor
    · unfold ConvertToItunesTags
      simp only []
      rw [mapFind_packTotal_ne _ _ _ _ (by decide), packTotal_of_none _ _ _ h1, h1]
    · unfold ConvertToItunesTags
      simp only []
      rw [packTotal_of_none _ _ _ h1, packTotal_of_none _ _ _ h2, hf.1, hf.2]
  · intro h
    have h1 : mapFind Tag.kDisk (vc.foldl toStep ⟨[], [], []⟩).result = none :=
      foldl_toStep_find_unchanged Tag.kDisk vc _ h
    have hf := foldl_toStep_filter_totaldiscs vc ⟨[], [], []⟩ ⟨[], [], []⟩ rfl rfl
    have h2 := h1
    rw [hf.1] at h2
    have h3 : ∀ tt td, packTotal Tag.kDisk td
        (packTotal Tag.kTrack tt (vc.foldl toStep ⟨[], [], []⟩).result) =
        packTotal Tag.kTrack tt (vc.foldl toStep ⟨[], [], []⟩).result := by
      intro tt td
      apply packTotal_of_none
      rw [mapFind_packTotal_ne _ _ _ _ (by decide), h1]
    constructor
    · unfold ConvertToItunesTags
      simp only []
      rw [h3, mapFind_packTotal_ne _ _ _ _ (by decide), h1]
    · have h4 : ∀ tt td, packTotal Tag.kDisk td
          (packTotal Tag.kTrack tt ((vc.filter (fun kv =>
            decide (strtransform kv.1 tolower ≠ "totaldiscs".toList))).foldl toStep
              ⟨[], [], []⟩).result) =
          packTotal Tag.kTrack tt ((vc.filter (fun kv =>
            decide (strtransform kv.1 tolower ≠ "totaldiscs".toList))).foldl toStep
              ⟨[], [], []⟩).result := by
        intro tt td
        apply packTotal_of_none
        rw [mapFind_packTotal_ne _ _ _ _ (by decide), h2]
      unfold ConvertToItunesTags
      simp only []
      rw [h3, h4, hf.1, hf.2]

/-- C3, at the value of the specification: `totaltracks` 12 alone gives the empty
store. -/
theorem C3_total_without_index_witness :
    (∀ kv ∈ [("totaltracks".toList, "12".toList)],
      GetIDFromTagName (c_str kv.1) ≠ Tag.kTrack) ∧
    (mapFind Tag.kTrack (ConvertToItunesTags [("totaltracks".toList, "12".toList)]) = none ∧
      ConvertToItunesTags [("totaltracks".toList, "12".toList)] = ConvertToItunesTags
        ([("totaltracks".toList, "12".toList)].filter
          (fun kv => decide (strtransform kv.1 tolower ≠ "totaltracks".toList)))) ∧
    ConvertToItunesTags [("totaltracks".toList, "12".toList)] = [] ∧
    ConvertToItunesTags [("TotalTracks".toList, "12".toList), ("title".toList, "x".toList)] =
      [(Tag.kTitle, "x".toList)] :=
  ⟨by decide, (C3_total_without_index [("totaltracks".toList, "12".toList)]).1 (by decide),
   by decide, by decide⟩

/-- C17, refuted as stated: `tracknumber` "abc" with `totaltracks` "12" yields the
Track entry `0/12`, and `tracknumber` "5" with `totaltracks` "abc" yields `5/0`, not
the index alone. -/
theorem C17_unparsable_counterexample :
    ConvertToItunesTags
        [("totaltracks".toList, "12".toList), ("tracknumber".toList, "abc".toList)] =
      [(Tag.kTrack, "0/12".toList)] ∧
    ConvertToItunesTags
        [("totaltracks".toList, "abc".toList), ("tracknumber".toList, "5".toList)] =
      [(Tag.kTrack, "5/0".toList)] ∧
    ConvertToItunesTags
        [("discnumber".toList, "x".toList), ("totaldiscs".toList, "y".toList)] =
      [(Tag.kDisk, "0/0".toList)] := by
  decide

/-- C17, amended. For comment pairs (a `std::map`, names without NUL) with an index
field `tracknumber` (resp. `discnumber`) of value `iv` and a total field
`totaltracks` (resp. `totaldiscs`) of non-empty value `tv`, the Track (resp. Disk)
entry of the result of `Vorbis::ConvertToItunesTags` is `a/b`, where `a` and `b`
are what `atoi` reads from `iv` and `tv`: the leading integer, and 0 for a text
that does not start with one. The conversion is a total function. -/
theorem C17_unparsable_reads_zero (vc : Comments) (iv tv : Str)
    (hm : IsMap strLt vc) (hn : ∀ kv ∈ vc, NulFree kv.1) (htv : tv ≠ []) :
    (mapFind "tracknumber".toList vc = some iv → mapFind "totaltracks".toList vc = some tv →
      mapFind Tag.kTrack (ConvertToItunesTags vc) =
        some (fmtD (atoi iv) ++ '/' :: fmtD (atoi tv))) ∧
    (mapFind "discnumber".toList vc = some iv → mapFind "totaldiscs".toList vc = some tv →
      mapFind Tag.kDisk (ConvertToItunesTags vc) =
        some (fmtD (atoi iv) ++ '/' :: fmtD (atoi tv))) ∧
    (scanInt iv = none → atoi iv = 0) ∧ (scanInt tv = none → atoi tv = 0) := by
  refine ⟨?_, ?_, ?_, ?_⟩
  · intro hidx htot
    rw [convertTo_track vc _ (foldl_toStep_track vc ⟨[], [], []⟩ _ hm hn hidx),
      foldl_toStep_totaltracks vc _ _ hm htot, if_neg htv, format_d_slash_d]
    rfl
  · intro hidx htot
    rw [convertTo_disk vc _ (foldl_toStep_disk vc ⟨[], [], []⟩ _ hm hn hidx),
      foldl_toStep_totaldiscs vc _ _ hm htot, if_neg htv, format_d_slash_d]
    rfl
  · intro h
    unfold atoi
    rw [h]
  · intro h
    unfold atoi
    rw [h]

/-- C17 amended, at the values of the specification: `tracknumber` "abc" with
`totaltracks` "12". -/
theorem C17_unparsable_reads_zero_witness :
    (IsMap strLt [("totaltracks".toList, "12".toList), ("tracknumber".toList, "abc".toList)] ∧
      (∀ kv ∈ [("totaltracks".toList, "12".toList), ("tracknumber".toList, "abc".toList)],
        NulFree kv.1) ∧ "12".toList ≠ []) ∧
    ((mapFind "tracknumber".toList
          [("totaltracks".toList, "12".toList), ("tracknumber".toList, "abc".toList)] =
        some "abc".toList →
      mapFind "totaltracks".toList
          [("totaltracks".toList, "12".toList), ("tracknumber".toList, "abc".toList)] =
        some "12".toList →
      mapFind Tag.kTrack (ConvertToItunesTags
          [("totaltracks".toList, "12".toList), ("tracknumber".toList, "abc".toList)]) =
        some (fmtD (atoi "abc".toList) ++ '/' :: fmtD (atoi "12".toList))) ∧
    (mapFind "discnumber".toList
          [("totaltracks".toList, "12".toList), ("tracknumber".toList, "abc".toList)] =
        some "abc".toList →
      mapFind "totaldiscs".toList
          [("totaltracks".toList, "12".toList), ("tracknumber".toList, "abc".toList)] =
        some "12".toList →
      mapFind Tag.kDisk (ConvertToItunesTags
          [("totaltracks".toList, "12".toList), ("tracknumber".toList, "abc".toList)]) =
        some (fmtD (atoi "abc".toList) ++ '/' :: fmtD (atoi "12".toList))) ∧
    (scanInt "abc".toList = none → atoi "abc".toList = 0) ∧
    (scanInt "12".toList = none → atoi "12".toList = 0)) ∧
    fmtD (atoi "abc".toList) ++ '/' :: fmtD (atoi "12".toList) = "0/12".toList :=
  ⟨⟨by unfold IsMap; decide, by unfold NulFree; decide, by decide⟩,
   C17_unparsable_reads_zero
     [("totaltracks".toList, "12".toList), ("tracknumber".toList, "abc".toList)]
     "abc".toList "12".toList (by unfold IsMap; decide) (by unfold NulFree; decide) (by decide),
   by decide⟩

/-- C18, refuted as stated: a pair named `genre` with the numeric text "17" yields
the textual Genre entry only; the result has no GenreID3 entry. -/
theorem C18_genre_two_keys_counterexample :
    ConvertToItunesTags [("genre".toList, "17".toList)] = [(Tag.kGenre, "17".toList)] ∧
    mapFind Tag.kGenreID3 (ConvertToItunesTags [("genre".toList, "17".toList)]) = none ∧
    GetIDFromTagName "genre".toList = Tag.kGenre := by
  decide

/-- C18, amended. The result of `Vorbis::ConvertToItunesTags` never has a GenreID3
entry, numeric value or not: the lookup returns the first row of `genre`, the
textual Genre key. For comment pairs (a `std::map`, names without NUL) with a field
`genre` the result has the Genre entry with the value of that field. -/
theorem C18_genre_maps_to_genre_only (vc : Comments) (v : Str)
    (hm : IsMap strLt vc) (hn : ∀ kv ∈ vc, NulFree kv.1)
    (hg : mapFind "genre".toList vc = some v) :
    mapFind Tag.kGenre (ConvertToItunesTags vc) = some v ∧
    mapFind Tag.kGenreID3 (ConvertToItunesTags vc) = none := by
  constructor
  · rw [convertTo_other vc _ (by decide) (by decide)]
    exact foldl_toStep_genre vc _ v hm hn hg
  · rw [convertTo_other vc _ (by decide) (by decide)]
    exact foldl_toStep_find_unchanged Tag.kGenreID3 vc _
      (fun kv _ => GetIDFromTagName_ne_genreID3 _ (nulFree_c_str kv.1))

/-- C18 amended, at a pair `genre` with the numeric text "17". -/
theorem C18_genre_maps_to_genre_only_witness :
    (IsMap strLt [("genre".toList, "17".toList)] ∧
      (∀ kv ∈ [("genre".toList, "17".toList)], NulFree kv.1) ∧
      mapFind "genre".toList [("genre".toList, "17".toList)] = some "17".toList) ∧
    (mapFind Tag.kGenre (ConvertToItunesTags [("genre".toList, "17".toList)]) =
        some "17".toList ∧
      mapFind Tag.kGenreID3 (ConvertToItunesTags [("genre".toList, "17".toList)]) = none) :=
  ⟨⟨by unfold IsMap; decide, by unfold NulFree; decide, by decide⟩,
   C18_genre_maps_to_genre_only [("genre".toList, "17".toList)] "17".toList
     (by unfold IsMap; decide) (by unfold NulFree; decide) (by decide)⟩

/-- C19. For a name (a C string) that is in no row of the table, letter case apart
for the comment vocabulary, `Vorbis::GetIDFromTagName` and `ID3::GetIDFromTagName`
return 0; and storing a pair under such a name, which is not `totaltracks` or
`totaldiscs` either, in any comment pairs does not change the result of
`Vorbis::ConvertToItunesTags`. -/
theorem C19_unmapped_names_dropped (vc : Comments) (name value : Str) (hn : NulFree name) :
    ((∀ e ∈ Vorbis.tagNameMap, e.1 ≠ name.map tolower) →
      Vorbis.GetIDFromTagName name = 0) ∧
    ((∀ e ∈ ID3.tagNameMap, e.1 ≠ name) → ID3.GetIDFromTagName name = 0) ∧
    ((∀ e ∈ Vorbis.tagNameMap, e.1 ≠ name.map tolower) →
      name.map tolower ≠ "totaltracks".toList → name.map tolower ≠ "totaldiscs".toList →
      ConvertToItunesTags (mapSet strLt name value vc) = ConvertToItunesTags vc) := by
  refine ⟨Vorbis.GetIDFromTagName_eq_zero name hn, ID3.GetIDFromTagName_unlisted name hn, ?_⟩
  intro h h1 h2
  have hk : ∀ st v', toStep st (name, v') = st := by
    intro st v'
    apply toStep_of_unmapped st (name, v') h1 h2
    show GetIDFromTagName (c_str name) = 0
    rw [c_str_of_nulFree name hn]
    exact Vorbis.GetIDFromTagName_eq_zero name hn h
  unfold ConvertToItunesTags
  simp only []
  rw [foldl_toStep_mapSet name value hk vc]

/-- C19, at the name `foo` stored among pairs that hold a title. -/
theorem C19_unmapped_names_dropped_witness :
    NulFree "foo".toList ∧
    (((∀ e ∈ Vorbis.tagNameMap, e.1 ≠ "foo".toList.map tolower) →
      Vorbis.GetIDFromTagName "foo".toList = 0) ∧
    ((∀ e ∈ ID3.tagNameMap, e.1 ≠ "foo".toList) → ID3.GetIDFromTagName "foo".toList = 0) ∧
    ((∀ e ∈ Vorbis.tagNameMap, e.1 ≠ "foo".toList.map tolower) →
      "foo".toList.map tolower ≠ "totaltracks".toList →
      "foo".toList.map tolower ≠ "totaldiscs".toList →
      ConvertToItunesTags (mapSet strLt "foo".toList "bar".toList
          [("title".toList, "x".toList)]) =
        ConvertToItunesTags [("title".toList, "x".toList)])) ∧
    (∀ e ∈ Vorbis.tagNameMap, e.1 ≠ "foo".toList.map tolower) ∧
    (∀ e ∈ ID3.tagNameMap, e.1 ≠ "foo".toList) ∧
    ConvertToItunesTags (mapSet strLt "foo".toList "bar".toList
        [("title".toList, "x".toList)]) = [(Tag.kTitle, "x".toList)] :=
  ⟨by unfold NulFree; decide,
   C19_unmapped_names_dropped [("title".toList, "x".toList)] "foo".toList "bar".toList
     (by unfold NulFree; decide),
   by decide, by decide, by decide⟩

/-! ## `Vorbis::ConvertFromItunesTags` -/

/-- C4. For a store (a `std::map`) whose Track (resp. Disk) value is the text `i`
or the text `i/t` of two decimal numbers, the result of
`Vorbis::ConvertFromItunesTags` has `tracknumber` (resp. `discnumber`) with the
decimal text of `i`; it has `totaltracks` (resp. `totaldiscs`) exactly when a
total is present and greater than zero, and then with the decimal text of `t`. -/
theorem C4_index_and_total_back (genre : Int → Str) (itags : TagStore) (i t : Nat)
    (hm : IsMap natLt itags) (hi : i < 2147483648) (ht : t < 2147483648) :
    (mapFind Tag.kTrack itags = some (natToDec i) →
      mapFind "tracknumber".toList (ConvertFromItunesTags genre itags) = some (natToDec i) ∧
      mapFind "totaltracks".toList (ConvertFromItunesTags genre itags) = none) ∧
    (mapFind Tag.kTrack itags = some (indexSlashTotal i t) →
      mapFind "tracknumber".toList (ConvertFromItunesTags genre itags) = some (natToDec i) ∧
      mapFind "totaltracks".toList (ConvertFromItunesTags genre itags) =
        if 0 < t then some (natToDec t) else none) ∧
    (mapFind Tag.kDisk itags = some (natToDec i) →
      mapFind "discnumber".toList (ConvertFromItunesTags genre itags) = some (natToDec i) ∧
      mapFind "totaldiscs".toList (ConvertFromItunesTags genre itags) = none) ∧
    (mapFind Tag.kDisk itags = some (indexSlashTotal i t) →
      mapFind "discnumber".toList (ConvertFromItunesTags genre itags) = some (natToDec i) ∧
      mapFind "totaldiscs".toList (ConvertFromItunesTags genre itags) =
        if 0 < t then some (natToDec t) else none) := by
  refine ⟨?_, ?_, ?_, ?_⟩
  · intro h
    rw [from_track genre itags _ hm h _ (Or.inl rfl), from_track genre itags _ hm h _ (Or.inr rfl)]
    exact mapFind_index_of_dec _ _ i hi (by decide)
  · intro h
    rw [from_track genre itags _ hm h _ (Or.inl rfl), from_track genre itags _ hm h _ (Or.inr rfl)]
    exact mapFind_index_of_pair _ _ i t hi ht (by decide)
  · intro h
    rw [from_disk genre itags _ hm h _ (Or.inl rfl), from_disk genre itags _ hm h _ (Or.inr rfl)]
    exact mapFind_index_of_dec _ _ i hi (by decide)
  · intro h
    rw [from_disk genre itags _ hm h _ (Or.inl rfl), from_disk genre itags _ hm h _ (Or.inr rfl)]
    exact mapFind_index_of_pair _ _ i t hi ht (by decide)

/-- C4, at a store with Track `5/12` and a title: the comments are `title`,
`totaltracks` 12 and `tracknumber` 5; a total of 0 gives no `totaltracks`. -/
theorem C4_index_and_total_back_witness :
    (IsMap natLt [(Tag.kTrack, "5/12".toList), (Tag.kTitle, "x".toList)] ∧
      (5 : Nat) < 2147483648 ∧ (12 : Nat) < 2147483648) ∧
    ((mapFind Tag.kTrack [(Tag.kTrack, "5/12".toList), (Tag.kTitle, "x".toList)] =
        some (natToDec 5) →
      mapFind "tracknumber".toList (ConvertFromItunesTags sampleGenre
          [(Tag.kTrack, "5/12".toList), (Tag.kTitle, "x".toList)]) = some (natToDec 5) ∧
      mapFind "totaltracks".toList (ConvertFromItunesTags sampleGenre
          [(Tag.kTrack, "5/12".toList), (Tag.kTitle, "x".toList)]) = none) ∧
    (mapFind Tag.kTrack [(Tag.kTrack, "5/12".toList), (Tag.kTitle, "x".toList)] =
        some (indexSlashTotal 5 12) →
      mapFind "tracknumber".toList (ConvertFromItunesTags sampleGenre
          [(Tag.kTrack, "5/12".toList), (Tag.kTitle, "x".toList)]) = some (natToDec 5) ∧
      mapFind "totaltracks".toList (ConvertFromItunesTags sampleGenre
          [(Tag.kTrack, "5/12".toList), (Tag.kTitle, "x".toList)]) =
        if 0 < 12 then some (natToDec 12) else none) ∧
    (mapFind Tag.kDisk [(Tag.kTrack, "5/12".toList), (Tag.kTitle, "x".toList)] =
        some (natToDec 5) →
      mapFind "discnumber".toList (ConvertFromItunesTags sampleGenre
          [(Tag.kTrack, "5/12".toList), (Tag.kTitle, "x".toList)]) = some (natToDec 5) ∧
      mapFind "totaldiscs".toList (ConvertFromItunesTags sampleGenre
          [(Tag.kTrack, "5/12".toList), (Tag.kTitle, "x".toList)]) = none) ∧
    (mapFind Tag.kDisk [(Tag.kTrack, "5/12".toList), (Tag.kTitle, "x".toList)] =
        some (indexSlashTotal 5 12) →
      mapFind "discnumber".toList (ConvertFromItunesTags sampleGenre
          [(Tag.kTrack, "5/12".toList), (Tag.kTitle, "x".toList)]) = some (natToDec 5) ∧
      mapFind "totaldiscs".toList (ConvertFromItunesTags sampleGenre
          [(Tag.kTrack, "5/12".toList), (Tag.kTitle, "x".toList)]) =
        if 0 < 12 then some (natToDec 12) else none)) ∧
    mapFind Tag.kTrack [(Tag.kTrack, "5/12".toList), (Tag.kTitle, "x".toList)] =
      some (indexSlashTotal 5 12) ∧
    ConvertFromItunesTags sampleGenre [(Tag.kTrack, "5/12".toList), (Tag.kTitle, "x".toList)] =
      [("title".toList, "x".toList), ("totaltracks".toList, "12".toList),
        ("tracknumber".toList, "5".toList)] ∧
    ConvertFromItunesTags sampleGenre [(Tag.kTrack, "5/0".toList)] =
      [("tracknumber".toList, "5".toList)] :=
  ⟨⟨by unfold IsMap; decide, by decide, by decide⟩,
   C4_index_and_total_back sampleGenre
     [(Tag.kTrack, "5/12".toList), (Tag.kTitle, "x".toList)] 5 12
     (by unfold IsMap; decide) (by decide) (by decide),
   by decide, by decide, by decide⟩

/-- C14. For a store (a `std::map`) with a GenreID3 tag whose value is the decimal
text of `n` and without a textual Genre tag, the result of
`Vorbis::ConvertFromItunesTags` has the comment `genre` with the text that the genre
table gives for the zero-based index `n - 1`, that is for the 1-based code `n`. -/
theorem C14_genre_code_to_text (genre : Int → Str) (itags : TagStore) (n : Nat)
    (hm : IsMap natLt itags) (hn : n < 2147483648)
    (h : mapFind Tag.kGenreID3 itags = some (natToDec n))
    (hng : mapFind Tag.kGenre itags = none) :
    mapFind "genre".toList (ConvertFromItunesTags genre itags) =
      some (genre ((n : Int) - 1)) :=
  from_genreID3 genre itags n hm hn h hng

/-- C14, at the code 2 in a store that also holds a title, with the three-entry
sample table: the comment `genre` is the entry of index 1. -/
theorem C14_genre_code_to_text_witness :
    (IsMap natLt [(Tag.kGenreID3, "2".toList), (Tag.kTitle, "x".toList)] ∧
      (2 : Nat) < 2147483648 ∧
      mapFind Tag.kGenreID3 [(Tag.kGenreID3, "2".toList), (Tag.kTitle, "x".toList)] =
        some (natToDec 2) ∧
      mapFind Tag.kGenre [(Tag.kGenreID3, "2".toList), (Tag.kTitle, "x".toList)] = none) ∧
    mapFind "genre".toList (ConvertFromItunesTags sampleGenre
        [(Tag.kGenreID3, "2".toList), (Tag.kTitle, "x".toList)]) =
      some (sampleGenre (((2 : Nat) : Int) - 1)) ∧
    sampleGenre (((2 : Nat) : Int) - 1) = "Classic Rock".toList :=
  ⟨⟨by unfold IsMap; decide, by decide, by decide, by decide⟩,
   C14_genre_code_to_text sampleGenre
     [(Tag.kGenreID3, "2".toList), (Tag.kTitle, "x".toList)] 2
     (by unfold IsMap; decide) (by decide) (by decide) (by decide),
   by decide⟩

/-- C15, refuted as stated: with the three-entry sample table the codes 0 and 200
are out of range, the table gives the empty text for them, and the result has the
comment `genre` with the empty value: the tag is not skipped. -/
theorem C15_out_of_range_counterexample :
    sampleGenre ((0 : Int) - 1) = [] ∧ sampleGenre ((200 : Int) - 1) = [] ∧
    ConvertFromItunesTags sampleGenre [(Tag.kGenreID3, "0".toList)] =
      [("genre".toList, [])] ∧
    ConvertFromItunesTags sampleGenre [(Tag.kGenreID3, "200".toList)] =
      [("genre".toList, [])] ∧
    ConvertFromItunesTags sampleGenre [(Tag.kGenreID3, "200".toList)] ≠ [] := by
  decide

/-- C15, amended. For a store (a `std::map`) with a GenreID3 tag whose value is the
decimal text of a code `n` for which the genre table gives the empty text (`n` out
of range), and without a textual Genre tag, the result of
`Vorbis::ConvertFromItunesTags` has the comment `genre` with the empty value. -/
theorem C15_out_of_range_gives_empty (genre : Int → Str) (itags : TagStore) (n : Nat)
    (hm : IsMap natLt itags) (hn : n < 2147483648)
    (h : mapFind Tag.kGenreID3 itags = some (natToDec n))
    (hng : mapFind Tag.kGenre itags = none)
    (hout : genre ((n : Int) - 1) = []) :
    mapFind "genre".toList (ConvertFromItunesTags genre itags) = some [] ∧
    ("genre".toList, []) ∈ ConvertFromItunesTags genre itags := by
  have h1 := from_genreID3 genre itags n hm hn h hng
  rw [hout] at h1
  exact ⟨h1, mem_of_mapFind_eq_some _ _ _ h1⟩

/-- C15 amended, at the code 200 with the three-entry sample table. -/
theorem C15_out_of_range_gives_empty_witness :
    (IsMap natLt [(Tag.kGenreID3, "200".toList)] ∧ (200 : Nat) < 2147483648 ∧
      mapFind Tag.kGenreID3 [(Tag.kGenreID3, "200".toList)] = some (natToDec 200) ∧
      mapFind Tag.kGenre [(Tag.kGenreID3, "200".toList)] = none ∧
      sampleGenre (((200 : Nat) : Int) - 1) = []) ∧
    (mapFind "genre".toList
        (ConvertFromItunesTags sampleGenre [(Tag.kGenreID3, "200".toList)]) = some [] ∧
      ("genre".toList, []) ∈
        ConvertFromItunesTags sampleGenre [(Tag.kGenreID3, "200".toList)]) :=
  ⟨⟨by unfold IsMap; decide, by decide, by decide, by decide, by decide⟩,
   C15_out_of_range_gives_empty sampleGenre [(Tag.kGenreID3, "200".toList)] 200
     (by unfold IsMap; decide) (by decide) (by decide) (by decide) (by decide)⟩

/-- C16. A Track, Disk or GenreID3 tag whose value does not start with a parsable
integer is passed over by the loop of `Vorbis::ConvertFromItunesTags`: the result
for a store with such a tag is the result for the store without it. -/
theorem C16_malformed_entry_skipped (genre : Int → Str) (l1 l2 : TagStore) (key : Nat)
    (value : Str)
    (hk : key = Tag.kTrack ∨ key = Tag.kDisk ∨ key = Tag.kGenreID3)
    (hv : scanInt value = none) :
    (∀ acc, fromStep genre acc (key, value) = acc) ∧
    ConvertFromItunesTags genre (l1 ++ (key, value) :: l2) =
      ConvertFromItunesTags genre (l1 ++ l2) := by
  have hstep : ∀ acc, fromStep genre acc (key, value) = acc := by
    intro acc
    rcases hk with h | h | h
    · rw [h, fromStep_track, fromIndexTotal_none _ _ _ _ hv]
    · rw [h, fromStep_disk, fromIndexTotal_none _ _ _ _ hv]
    · rw [h, fromStep_genreID3, if_neg (sscanf_d_none value 0 hv)]
  refine ⟨hstep, ?_⟩
  unfold ConvertFromItunesTags
  rw [List.foldl_append, List.foldl_cons, hstep, List.foldl_append]

/-- C16, at a store with the Track value "abc" and a title: the result is the
comment `title` alone. -/
theorem C16_malformed_entry_skipped_witness :
    ((Tag.kTrack = Tag.kTrack ∨ Tag.kTrack = Tag.kDisk ∨ Tag.kTrack = Tag.kGenreID3) ∧
      scanInt "abc".toList = none) ∧
    ((∀ acc, fromStep sampleGenre acc (Tag.kTrack, "abc".toList) = acc) ∧
      ConvertFromItunesTags sampleGenre
          ([] ++ (Tag.kTrack, "abc".toList) :: [(Tag.kTitle, "x".toList)]) =
        ConvertFromItunesTags sampleGenre ([] ++ [(Tag.kTitle, "x".toList)])) ∧
    ConvertFromItunesTags sampleGenre [(Tag.kTrack, "abc".toList), (Tag.kTitle, "x".toList)] =
      [("title".toList, "x".toList)] :=
  ⟨⟨by decide, by decide⟩,
   C16_malformed_entry_skipped sampleGenre [] [(Tag.kTitle, "x".toList)] Tag.kTrack
     "abc".toList (by decide) (by decide),
   by decide⟩

/-! ## `ShortTagWriter::writeTag` -/

/-- C20. `ShortTagWriter::writeTag` for one tag: under Track and Disk a value `n` or
`n/t` (decimal) makes exactly one track, resp. disk, write of `(n, t)`, with `t = 0`
when there is no total; under Compilation, Tempo and GenreID3 a decimal value `n`
makes exactly one 8-bit, 16-bit, resp. genre write of `n`; under these five keys a
value whose C string does not start with a parsable integer makes no write; under
every other key there is exactly one string write of the C string of the value,
which is the value when it has no NUL. -/
theorem C20_short_tag_writes (key : Nat) (value : Str) (n t : Nat)
    (hn : n < 2147483648) (ht : t < 2147483648) :
    writeTag Tag.kTrack (natToDec n) = [MetadataWrite.SetMetadataTrack n 0] ∧
    writeTag Tag.kTrack (indexSlashTotal n t) = [MetadataWrite.SetMetadataTrack n t] ∧
    writeTag Tag.kDisk (natToDec n) = [MetadataWrite.SetMetadataDisk n 0] ∧
    writeTag Tag.kDisk (indexSlashTotal n t) = [MetadataWrite.SetMetadataDisk n t] ∧
    writeTag Tag.kCompilation (natToDec n) =
      [MetadataWrite.SetMetadataUint8 Tag.kCompilation n] ∧
    writeTag Tag.kTempo (natToDec n) = [MetadataWrite.SetMetadataUint16 Tag.kTempo n] ∧
    writeTag Tag.kGenreID3 (natToDec n) = [MetadataWrite.SetMetadataGenre Tag.kGenreID3 n] ∧
    (scanInt (c_str value) = none →
      key = Tag.kTrack ∨ key = Tag.kDisk ∨ key = Tag.kCompilation ∨ key = Tag.kTempo ∨
        key = Tag.kGenreID3 →
      writeTag key value = []) ∧
    (key ≠ Tag.kTrack → key ≠ Tag.kDisk → key ≠ Tag.kCompilation → key ≠ Tag.kTempo →
      key ≠ Tag.kGenreID3 →
      writeTag key value = [MetadataWrite.SetMetadataString key (c_str value)]) ∧
    (NulFree value → c_str value = value) := by
  have c1 : c_str (natToDec n) = natToDec n := c_str_of_nulFree _ (nulFree_natToDec n)
  have c2 : c_str (indexSlashTotal n t) = indexSlashTotal n t :=
    c_str_of_nulFree _ (nulFree_indexSlashTotal n t)
  have p1 : ((1 : Int) > 0) := by decide
  have p2 : ((2 : Int) > 0) := by decide
  refine ⟨?_, ?_, ?_, ?_, ?_, ?_, ?_, ?_, ?_, c_str_of_nulFree value⟩
  · rw [writeTag_track _ _ rfl, c1, sscanf_d_slash_d_dec n hn]
    exact if_pos p1
  · rw [writeTag_track _ _ rfl, c2, sscanf_d_slash_d_indexSlashTotal n t hn ht]
    exact if_pos p2
  · rw [writeTag_disk _ _ rfl, c1, sscanf_d_slash_d_dec n hn]
    exact if_pos p1
  · rw [writeTag_disk _ _ rfl, c2, sscanf_d_slash_d_indexSlashTotal n t hn ht]
    exact if_pos p2
  · rw [writeTag_compilation _ _ rfl, c1, sscanf_d_dec n hn]
    exact if_pos rfl
  · rw [writeTag_tempo _ _ rfl, c1, sscanf_d_dec n hn]
    exact if_pos rfl
  · rw [writeTag_genreID3 _ _ rfl, c1, sscanf_d_dec n hn]
    exact if_pos rfl
  · intro hv hk
    have q1 : ¬ (sscanf_d_slash_d (c_str value) 0 0).1 > 0 := by
      have := sscanf_d_slash_d_none (c_str value) 0 0 hv
      omega
    have q2 := sscanf_d_none (c_str value) 0 hv
    rcases hk with h | h | h | h | h
    · rw [writeTag_track _ _ h, if_neg q1]
    · rw [writeTag_disk _ _ h, if_neg q1]
    · rw [writeTag_compilation _ _ h, if_neg q2]
    · rw [writeTag_tempo _ _ h, if_neg q2]
    · rw [writeTag_genreID3 _ _ h, if_neg q2]
  · exact writeTag_other key value

/-- C20, at Track "5/12", at the text "abc" under Tempo (no write), and at a
Title. -/
theorem C20_short_tag_writes_witness :
    ((5 : Nat) < 2147483648 ∧ (12 : Nat) < 2147483648) ∧
    (writeTag Tag.kTrack (natToDec 5) = [MetadataWrite.SetMetadataTrack ((5 : Nat) : Int) 0] ∧
    writeTag Tag.kTrack (indexSlashTotal 5 12) =
      [MetadataWrite.SetMetadataTrack ((5 : Nat) : Int) ((12 : Nat) : Int)] ∧
    writeTag Tag.kDisk (natToDec 5) = [MetadataWrite.SetMetadataDisk ((5 : Nat) : Int) 0] ∧
    writeTag Tag.kDisk (indexSlashTotal 5 12) =
      [MetadataWrite.SetMetadataDisk ((5 : Nat) : Int) ((12 : Nat) : Int)] ∧
    writeTag Tag.kCompilation (natToDec 5) =
      [MetadataWrite.SetMetadataUint8 Tag.kCompilation ((5 : Nat) : Int)] ∧
    writeTag Tag.kTempo (natToDec 5) =
      [MetadataWrite.SetMetadataUint16 Tag.kTempo ((5 : Nat) : Int)] ∧
    writeTag Tag.kGenreID3 (natToDec 5) =
      [MetadataWrite.SetMetadataGenre Tag.kGenreID3 ((5 : Nat) : Int)] ∧
    (scanInt (c_str "abc".toList) = none →
      Tag.kTempo = Tag.kTrack ∨ Tag.kTempo = Tag.kDisk ∨ Tag.kTempo = Tag.kCompilation ∨
        Tag.kTempo = Tag.kTempo ∨ Tag.kTempo = Tag.kGenreID3 →
      writeTag Tag.kTempo "abc".toList = []) ∧
    (Tag.kTempo ≠ Tag.kTrack → Tag.kTempo ≠ Tag.kDisk → Tag.kTempo ≠ Tag.kCompilation →
      Tag.kTempo ≠ Tag.kTempo → Tag.kTempo ≠ Tag.kGenreID3 →
      writeTag Tag.kTempo "abc".toList =
        [MetadataWrite.SetMetadataString Tag.kTempo (c_str "abc".toList)]) ∧
    (NulFree "abc".toList → c_str "abc".toList = "abc".toList)) ∧
    writeTag Tag.kTempo "abc".toList = [] ∧
    writeTag Tag.kTitle "abc".toList = [MetadataWrite.SetMetadataString Tag.kTitle "abc".toList] ∧
    writeTag Tag.kTrack "5/12".toList = [MetadataWrite.SetMetadataTrack 5 12] :=
  ⟨by decide, C20_short_tag_writes Tag.kTempo "abc".toList 5 12 (by decide) (by decide),
   by decide, by decide, by decide⟩

/-! ## The round trip `ConvertToItunesTags ∘ ConvertFromItunesTags` -/

/-- C1, refuted as stated: the keys Track and GenreID3 are in the name table, yet the
store with Track `5/0` comes back with Track `5`, the store with Track `abc` comes
back empty, and (with the three-entry sample genre table) the store with GenreID3
`2` comes back with the textual Genre `Classic Rock` instead. -/
theorem C1_roundtrip_counterexample :
    GetNameFromTagID Tag.kTrack = some "tracknumber".toList ∧
    GetNameFromTagID Tag.kGenreID3 = some "genre".toList ∧
    ConvertToItunesTags (ConvertFromItunesTags sampleGenre [(Tag.kTrack, "5/0".toList)]) =
      [(Tag.kTrack, "5".toList)] ∧
    ConvertToItunesTags (ConvertFromItunesTags sampleGenre [(Tag.kTrack, "5/0".toList)]) ≠
      [(Tag.kTrack, "5/0".toList)] ∧
    ConvertToItunesTags (ConvertFromItunesTags sampleGenre [(Tag.kTrack, "abc".toList)]) =
      [] ∧
    ConvertToItunesTags (ConvertFromItunesTags sampleGenre [(Tag.kGenreID3, "2".toList)]) =
      [(Tag.kGenre, "Classic Rock".toList)] := by
  decide

/-- C1, amended. For every store (a `std::map`) whose tags are text tags (Title,
Artist, AlbumArtist, Album, Grouping, Composer, Genre, Date, Comment, any value) or
Track and Disk tags with a value in canonical form (`i`, or `i/t` with `t > 0`, in
decimal), converting it with `Vorbis::ConvertFromItunesTags` and the result back
with `Vorbis::ConvertToItunesTags` yields the store, whatever the genre table is. -/
theorem C1_roundtrip (genre : Int → Str) (store : TagStore) (hm : IsMap natLt store)
    (hok : ∀ kv ∈ store, RoundTripTag kv) :
    ConvertToItunesTags (ConvertFromItunesTags genre store) = store :=
  isMap_ext natLt_strictOrder _ _ (isMap_convertTo _) hm
    (roundtrip_find genre store hm hok)

/-- C1 amended, at a store with Disk `1`, Track `5/12` and a title. -/
theorem C1_roundtrip_witness :
    (IsMap natLt
        [(Tag.kDisk, "1".toList), (Tag.kTrack, "5/12".toList), (Tag.kTitle, "x".toList)] ∧
      ∀ kv ∈ [(Tag.kDisk, "1".toList), (Tag.kTrack, "5/12".toList),
        (Tag.kTitle, "x".toList)], RoundTripTag kv) ∧
    ConvertToItunesTags (ConvertFromItunesTags sampleGenre
        [(Tag.kDisk, "1".toList), (Tag.kTrack, "5/12".toList), (Tag.kTitle, "x".toList)]) =
      [(Tag.kDisk, "1".toList), (Tag.kTrack, "5/12".toList), (Tag.kTitle, "x".toList)] := by
  have hok : ∀ kv ∈ [(Tag.kDisk, "1".toList), (Tag.kTrack, "5/12".toList),
      (Tag.kTitle, "x".toList)], RoundTripTag kv := by
    intro kv hkv
    rcases List.mem_cons.mp hkv with h | hkv
    · rw [h]
      exact Or.inr ⟨Or.inr rfl, 1, 0, by decide, by decide, Or.inl (by decide)⟩
    rcases List.mem_cons.mp hkv with h | hkv
    · rw [h]
      exact Or.inr ⟨Or.inl rfl, 5, 12, by decide, by decide, Or.inr ⟨by decide, by decide⟩⟩
    rcases List.mem_cons.mp hkv with h | hkv
    · rw [h]
      exact Or.inl (by decide)
    · simp at hkv
  exact ⟨⟨by unfold IsMap; decide, hok⟩,
    C1_roundtrip sampleGenre
      [(Tag.kDisk, "1".toList), (Tag.kTrack, "5/12".toList), (Tag.kTitle, "x".toList)]
      (by unfold IsMap; decide) hok⟩

end Qaac
